import Mathlib

/-!
Verification of the numeric-literal scanner (`src/lexer/numeric.ts`) of the
meriyah parser, plus the spec-modelled Annex-B function-declaration placement
rule.  Source text is modelled as a list of code points; the scanner state is
an explicit record; JavaScript numbers are modelled by exact rationals (the
scanner only ever performs exact integer and decimal arithmetic on the inputs
considered here); the untyped `value` accumulator, which in the source is
either a JS number or a JS string, is modelled by the sum type `JSVal`.
Reading one code point past the end of the buffer yields `0`, a code point
with no lexical category, mirroring `charCodeAt` returning `NaN`, which has
an empty classification bitset.
-/

namespace Meriyah

/-! ## Character classification

Modelled from the spec (section 4.1, "Character classification tables"): a
static lookup from a code point to lexical categories (decimal digit, hex
digit, octal digit, binary digit, separator, identifier-start).  The table
itself (`CharTypes` in the source) is not under `src/`; the categories below
are its standard ASCII content.  `isIdentifierStartCp` models the ASCII
fragment of `isIdentifierStart` (letters, `$`, `_`); the claims verified here
only quantify over ASCII code points. -/

def isDecimalDigit (c : Nat) : Bool := 48 ≤ c && c ≤ 57

def isHexDigit (c : Nat) : Bool :=
  (48 ≤ c && c ≤ 57) || (97 ≤ c && c ≤ 102) || (65 ≤ c && c ≤ 70)

def isOctalDigit (c : Nat) : Bool := 48 ≤ c && c ≤ 55

def isBinaryDigit (c : Nat) : Bool := c == 48 || c == 49

/-- The class `CharFlags.ImplicitOctalDigits`: the digits `8` and `9`. -/
def isImplicitOctalDigit (c : Nat) : Bool := c == 56 || c == 57

/-- The class `CharFlags.Exponent`: the sign characters `+` and `-`. -/
def isExponentSign (c : Nat) : Bool := c == 43 || c == 45

def isIdentifierStartCp (c : Nat) : Bool :=
  (65 ≤ c && c ≤ 90) || (97 ≤ c && c ≤ 122) || c == 36 || c == 95

/-- Modelled from the spec: `toHex` maps a hex-digit code point to its value
(digits via `c - 48`, letters case-folded via `| 32` then `- 87`). -/
def toHexVal (c : Nat) : Nat := if c ≤ 57 then c - 48 else (c ||| 32) - 87

/-! ## Exact JavaScript number and string arithmetic -/

/-- Decimal value of a list of decimal-digit code points (big-endian). -/
def decDigitsVal (l : List Nat) : Nat := l.foldl (fun a c => 10 * a + (c - 48)) 0

/-- Decimal digit code points of `n`, most significant first (fuelled
implementation of JS number-to-string on nonnegative integers). -/
def natDigitsAux : Nat → Nat → List Nat
  | 0, _ => []
  | fuel + 1, n => if n < 10 then [n + 48] else natDigitsAux fuel (n / 10) ++ [n % 10 + 48]

def natDigits (n : Nat) : List Nat := natDigitsAux (n + 1) n

/-- Exact value of a JS numeric string of shape
`digits? ('.' digits?)? (('e'|'E') ('+'|'-')? digits)?`; this models both
`parseFloat` and string-to-number coercion (unary `+`) on every string the
scanner actually produces or re-parses (such strings always have this shape,
with `parseFloat` ignoring any unparseable suffix, as this function does). -/
def jsNumParse (l : List Nat) : ℚ :=
  let ip := l.takeWhile isDecimalDigit
  let r1 := l.drop ip.length
  let fp := match r1 with | 46 :: t => t.takeWhile isDecimalDigit | _ => []
  let r2 := match r1 with | 46 :: t => t.drop fp.length | _ => r1
  let mant : ℚ := (decDigitsVal ip : ℚ) + (decDigitsVal fp : ℚ) / ((10 : ℚ) ^ fp.length)
  match r2 with
  | c :: t =>
    if c = 101 ∨ c = 69 then
      match t with
      | 43 :: u => mant * (10 : ℚ) ^ decDigitsVal (u.takeWhile isDecimalDigit)
      | 45 :: u => mant / (10 : ℚ) ^ decDigitsVal (u.takeWhile isDecimalDigit)
      | u => mant * (10 : ℚ) ^ decDigitsVal (u.takeWhile isDecimalDigit)
    else mant
  | [] => mant

/-- The untyped `value` accumulator of `scanNumber`: a JS number (always a
nonnegative integer while it is still a number) or a JS string (kept as a
list of code points). -/
inductive JSVal where
  | num (n : Nat)
  | str (s : List Nat)
deriving DecidableEq, Repr

/-- Code points of the JS string conversion of a `JSVal`. -/
def JSVal.chars : JSVal → List Nat
  | .num n => natDigits n
  | .str s => s

/-- JS `value + s` where `s` is a string: number-to-string conversion then
concatenation. -/
def jsAdd (v : JSVal) (s : List Nat) : JSVal := .str (v.chars ++ s)

/-- JS `ToNumber` (unary `+`) of a `JSVal`. -/
def JSVal.toQ : JSVal → ℚ
  | .num n => n
  | .str s => jsNumParse s

/-- JS `parseInt(value, 10)`: stringify, then parse the leading decimal
digits. -/
def jsParseInt10 (v : JSVal) : ℚ :=
  match v with
  | .num n => n
  | .str s => decDigitsVal (s.takeWhile isDecimalDigit)

/-! ## Scanner data model -/

/-- The error kinds reported by the numeric sub-machine. -/
inductive Errors where
  | MissingHexDigits
  | TrailingNumericSeparator
  | ContinuousNumericSeparator
  | StrictOctalEscape
  | InvalidBigInt
  | MissingExponent
  | IDStartAfterNumber
  | Unexpected
deriving DecidableEq, Repr

inductive Token where
  | NumericLiteral
  | BigIntLiteral
deriving DecidableEq, Repr

/-- Modelled from the spec: `NumberKind` of `lexer/index` (not under `src/`)
is a bitmask with `DecimalNumberKind = Decimal | DecimalWithLeadingZero` and
`ValidBigIntKind = Binary | Octal | Hex | Decimal`; `FloatDecimal` stands for
the combination `Float | Decimal` the scanner passes for a literal starting
with `.`. -/
inductive NumberKind where
  | Decimal
  | Hex
  | Octal
  | Binary
  | ImplicitOctal
  | DecimalWithLeadingZero
  | Float
  | FloatDecimal
deriving DecidableEq, Repr

def NumberKind.isFloat : NumberKind → Bool
  | .Float => true
  | .FloatDecimal => true
  | _ => false

def NumberKind.isDecimalNumberKind : NumberKind → Bool
  | .Decimal => true
  | .DecimalWithLeadingZero => true
  | .FloatDecimal => true
  | _ => false

def NumberKind.isValidBigIntKind : NumberKind → Bool
  | .Decimal => true
  | .Hex => true
  | .Octal => true
  | .Binary => true
  | .FloatDecimal => true
  | _ => false

def NumberKind.isRadixKind : NumberKind → Bool
  | .ImplicitOctal => true
  | .Binary => true
  | .Hex => true
  | .Octal => true
  | _ => false

/-- Modelled from the spec: the context bits of `Context` consulted by
`scanNumber` (`Context.Strict`, `Context.OptionsRaw`). -/
structure Context where
  strict : Bool
  optionsRaw : Bool
deriving DecidableEq, Repr

/-- Modelled from the spec: `Flags.Octals`, the per-parse flag recording
"legacy octal seen" (its numeric bit value is irrelevant here, only that it
is nonzero). -/
def flagsOctals : Nat := 64

/-- The fields of `ParserState` read or written by `scanNumber`.  `end` in
the source is the buffer length, recovered as `source.length`. -/
structure ParserState where
  source : List Nat
  index : Nat
  tokenIndex : Nat
  flags : Nat
  tokenValue : ℚ
  tokenRaw : List Nat
deriving DecidableEq, Repr

instance {ε α : Type} [DecidableEq ε] [DecidableEq α] : DecidableEq (Except ε α) :=
  fun a b =>
  match a, b with
  | .error e, .error f =>
    if h : e = f then .isTrue (h ▸ rfl) else .isFalse fun hc => h (Except.error.inj hc)
  | .error _, .ok _ => .isFalse fun hc => Except.noConfusion hc
  | .ok _, .error _ => .isFalse fun hc => Except.noConfusion hc
  | .ok x, .ok y =>
    if h : x = y then .isTrue (h ▸ rfl) else .isFalse fun hc => h (Except.ok.inj hc)

/-- Current code point (`parser.nextCP`); `0` past the end of the buffer. -/
def curCP (p : ParserState) : Nat := p.source.getD p.index 0

/-- Advance the cursor by `k` code points (`k` applications of `nextCP`). -/
def adv (p : ParserState) (k : Nat) : ParserState := { p with index := p.index + k }

/-- The unread part of the buffer. -/
def restCP (p : ParserState) : List Nat := p.source.drop p.index

/-- JS `source.slice(a, b)` / `source.substring(a, b)` as code points. -/
def sliceCP (l : List Nat) (a b : Nat) : List Nat := (l.drop a).take (b - a)

/-- Initial scanner state for a token starting at offset `0` of `src`. -/
def mkParser (src : List Nat) : ParserState :=
  { source := src, index := 0, tokenIndex := 0, flags := 0, tokenValue := 0, tokenRaw := [] }

/-! ## The scanning loops

Each `while` loop of the source is a structurally recursive function on the
unread stream, returning the number of code points consumed together with the
loop's accumulators.  Reaching the end of the list corresponds to the source
reading the sentinel `NaN`, whose classification is empty, so every loop
condition fails there. -/

/-- The three radix-digit loops of `scanNumber` (`numeric.ts` lines 38-53,
58-74 and 78-94), which differ only in the digit class `isDig`, the digit
value function `dv` (hex uses `toHex`, octal and binary use `c - 48`) and the
base.  Returns `(consumed, value, digits, allowSeparator)`. -/
def radixLoop (isDig : Nat → Bool) (dv : Nat → Nat) (base : Nat) :
    List Nat → Nat → Nat → Bool → Except Errors (Nat × Nat × Nat × Bool)
  | [], value, digits, allowSep => .ok (0, value, digits, allowSep)
  | c :: t, value, digits, allowSep =>
    if isDig c || c == 95 then
      if c == 95 then
        if !allowSep then .error .ContinuousNumericSeparator
        else
          match radixLoop isDig dv base t value digits false with
          | .error e => .error e
          | .ok (k, v, d, a) => .ok (k + 1, v, d, a)
      else
        match radixLoop isDig dv base t (value * base + dv c) (digits + 1) true with
        | .error e => .error e
        | .ok (k, v, d, a) => .ok (k + 1, v, d, a)
    else .ok (0, value, digits, allowSep)

/-- The implicit-octal loop (`numeric.ts` lines 99-107).  Returns
`(consumed, value, stillImplicitOctal)`; the loop breaks without consuming
the first `8` or `9`, switching the kind to `DecimalWithLeadingZero`. -/
def implicitOctalLoop : List Nat → Nat → Nat × Nat × Bool
  | [], value => (0, value, true)
  | c :: t, value =>
    if isDecimalDigit c then
      if isImplicitOctalDigit c then (0, value, false)
      else
        let r := implicitOctalLoop t (value * 8 + (c - 48))
        (r.1 + 1, r.2.1, r.2.2)
    else (0, value, true)

/-- The fast decimal loop (`numeric.ts` lines 120-131): at most ten digits
are accumulated (`digit` counts down from `9`); a separator peeks at the next
code point and reports a doubled separator at once.  Returns
`(consumed, digit, value, allowSeparator)`. -/
def fastLoop : List Nat → Int → Nat → Bool → Except Errors (Nat × Int × Nat × Bool)
  | [], digit, value, allowSep => .ok (0, digit, value, allowSep)
  | c :: t, digit, value, allowSep =>
    if decide (0 ≤ digit) && (isDecimalDigit c || c == 95) then
      if c == 95 then
        if t.headD 0 == 95 then .error .ContinuousNumericSeparator
        else
          match fastLoop t digit value true with
          | .error e => .error e
          | .ok (k, d, v, a) => .ok (k + 1, d, v, a)
      else
        match fastLoop t (digit - 1) (10 * value + (c - 48)) false with
        | .error e => .error e
        | .ok (k, d, v, a) => .ok (k + 1, d, v, a)
    else .ok (0, digit, value, allowSep)

/-- The loop `scanDecimalDigitsOrSeparator` (`numeric.ts` lines 214-235): consumes
decimal digits and separators, returning the digit code points with the
separators stripped, together with the number of code points consumed. -/
def scanDecDigits : List Nat → Bool → Except Errors (Nat × List Nat)
  | [], allowSep =>
    if allowSep then .error .TrailingNumericSeparator else .ok (0, [])
  | c :: t, allowSep =>
    if isDecimalDigit c then
      match scanDecDigits t false with
      | .error e => .error e
      | .ok (k, ds) => .ok (k + 1, c :: ds)
    else if c == 95 then
      if t.headD 0 == 95 then .error .ContinuousNumericSeparator
      else
        match scanDecDigits t true with
        | .error e => .error e
        | .ok (k, ds) => .ok (k + 1, ds)
    else if allowSep then .error .TrailingNumericSeparator
    else .ok (0, [])

/-! ## `scanNumber`, staged

The source function is one straight-line body with loops and one early
return; it is decomposed here into its sequential stages, named after the
line ranges of `src/src/lexer/numeric.ts` they embed. -/

/-- Lines 157-205: BigInt suffix or exponent, the identifier-start check, and
value materialization.  `value` is the accumulator at line 157. -/
def scanNumberTail (p : ParserState) (ctx : Context) (kind : NumberKind) (value : JSVal) :
    Except Errors (ParserState × Token) :=
  let endIdx := p.index
  let step : Except Errors (ParserState × JSVal × Bool) :=
    if curCP p == 110 && kind.isValidBigIntKind then .ok (adv p 1, value, true)
    else if (curCP p ||| 32) == 101 then
      let p1 := adv p 1
      let p2 := if isExponentSign (curCP p1) then adv p1 1 else p1
      let idx := p2.index
      if !isDecimalDigit (curCP p2) then .error .MissingExponent
      else
        match scanDecDigits (restCP p2) false with
        | .error e => .error e
        | .ok (k, ds) =>
          .ok (adv p2 k, jsAdd value (sliceCP p2.source endIdx idx ++ ds), false)
    else .ok (p, value, false)
  match step with
  | .error e => .error e
  | .ok (p3, value3, isBigInt) =>
    let c := curCP p3
    if (decide (p3.index < p3.source.length) && isDecimalDigit c) || isIdentifierStartCp c then
      .error .IDStartAfterNumber
    else if isBigInt then
      .ok ({ p3 with tokenRaw := sliceCP p3.source p3.tokenIndex p3.index,
                     tokenValue := jsParseInt10 value3 }, .BigIntLiteral)
    else
      let tv : ℚ :=
        if kind.isRadixKind then value3.toQ
        else if kind == .DecimalWithLeadingZero then
          jsNumParse (sliceCP p3.source p3.tokenIndex p3.index)
        else value3.toQ
      .ok ({ p3 with tokenValue := tv,
                     tokenRaw := if ctx.optionsRaw then sliceCP p3.source p3.tokenIndex p3.index
                                 else p3.tokenRaw }, .NumericLiteral)

/-- Lines 144-155: remaining decimal digits, then an optional fraction, then
the tail. -/
def scanNumberRest (p : ParserState) (ctx : Context) (kind : NumberKind) (value : JSVal) :
    Except Errors (ParserState × Token) :=
  match scanDecDigits (restCP p) false with
  | .error e => .error e
  | .ok (k, ds) =>
    let p1 := adv p k
    let value1 := jsAdd value ds
    if curCP p1 == 46 then
      let p2 := adv p1 1
      if curCP p2 == 95 then .error .Unexpected
      else
        match scanDecDigits (restCP p2) false with
        | .error e => .error e
        | .ok (k2, ds2) => scanNumberTail (adv p2 k2) ctx .Float (jsAdd value1 (46 :: ds2))
    else scanNumberTail p1 ctx kind value1

/-- Lines 118-155: the decimal section, with the optimized early return for
plain integers (lines 135-141). -/
def scanDecimalPart (p : ParserState) (ctx : Context) (kind : NumberKind) (value : Nat)
    (atStart : Bool) : Except Errors (ParserState × Token) :=
  if kind.isDecimalNumberKind then
    if atStart then
      match fastLoop (restCP p) 9 value false with
      | .error e => .error e
      | .ok (k, digit, v, allowSep) =>
        let p1 := adv p k
        if allowSep then .error .TrailingNumericSeparator
        else if decide (0 ≤ digit) && !isIdentifierStartCp (curCP p1) && curCP p1 != 46 then
          .ok ({ p1 with tokenValue := (v : ℚ),
                         tokenRaw := if ctx.optionsRaw then
                             sliceCP p1.source p1.tokenIndex p1.index
                           else p1.tokenRaw }, .NumericLiteral)
        else scanNumberRest p1 ctx kind (.num v)
    else scanNumberRest p ctx kind (.num value)
  else scanNumberTail p ctx kind (.num value)

/-- Lines 31-115: the branch on a leading `0` (radix prefixes, legacy
implicit octal, decimal with leading zero, a separator directly after `0`).
Returns the state, kind, integer accumulator and `atStart` at line 117.
Line 21 initializes `atStart` from the `Float` bit, which is absent on this
(integer) path, and line 102 only clears it, so the returned `atStart` is
always `false` here. -/
def scanZero (p : ParserState) (ctx : Context) (kind0 : NumberKind) :
    Except Errors (ParserState × NumberKind × Nat × Bool) :=
  if curCP p == 48 then
    let p1 := adv p 1
    let c := curCP p1
    if (c ||| 32) == 120 then
      let p2 := adv p1 1
      match radixLoop isHexDigit toHexVal 16 (restCP p2) 0 0 false with
      | .error e => .error e
      | .ok (k, v, digits, allowSep) =>
        if digits < 1 || !allowSep then
          .error (if digits < 1 then .MissingHexDigits else .TrailingNumericSeparator)
        else .ok (adv p2 k, .Hex, v, false)
    else if (c ||| 32) == 111 then
      let p2 := adv p1 1
      match radixLoop isOctalDigit (fun c => c - 48) 8 (restCP p2) 0 0 false with
      | .error e => .error e
      | .ok (k, v, digits, allowSep) =>
        if digits < 1 || !allowSep then
          .error (if digits < 1 then .MissingHexDigits else .TrailingNumericSeparator)
        else .ok (adv p2 k, .Octal, v, false)
    else if (c ||| 32) == 98 then
      let p2 := adv p1 1
      match radixLoop isBinaryDigit (fun c => c - 48) 2 (restCP p2) 0 0 false with
      | .error e => .error e
      | .ok (k, v, digits, allowSep) =>
        if digits < 1 || !allowSep then
          .error (if digits < 1 then .MissingHexDigits else .TrailingNumericSeparator)
        else .ok (adv p2 k, .Binary, v, false)
    else if isOctalDigit c then
      if ctx.strict then .error .StrictOctalEscape
      else
        let r := implicitOctalLoop (restCP p1) 0
        if r.2.2 then .ok (adv p1 r.1, .ImplicitOctal, r.2.1, false)
        else .ok (adv p1 r.1, .DecimalWithLeadingZero, r.2.1, false)
    else if isImplicitOctalDigit c then
      if ctx.strict then .error .StrictOctalEscape
      else .ok ({ p1 with flags := flagsOctals }, .DecimalWithLeadingZero, 0, false)
    else if c == 95 then .error .Unexpected
    else .ok (p1, kind0, 0, false)
  else .ok (p, kind0, 0, false)

/-- The scanner `scanNumber` (`numeric.ts` lines 14-206).  The state `p` has the cursor
on the first code point of the literal for an integer start, or just past the
`.` for a float start (`kind0` with the `Float` bit). -/
def scanNumber (p : ParserState) (ctx : Context) (kind0 : NumberKind) :
    Except Errors (ParserState × Token) :=
  if kind0.isFloat then
    match scanDecDigits (restCP p) false with
    | .error e => .error e
    | .ok (k, ds) =>
      let p1 := adv p k
      if curCP p1 == 110 then .error .InvalidBigInt
      else scanNumberTail p1 ctx kind0 (.str (46 :: ds))
  else
    match scanZero p ctx kind0 with
    | .error e => .error e
    | .ok (p1, kind, value, atStart) => scanDecimalPart p1 ctx kind value atStart

/-- Convenience contexts. -/
def ctxSloppy : Context := { strict := false, optionsRaw := false }

def ctxStrict : Context := { strict := true, optionsRaw := false }

def ctxSloppyRaw : Context := { strict := false, optionsRaw := true }

/-! ## Annex-B function placement (C9)

The repository's `src/` holds only the numeric lexer and the function
declaration test file; the statement parser itself is not part of `src/`, so
the Annex-B placement rule is modelled from the spec. -/

/-- Modelled from the spec: the parser options exercised by the function
placement tests; only the web-compatibility bit (`OptionsWebCompat`) and the
strict bit matter here. -/
structure ParseOptions where
  webCompat : Bool
  strict : Bool
deriving DecidableEq, Repr

/-- Modelled from the spec: the AST fragment relevant to Annex-B function
placement -- a boolean literal, a function declaration, and an if-statement
with a test and a bare (non-block) consequent. -/
inductive Tree where
  | BooleanLiteral (b : Bool)
  | FunctionDeclaration (name : List Nat)
  | IfStatement (test : Tree) (consequent : Tree)
deriving DecidableEq, Repr

/-- Does the tree contain a `FunctionDeclaration` node? -/
def containsFunctionDecl : Tree → Bool
  | .FunctionDeclaration _ => true
  | .IfStatement t c => containsFunctionDecl t || containsFunctionDecl c
  | .BooleanLiteral _ => false

/-- Modelled from the spec: parsing a statement of the exact shape
`if (<test>) function <name>() {}`, a function declaration as the bare
consequent of an if-statement.  Under Annex-B web-compatibility semantics
this is allowed exactly when `OptionsWebCompat` is enabled and the code is
sloppy; under the default configuration it is a parse error. -/
def parseIfWithFunctionConsequent (opts : ParseOptions) (test : Bool)
    (name : List Nat) : Except Errors Tree :=
  if opts.webCompat && !opts.strict then
    .ok (.IfStatement (.BooleanLiteral test) (.FunctionDeclaration name))
  else .error .Unexpected

/-- The identifier `foo` of the C9 test source as code points. -/
def fooName : List Nat := [102, 111, 111]

/-! ## Separator-placement reference

`sepRun isDig a l` runs the separator-placement rules of the grammar over
`l`: a digit always continues (state `true` = a separator may follow), an
underscore needs state `true` and resets it, anything else is `none`.  A
digit-and-separator sequence is a valid literal body exactly when the run
from the appropriate initial state yields `some true`; `some false` is a
trailing separator, `none` a leading or doubled one (or a foreign code
point). -/

def sepRun (isDig : Nat → Bool) : Bool → List Nat → Option Bool
  | a, [] => some a
  | a, c :: t =>
    if isDig c then sepRun isDig true t
    else if c = 95 then (if a then sepRun isDig false t else none)
    else none

/-- The digit code points of a digit-and-separator sequence. -/
def digitsOf (l : List Nat) : List Nat := l.filter (fun c => c ≠ 95)

def numDigits (l : List Nat) : Nat := (digitsOf l).length

/-- The stream `post` stops a digit loop for the class `isDig` (an empty
stream reads as the code point `0`, which is in no class). -/
def stops (isDig : Nat → Bool) : List Nat → Bool
  | [] => true
  | c :: _ => !isDig c && c != 95

/-- The value the general (non-fast) path of `scanNumber` produces for a
plain decimal integer, following the spec's words for the refinement claim:
accumulate the scanned digit string (separators dropped) and coerce it to a
number. -/
def generalPathValue (l : List Nat) : ℚ := jsNumParse (digitsOf l)

end Meriyah

namespace Meriyah

/-! ## Basic plumbing lemmas -/

theorem getD_drop_headD (l : List Nat) (n : Nat) : l.getD n 0 = (l.drop n).headD 0 := by
  induction l generalizing n with
  | nil => cases n <;> rfl
  | cons c t ih => cases n with
    | zero => rfl
    | succ m => exact ih m

theorem curCP_eq (p : ParserState) : curCP p = (restCP p).headD 0 :=
  getD_drop_headD _ _

@[simp] theorem restCP_adv (p : ParserState) (k : Nat) :
    restCP (adv p k) = (restCP p).drop k := by
  simp [restCP, adv, List.drop_drop, Nat.add_comm]

@[simp] theorem adv_source (p : ParserState) (k : Nat) : (adv p k).source = p.source := rfl

@[simp] theorem adv_index (p : ParserState) (k : Nat) : (adv p k).index = p.index + k := rfl

@[simp] theorem adv_tokenIndex (p : ParserState) (k : Nat) :
    (adv p k).tokenIndex = p.tokenIndex := rfl

@[simp] theorem adv_tokenRaw (p : ParserState) (k : Nat) : (adv p k).tokenRaw = p.tokenRaw := rfl

@[simp] theorem adv_flags (p : ParserState) (k : Nat) : (adv p k).flags = p.flags := rfl

@[simp] theorem adv_zero (p : ParserState) : adv p 0 = p := by
  simp [adv]

theorem adv_adv (p : ParserState) (k m : Nat) : adv (adv p k) m = adv p (k + m) := by
  simp [adv, Nat.add_assoc]

/-- A nonempty unread stream means the cursor is inside the buffer. -/
theorem index_lt_of_restCP_cons (p : ParserState) (c : Nat) (t : List Nat)
    (h : restCP p = c :: t) : p.index < p.source.length := by
  by_contra hlt
  have : p.source.drop p.index = [] := List.drop_eq_nil_of_le (Nat.le_of_not_lt hlt)
  rw [restCP] at h
  simp [this] at h

/-- An empty unread stream means the cursor is at (or past) the end. -/
theorem not_index_lt_of_restCP_nil (p : ParserState) (h : restCP p = []) :
    ¬ p.index < p.source.length := by
  intro hlt
  have hlen : (p.source.drop p.index).length = p.source.length - p.index := by
    simp
  rw [restCP] at h
  rw [h] at hlen
  simp at hlen
  omega

/-! ## Digit-list arithmetic lemmas -/

theorem decDigitsVal_cons (c : Nat) (t : List Nat) :
    decDigitsVal (c :: t) = t.foldl (fun a d => 10 * a + (d - 48)) (c - 48) := by
  simp [decDigitsVal]

theorem decDigitsVal_append_singleton (l : List Nat) (d : Nat) :
    decDigitsVal (l ++ [d]) = 10 * decDigitsVal l + (d - 48) := by
  simp [decDigitsVal]

theorem foldl_dec_ge (l : List Nat) (a : Nat) :
    a ≤ l.foldl (fun a d => 10 * a + (d - 48)) a := by
  induction l generalizing a with
  | nil => exact Nat.le_refl a
  | cons c t ih => exact Nat.le_trans (by omega) (ih (10 * a + (c - 48)))

theorem decDigitsVal_pos (c : Nat) (t : List Nat) (hc : 49 ≤ c) :
    1 ≤ decDigitsVal (c :: t) := by
  rw [decDigitsVal_cons]
  exact Nat.le_trans (by omega) (foldl_dec_ge t (c - 48))

theorem natDigitsAux_fuel (f1 f2 n : Nat) (h1 : n < f1) (h2 : n < f2) :
    natDigitsAux f1 n = natDigitsAux f2 n := by
  induction n using Nat.strong_induction_on generalizing f1 f2 with
  | _ n ih =>
    match f1, f2 with
    | g1 + 1, g2 + 1 =>
      by_cases hn : n < 10
      · simp [natDigitsAux, hn]
      · have hd : n / 10 < n := Nat.div_lt_self (by omega) (by omega)
        simp only [natDigitsAux, if_neg hn]
        rw [ih (n / 10) hd g1 g2 (by omega) (by omega)]

theorem natDigits_ge_ten (n : Nat) (h : 10 ≤ n) :
    natDigits n = natDigits (n / 10) ++ [n % 10 + 48] := by
  have hd : n / 10 < n := Nat.div_lt_self (by omega) (by omega)
  rw [natDigits, natDigitsAux, if_neg (by omega)]
  rw [natDigits, natDigitsAux_fuel n (n / 10 + 1) (n / 10) (by omega) (by omega)]

theorem natDigits_lt_ten (n : Nat) (h : n < 10) : natDigits n = [n + 48] := by
  rw [natDigits, natDigitsAux, if_pos h]

theorem natDigits_val (n : Nat) : decDigitsVal (natDigits n) = n := by
  induction n using Nat.strong_induction_on with
  | _ n ih =>
    by_cases hn : n < 10
    · rw [natDigits_lt_ten n hn]
      simp [decDigitsVal]
    · rw [natDigits_ge_ten n (by omega), decDigitsVal_append_singleton,
        ih (n / 10) (Nat.div_lt_self (by omega) (by omega))]
      omega

theorem natDigits_isDigit (n : Nat) : ∀ c ∈ natDigits n, isDecimalDigit c = true := by
  induction n using Nat.strong_induction_on with
  | _ n ih =>
    by_cases hn : n < 10
    · rw [natDigits_lt_ten n hn]
      intro c hc
      simp at hc
      simp [isDecimalDigit, hc]
      omega
    · rw [natDigits_ge_ten n (by omega)]
      intro c hc
      rcases List.mem_append.mp hc with h | h
      · exact ih (n / 10) (Nat.div_lt_self (by omega) (by omega)) c h
      · simp at h
        have := Nat.mod_lt n (y := 10) (by omega)
        simp [isDecimalDigit, h]
        omega

/-- JS number-to-string round trip: the decimal print of the value of a digit
string without a leading zero is that digit string. -/
theorem natDigits_decDigitsVal (l : List Nat) (hne : l ≠ [])
    (hdig : ∀ c ∈ l, isDecimalDigit c = true)
    (hlead : ∀ c, l.head? = some c → c ≠ 48) :
    natDigits (decDigitsVal l) = l := by
  induction l using List.reverseRecOn with
  | nil => exact absurd rfl hne
  | append_singleton t d ih =>
    rcases t with _ | ⟨c, t'⟩
    · have hd : isDecimalDigit d = true := hdig d (by simp)
      have hd48 : d ≠ 48 := hlead d (by simp)
      simp [isDecimalDigit] at hd
      simp only [List.nil_append]
      have hval : decDigitsVal [d] = d - 48 := by simp [decDigitsVal]
      rw [hval, natDigits_lt_ten (d - 48) (by omega)]
      simp
      omega
    · have hc : isDecimalDigit c = true := hdig c (by simp)
      simp [isDecimalDigit] at hc
      have hc48 : c ≠ 48 := hlead c (by simp)
      have hdd : isDecimalDigit d = true := hdig d (by simp)
      simp [isDecimalDigit] at hdd
      have hpos : 1 ≤ decDigitsVal (c :: t') := decDigitsVal_pos c t' (by omega)
      rw [decDigitsVal_append_singleton]
      have hge : 10 ≤ 10 * decDigitsVal (c :: t') + (d - 48) := by omega
      rw [natDigits_ge_ten _ hge]
      have hdiv : (10 * decDigitsVal (c :: t') + (d - 48)) / 10 = decDigitsVal (c :: t') := by
        omega
      have hmod : (10 * decDigitsVal (c :: t') + (d - 48)) % 10 = d - 48 := by
        omega
      rw [hdiv, hmod, ih (by simp) (fun c hc => hdig c (by simp at hc ⊢; tauto))
        (fun c hc => hlead c (by simpa using hc))]
      have : d - 48 + 48 = d := by omega
      rw [this]

/-- Evaluating `jsNumParse` on a pure digit string gives its decimal value. -/
theorem jsNumParse_digits (l : List Nat) (h : ∀ c ∈ l, isDecimalDigit c = true) :
    jsNumParse l = decDigitsVal l := by
  have htake : l.takeWhile isDecimalDigit = l := List.takeWhile_eq_self_iff.mpr h
  rw [jsNumParse]
  simp only [htake, List.drop_length]
  norm_num [decDigitsVal]

end Meriyah

namespace Meriyah


@[simp] theorem digitsOf_nil : digitsOf [] = [] := rfl

theorem digitsOf_cons_digit (c : Nat) (t : List Nat) (h : c ≠ 95) :
    digitsOf (c :: t) = c :: digitsOf t := by
  simp [digitsOf, h]

theorem digitsOf_cons_sep (t : List Nat) : digitsOf (95 :: t) = digitsOf t := by
  simp [digitsOf]

theorem digitsOf_append (l1 l2 : List Nat) :
    digitsOf (l1 ++ l2) = digitsOf l1 ++ digitsOf l2 := by
  simp [digitsOf]

theorem numDigits_append (l1 l2 : List Nat) :
    numDigits (l1 ++ l2) = numDigits l1 + numDigits l2 := by
  simp [numDigits, digitsOf_append]

/-- Rewrite rules for `sepRun`. -/
theorem sepRun_digit (isDig : Nat → Bool) (a : Bool) (c : Nat) (t : List Nat)
    (hc : isDig c = true) : sepRun isDig a (c :: t) = sepRun isDig true t := by
  simp [sepRun, hc]

theorem sepRun_sep (isDig : Nat → Bool) (h95 : isDig 95 = false) (a : Bool) (t : List Nat) :
    sepRun isDig a (95 :: t) = if a then sepRun isDig false t else none := by
  simp [sepRun, h95]

theorem sepRun_other (isDig : Nat → Bool) (a : Bool) (c : Nat) (t : List Nat)
    (hc : isDig c = false) (hc95 : c ≠ 95) : sepRun isDig a (c :: t) = none := by
  simp [sepRun, hc, hc95]

theorem sepRun_append (isDig : Nat → Bool) (h95 : isDig 95 = false) (a : Bool)
    (l1 l2 : List Nat) :
    sepRun isDig a (l1 ++ l2) =
      match sepRun isDig a l1 with
      | none => none
      | some b => sepRun isDig b l2 := by
  induction l1 generalizing a with
  | nil => simp [sepRun]
  | cons c t ih =>
    by_cases hc : isDig c
    · simp [sepRun_digit isDig _ c _ hc, ih]
    · by_cases hc95 : c = 95
      · subst hc95
        rcases a with _ | _
        · simp [sepRun_sep isDig h95]
        · simp [sepRun_sep isDig h95, ih]
      · simp [sepRun_other isDig _ c _ (by simpa using hc) hc95]

/-- A valid run contains only digits and separators. -/
theorem sepRun_all_class (isDig : Nat → Bool) (h95 : isDig 95 = false) (a : Bool)
    (l : List Nat) (b : Bool) (h : sepRun isDig a l = some b) :
    ∀ c ∈ l, isDig c = true ∨ c = 95 := by
  induction l generalizing a with
  | nil => simp
  | cons c t ih =>
    intro x hx
    by_cases hc : isDig c
    · rw [sepRun_digit isDig _ c _ hc] at h
      rcases List.mem_cons.mp hx with rfl | hx'
      · exact Or.inl hc
      · exact ih true h x hx'
    · by_cases hc95 : c = 95
      · subst hc95
        rw [sepRun_sep isDig h95] at h
        rcases a with _ | _
        · simp at h
        · rcases List.mem_cons.mp hx with rfl | hx'
          · exact Or.inr rfl
          · exact ih false (by simpa using h) x hx'
      · rw [sepRun_other isDig _ c _ (by simpa using hc) hc95] at h
        simp at h

/-- From state `false` (no separator allowed yet) a successful run starts
with a digit. -/
theorem sepRun_false_head (isDig : Nat → Bool) (c : Nat) (t : List Nat) (b : Bool)
    (h : sepRun isDig false (c :: t) = some b) : isDig c = true := by
  rw [sepRun] at h
  by_cases hc : isDig c
  · exact hc
  · by_cases hc95 : c = 95
    · subst hc95
      simp [hc] at h
    · simp [hc, hc95] at h

/-- A pure digit sequence is a valid run ending ready for a separator. -/
theorem sepRun_digits (isDig : Nat → Bool) (l : List Nat)
    (h : ∀ c ∈ l, isDig c = true) (a : Bool) :
    sepRun isDig a l = some (if l = [] then a else true) := by
  induction l generalizing a with
  | nil => simp [sepRun]
  | cons c t ih =>
    have hc : isDig c = true := h c (by simp)
    rw [sepRun_digit isDig _ c _ hc, ih (fun x hx => h x (by simp [hx])) true]
    simp

/-- A run ending in state `true` over a nonempty list ends with a digit. -/
theorem sepRun_true_ends_digit (isDig : Nat → Bool) (h95 : isDig 95 = false)
    (l : List Nat) (a : Bool) (h : sepRun isDig a l = some true) (hne : l ≠ []) :
    ∃ g d, l = g ++ [d] ∧ isDig d = true := by
  induction l generalizing a with
  | nil => exact absurd rfl hne
  | cons c t ih =>
    rcases t with _ | ⟨c', t'⟩
    · by_cases hc : isDig c
      · exact ⟨[], c, by simp, hc⟩
      · by_cases hc95 : c = 95
        · subst hc95
          rw [sepRun_sep isDig h95] at h
          rcases a with _ | _ <;> simp [sepRun] at h
        · rw [sepRun_other isDig _ c _ (by simpa using hc) hc95] at h
          simp at h
    · by_cases hc : isDig c
      · rw [sepRun_digit isDig _ c _ hc] at h
        obtain ⟨g, d, hgd, hd⟩ := ih true h (by simp)
        exact ⟨c :: g, d, by simp [hgd], hd⟩
      · by_cases hc95 : c = 95
        · subst hc95
          rw [sepRun_sep isDig h95] at h
          rcases a with _ | _
          · simp at h
          · obtain ⟨g, d, hgd, hd⟩ := ih false (by simpa using h) (by simp)
            exact ⟨95 :: g, d, by simp [hgd], hd⟩
        · rw [sepRun_other isDig _ c _ (by simpa using hc) hc95] at h
          simp at h

/-- Where a failed run breaks: a doubled separator after a valid prefix. -/
theorem sepRun_none_decomp (isDig : Nat → Bool) (h95 : isDig 95 = false) (l : List Nat)
    (h : sepRun isDig true l = none)
    (hall : ∀ c ∈ l, isDig c = true ∨ c = 95) :
    ∃ l1 r, l = l1 ++ 95 :: 95 :: r ∧ sepRun isDig true l1 = some true := by
  suffices H : ∀ n (l : List Nat), l.length ≤ n → sepRun isDig true l = none →
      (∀ c ∈ l, isDig c = true ∨ c = 95) →
      ∃ l1 r, l = l1 ++ 95 :: 95 :: r ∧ sepRun isDig true l1 = some true from
    H l.length l (Nat.le_refl _) h hall
  intro n
  induction n with
  | zero =>
    intro l hl h _
    rw [List.length_eq_zero.mp (Nat.le_zero.mp hl)] at h
    simp [sepRun] at h
  | succ n ih =>
    intro l hl h hall
    rcases l with _ | ⟨c, t⟩
    · simp [sepRun] at h
    · rcases hall c (by simp) with hc | hc
      · rw [sepRun_digit isDig _ c _ hc] at h
        obtain ⟨l1, r, hsplit, hrun⟩ := ih t (by simpa using hl) h
          (fun x hx => hall x (by simp [hx]))
        exact ⟨c :: l1, r, by simp [hsplit], by simp [sepRun_digit isDig _ c _ hc, hrun]⟩
      · subst hc
        rw [sepRun_sep isDig h95, if_pos rfl] at h
        rcases t with _ | ⟨c', t'⟩
        · simp [sepRun] at h
        · rcases hall c' (by simp) with hc' | hc'
          · rw [sepRun_digit isDig _ c' _ hc'] at h
            obtain ⟨l1, r, hsplit, hrun⟩ := ih t' (by simp at hl; omega) h
              (fun x hx => hall x (by simp [hx]))
            refine ⟨95 :: c' :: l1, r, by simp [hsplit], ?_⟩
            rw [sepRun_sep isDig h95, if_pos rfl, sepRun_digit isDig _ c' _ hc']
            exact hrun
          · subst hc'
            exact ⟨[], t', by simp, by simp [sepRun]⟩

/-- Where a trailing-separator run ends: one separator after a valid run. -/
theorem sepRun_false_decomp (isDig : Nat → Bool) (h95 : isDig 95 = false) (l : List Nat)
    (h : sepRun isDig true l = some false) :
    ∃ g, l = g ++ [95] ∧ sepRun isDig true g = some true := by
  suffices H : ∀ n (l : List Nat), l.length ≤ n → sepRun isDig true l = some false →
      ∃ g, l = g ++ [95] ∧ sepRun isDig true g = some true from
    H l.length l (Nat.le_refl _) h
  intro n
  induction n with
  | zero =>
    intro l hl h
    rw [List.length_eq_zero.mp (Nat.le_zero.mp hl)] at h
    simp [sepRun] at h
  | succ n ih =>
    intro l hl h
    rcases l with _ | ⟨c, t⟩
    · simp [sepRun] at h
    · by_cases hc : isDig c
      · rw [sepRun_digit isDig _ c _ hc] at h
        obtain ⟨g, hsplit, hrun⟩ := ih t (by simpa using hl) h
        exact ⟨c :: g, by simp [hsplit], by simp [sepRun_digit isDig _ c _ hc, hrun]⟩
      · by_cases hc95 : c = 95
        · subst hc95
          rw [sepRun_sep isDig h95, if_pos rfl] at h
          rcases t with _ | ⟨c', t'⟩
          · exact ⟨[], rfl, by simp [sepRun]⟩
          · have hc' : isDig c' = true := sepRun_false_head isDig c' t' false h
            rw [sepRun_digit isDig _ c' _ hc'] at h
            obtain ⟨g, hsplit, hrun⟩ := ih t' (by simp at hl; omega) h
            refine ⟨95 :: c' :: g, by simp [hsplit], ?_⟩
            rw [sepRun_sep isDig h95, if_pos rfl, sepRun_digit isDig _ c' _ hc']
            exact hrun
        · rw [sepRun_other isDig _ c _ (by simpa using hc) hc95] at h
          simp at h

/-- A valid run with at least `n` digits splits after its `n`-th digit into
two valid runs. -/
theorem sepRun_split_digits (isDig : Nat → Bool) (h95 : isDig 95 = false) (n : Nat)
    (l : List Nat) (h : sepRun isDig true l = some true) (hn : n ≤ numDigits l) :
    ∃ l1 l2, l = l1 ++ l2 ∧ sepRun isDig true l1 = some true ∧
      sepRun isDig true l2 = some true ∧ numDigits l1 = n := by
  suffices H : ∀ m (n : Nat) (l : List Nat), l.length ≤ m →
      sepRun isDig true l = some true → n ≤ numDigits l →
      ∃ l1 l2, l = l1 ++ l2 ∧ sepRun isDig true l1 = some true ∧
        sepRun isDig true l2 = some true ∧ numDigits l1 = n from
    H l.length n l (Nat.le_refl _) h hn
  intro m
  induction m with
  | zero =>
    intro n l hl h hn
    rw [List.length_eq_zero.mp (Nat.le_zero.mp hl)] at h hn ⊢
    rcases n with _ | n
    · exact ⟨[], [], rfl, by simp [sepRun], by simp [sepRun], rfl⟩
    · simp [numDigits] at hn
  | succ m ih =>
    intro n l hl h hn
    rcases n with _ | n
    · exact ⟨[], l, rfl, by simp [sepRun], h, rfl⟩
    · rcases l with _ | ⟨c, t⟩
      · simp [numDigits] at hn
      · by_cases hc : isDig c
        · have hcne : c ≠ 95 := fun he => by rw [he, h95] at hc; exact absurd hc (by simp)
          rw [sepRun_digit isDig _ c _ hc] at h
          have hn' : n ≤ numDigits t := by
            have : numDigits (c :: t) = numDigits t + 1 := by
              simp [numDigits, digitsOf_cons_digit c t hcne]
            omega
          obtain ⟨l1, l2, hsplit, hr1, hr2, hcount⟩ := ih n t (by simpa using hl) h hn'
          refine ⟨c :: l1, l2, by simp [hsplit], by simp [sepRun_digit isDig _ c _ hc, hr1],
            hr2, ?_⟩
          simp only [numDigits] at hcount ⊢
          simp [digitsOf_cons_digit c l1 hcne, hcount]
        · by_cases hc95 : c = 95
          · subst hc95
            rw [sepRun_sep isDig h95, if_pos rfl] at h
            rcases t with _ | ⟨c', t'⟩
            · simp [sepRun] at h
            · have hc' : isDig c' = true := sepRun_false_head isDig c' t' true h
              have hcne' : c' ≠ 95 := fun he => by
                rw [he, h95] at hc'; exact absurd hc' (by simp)
              rw [sepRun_digit isDig _ c' _ hc'] at h
              have hn' : n ≤ numDigits t' := by
                have : numDigits (95 :: c' :: t') = numDigits t' + 1 := by
                  simp [numDigits, digitsOf_cons_sep, digitsOf_cons_digit c' t' hcne']
                omega
              obtain ⟨l1, l2, hsplit, hr1, hr2, hcount⟩ :=
                ih n t' (by simp at hl; omega) h hn'
              refine ⟨95 :: c' :: l1, l2, by simp [hsplit], ?_, hr2, ?_⟩
              · rw [sepRun_sep isDig h95, if_pos rfl, sepRun_digit isDig _ c' _ hc']
                exact hr1
              · simp only [numDigits] at hcount ⊢
                simp [digitsOf_cons_sep, digitsOf_cons_digit c' l1 hcne', hcount]
          · rw [sepRun_other isDig _ c _ (by simpa using hc) hc95] at h
            simp at h

end Meriyah

namespace Meriyah

/-! ## Loop characterizations -/

/-- A run ending ready-for-separator with no digits is empty. -/
theorem sepRun_true_noDigits (isDig : Nat → Bool) (h95 : isDig 95 = false) (l : List Nat)
    (h : sepRun isDig true l = some true) (hn : numDigits l = 0) : l = [] := by
  by_cases hne : l = []
  · exact hne
  · obtain ⟨g, d, hgd, hd⟩ := sepRun_true_ends_digit isDig h95 l true h hne
    have hd95 : d ≠ 95 := fun he => by rw [he, h95] at hd; exact absurd hd (by simp)
    rw [hgd] at hn
    simp [numDigits, digitsOf_append, digitsOf_cons_digit d [] hd95] at hn

/-- The radix-digit loops, characterized by the separator-placement run. -/
theorem radixLoop_char (isDig : Nat → Bool) (dv : Nat → Nat) (base : Nat)
    (h95 : isDig 95 = false) (l post : List Nat) (v d : Nat) (a : Bool)
    (hall : ∀ c ∈ l, isDig c = true ∨ c = 95) (hstop : stops isDig post = true) :
    radixLoop isDig dv base (l ++ post) v d a =
      match sepRun isDig a l with
      | none => .error .ContinuousNumericSeparator
      | some b => .ok (l.length, (digitsOf l).foldl (fun x c => x * base + dv c) v,
          d + numDigits l, b) := by
  induction l generalizing v d a with
  | nil =>
    rcases post with _ | ⟨c, t⟩
    · simp [radixLoop, sepRun, digitsOf, numDigits]
    · simp only [stops] at hstop
      have h1 : isDig c = false := by
        rcases Bool.and_eq_true .. |>.mp hstop with ⟨h1, _⟩
        simpa using h1
      have h2 : c ≠ 95 := by
        rcases Bool.and_eq_true .. |>.mp hstop with ⟨_, h2⟩
        simpa using h2
      simp [radixLoop, sepRun, h1, h2, digitsOf, numDigits]
  | cons c t ih =>
    rcases hall c (by simp) with hc | hc
    · have hc95 : c ≠ 95 := fun he => by rw [he, h95] at hc; exact absurd hc (by simp)
      rw [List.cons_append, radixLoop]
      rw [if_pos (by simp [hc]), if_neg (by simp [hc95])]
      rw [ih (v * base + dv c) (d + 1) true (fun x hx => hall x (by simp [hx]))]
      rw [sepRun_digit isDig a c t hc]
      rcases hsep : sepRun isDig true t with _ | b
      · simp [hsep]
      · simp only [hsep, digitsOf_cons_digit c t hc95, numDigits, List.foldl_cons,
          List.length_cons]
        simp [numDigits]
        omega
    · subst hc
      rw [List.cons_append, radixLoop]
      rw [if_pos (by simp), if_pos (by simp)]
      rw [sepRun_sep isDig h95]
      rcases a with _ | _
      · simp
      · rw [if_neg (show ¬(!true) = true by simp)]
        rw [ih v d false (fun x hx => hall x (by simp [hx]))]
        rcases hsep : sepRun isDig false t with _ | b
        · simp [hsep]
        · simp only [hsep, digitsOf_cons_sep, numDigits, List.length_cons]
          simp


/-- The loop `scanDecimalDigitsOrSeparator`, characterized by the run from state
`true` (a leading separator is accepted by this helper when a digit follows;
the callers only reach it after a digit has been consumed or behind a
separate leading-separator check). -/
theorem scanDecDigits_char (l post : List Nat)
    (hall : ∀ c ∈ l, isDecimalDigit c = true ∨ c = 95)
    (hstop : stops isDecimalDigit post = true) :
    scanDecDigits (l ++ post) false =
      match sepRun isDecimalDigit true l with
      | some true => .ok (l.length, digitsOf l)
      | some false => .error .TrailingNumericSeparator
      | none => .error .ContinuousNumericSeparator := by
  have h95 : isDecimalDigit 95 = false := by decide
  have hpd : ∀ c t, post = c :: t → isDecimalDigit c = false ∧ c ≠ 95 := by
    intro c t hpost
    rw [hpost] at hstop
    simp only [stops] at hstop
    rcases Bool.and_eq_true .. |>.mp hstop with ⟨h1, h2⟩
    exact ⟨by simpa using h1, by simpa using h2⟩
  have hpost0 : scanDecDigits post false = .ok (0, []) := by
    rcases hp : post with _ | ⟨c, t⟩
    · rfl
    · obtain ⟨h1, h2⟩ := hpd c t hp
      rw [scanDecDigits, if_neg (by simp [h1]), if_neg (by simp [h2])]
      simp
  have hpost1 : scanDecDigits post true = .error .TrailingNumericSeparator := by
    rcases hp : post with _ | ⟨c, t⟩
    · rfl
    · obtain ⟨h1, h2⟩ := hpd c t hp
      rw [scanDecDigits, if_neg (by simp [h1]), if_neg (by simp [h2])]
      simp
  have hposthead : post.headD 0 ≠ 95 := by
    rcases hp : post with _ | ⟨c, t⟩
    · simp
    · obtain ⟨_, h2⟩ := hpd c t hp
      simpa using h2
  suffices H : ∀ n (l : List Nat), l.length ≤ n →
      (∀ c ∈ l, isDecimalDigit c = true ∨ c = 95) →
      scanDecDigits (l ++ post) false =
        match sepRun isDecimalDigit true l with
        | some true => .ok (l.length, digitsOf l)
        | some false => .error .TrailingNumericSeparator
        | none => .error .ContinuousNumericSeparator from
    H l.length l (Nat.le_refl _) hall
  intro n
  induction n with
  | zero =>
    intro l hl _
    rw [List.length_eq_zero.mp (Nat.le_zero.mp hl)]
    simp only [List.nil_append, sepRun, digitsOf_nil, List.length_nil]
    exact hpost0
  | succ n ih =>
    intro l hl hall'
    rcases l with _ | ⟨c, t⟩
    · simp only [List.nil_append, sepRun, digitsOf_nil, List.length_nil]
      exact hpost0
    · rcases hall' c (by simp) with hc | hc
      · have hc95 : c ≠ 95 := fun he => by rw [he] at hc; exact absurd hc (by decide)
        rw [List.cons_append, scanDecDigits, if_pos hc]
        rw [ih t (by simpa using hl) (fun x hx => hall' x (by simp [hx]))]
        rw [sepRun_digit _ _ c t hc]
        rcases hsep : sepRun isDecimalDigit true t with _ | b
        · rfl
        · rcases b with _ | _
          · rfl
          · simp [digitsOf_cons_digit c t hc95]
      · subst hc
        rw [List.cons_append, scanDecDigits, if_neg (by decide), if_pos (by decide)]
        rw [sepRun_sep _ h95, if_pos rfl]
        rcases t with _ | ⟨c', t'⟩
        · rw [List.nil_append]
          rw [if_neg (by simpa using hposthead)]
          rw [hpost1]
          simp [sepRun]
        · rcases hall' c' (by simp) with hc' | hc'
          · have hc95' : c' ≠ 95 := fun he => by rw [he] at hc'; exact absurd hc' (by decide)
            rw [show ((c' :: t') ++ post).headD 0 = c' from rfl]
            rw [if_neg (by simpa using hc95')]
            rw [show (c' :: t') ++ post = c' :: (t' ++ post) from rfl]
            rw [scanDecDigits, if_pos hc']
            rw [ih t' (by simp at hl; omega) (fun x hx => hall' x (by simp [hx]))]
            rw [sepRun_digit _ _ c' t' hc']
            rcases hsep : sepRun isDecimalDigit true t' with _ | b
            · rfl
            · rcases b with _ | _
              · rfl
              · simp [digitsOf_cons_sep, digitsOf_cons_digit c' t' hc95']
          · subst hc'
            rw [show ((95 : Nat) :: t') ++ post = 95 :: (t' ++ post) from rfl]
            rw [show ((95 : Nat) :: (t' ++ post)).headD 0 = 95 from rfl]
            rw [if_pos (by decide : ((95 : Nat) == 95) = true)]
            rw [sepRun_sep _ h95]
            simp

end Meriyah

namespace Meriyah

/-- A negative digit budget stops the fast loop at once. -/
theorem fastLoop_neg (l : List Nat) (d : Int) (v : Nat) (a : Bool) (hd : d < 0) :
    fastLoop l d v a = .ok (0, d, v, a) := by
  rcases l with _ | ⟨c, t⟩
  · rfl
  · rw [fastLoop, if_neg]
    simp only [Bool.and_eq_true, decide_eq_true_eq]
    intro h
    omega

/-- The fast decimal loop within its digit budget, characterized by the
separator-placement run. -/
theorem fastLoop_char (l post : List Nat) (d : Int) (v : Nat)
    (hall : ∀ c ∈ l, isDecimalDigit c = true ∨ c = 95)
    (hstop : stops isDecimalDigit post = true)
    (hd : 0 ≤ d) (hbudget : numDigits l ≤ d.toNat) :
    fastLoop (l ++ post) d v false =
      match sepRun isDecimalDigit true l with
      | none => .error .ContinuousNumericSeparator
      | some b => .ok (l.length, d - numDigits l,
          (digitsOf l).foldl (fun a c => 10 * a + (c - 48)) v, !b) := by
  have h95 : isDecimalDigit 95 = false := by decide
  have hpost : ∀ (d' : Int) (v' : Nat) (a : Bool), fastLoop post d' v' a = .ok (0, d', v', a) := by
    intro d' v' a
    rcases hp : post with _ | ⟨c, t⟩
    · rfl
    · rw [hp] at hstop
      simp only [stops] at hstop
      rcases Bool.and_eq_true .. |>.mp hstop with ⟨h1, h2⟩
      rw [fastLoop, if_neg]
      simp only [Bool.and_eq_true, Bool.or_eq_true, decide_eq_true_eq]
      rintro ⟨-, h | h⟩
      · rw [h] at h1
        simp at h1
      · rw [show c = 95 from by simpa using h] at h2
        simp at h2
  have hposthead : post.headD 0 ≠ 95 := by
    rcases hp : post with _ | ⟨c, t⟩
    · simp
    · rw [hp] at hstop
      simp only [stops] at hstop
      rcases Bool.and_eq_true .. |>.mp hstop with ⟨-, h2⟩
      simpa using h2
  suffices H : ∀ n (l : List Nat) (d : Int) (v : Nat), l.length ≤ n →
      (∀ c ∈ l, isDecimalDigit c = true ∨ c = 95) → 0 ≤ d → numDigits l ≤ d.toNat →
      fastLoop (l ++ post) d v false =
        match sepRun isDecimalDigit true l with
        | none => .error .ContinuousNumericSeparator
        | some b => .ok (l.length, d - numDigits l,
            (digitsOf l).foldl (fun a c => 10 * a + (c - 48)) v, !b) from
    H l.length l d v (Nat.le_refl _) hall hd hbudget
  intro n
  induction n with
  | zero =>
    intro l d v hl _ _ _
    rw [List.length_eq_zero.mp (Nat.le_zero.mp hl)]
    simp only [List.nil_append, sepRun, digitsOf_nil, List.length_nil, numDigits]
    rw [hpost d v false]
    simp
  | succ n ih =>
    intro l d v hl hall' hd' hbudget'
    rcases l with _ | ⟨c, t⟩
    · simp only [List.nil_append, sepRun, digitsOf_nil, List.length_nil, numDigits]
      rw [hpost d v false]
      simp
    · rcases hall' c (by simp) with hc | hc
      · have hc95 : c ≠ 95 := fun he => by rw [he] at hc; exact absurd hc (by decide)
        have hnum : numDigits (c :: t) = numDigits t + 1 := by
          simp [numDigits, digitsOf_cons_digit c t hc95]
        have hd1 : 1 ≤ d := by omega
        rw [List.cons_append, fastLoop, if_pos (by simp [hc]; omega),
          if_neg (by simpa using hc95)]
        rw [ih t (d - 1) (10 * v + (c - 48)) (by simpa using hl)
          (fun x hx => hall' x (by simp [hx])) (by omega) (by omega)]
        rw [sepRun_digit _ _ c t hc]
        rcases hsep : sepRun isDecimalDigit true t with _ | b
        · simp [hsep]
        · simp only [hsep, digitsOf_cons_digit c t hc95, List.foldl_cons, List.length_cons,
            hnum]
          have : d - 1 - (numDigits t : Int) = d - (numDigits t + 1 : Nat) := by
            push_cast
            omega
          rw [this]
      · subst hc
        rw [List.cons_append, fastLoop, if_pos (by simp; omega), if_pos (by decide)]
        rw [sepRun_sep _ h95, if_pos rfl]
        rcases t with _ | ⟨c', t'⟩
        · rw [List.nil_append, if_neg (by simpa using hposthead)]
          rw [hpost d v true]
          simp [sepRun, numDigits, digitsOf]
        · rcases hall' c' (by simp) with hc' | hc'
          · have hc95' : c' ≠ 95 := fun he => by rw [he] at hc'; exact absurd hc' (by decide)
            have hnum : numDigits (95 :: c' :: t') = numDigits t' + 1 := by
              simp [numDigits, digitsOf_cons_sep, digitsOf_cons_digit c' t' hc95']
            have hd1 : 1 ≤ d := by omega
            rw [show ((c' :: t') ++ post).headD 0 = c' from rfl,
              if_neg (by simpa using hc95')]
            rw [show (c' :: t') ++ post = c' :: (t' ++ post) from rfl]
            rw [fastLoop, if_pos (by simp [hc']; omega), if_neg (by simpa using hc95')]
            rw [ih t' (d - 1) (10 * v + (c' - 48)) (by simp at hl; omega)
              (fun x hx => hall' x (by simp [hx])) (by omega) (by omega)]
            rw [sepRun_digit _ _ c' t' hc']
            rcases hsep : sepRun isDecimalDigit true t' with _ | b
            · simp [hsep]
            · simp only [hsep, digitsOf_cons_sep, digitsOf_cons_digit c' t' hc95',
                List.foldl_cons, List.length_cons, hnum]
              have : d - 1 - (numDigits t' : Int) = d - (numDigits t' + 1 : Nat) := by
                push_cast
                omega
              rw [this]
          · subst hc'
            rw [show (((95 : Nat) :: t') ++ post).headD 0 = 95 from rfl,
              if_pos (by decide)]
            rw [sepRun_sep _ h95]
            simp

/-- The fast decimal loop on a valid run holding one more digit than the
budget: it stops right after the last in-budget digit, leaving the rest of
the stream untouched. -/
theorem fastLoop_budget (l1 rest2 : List Nat) (d : Int) (v : Nat)
    (h1 : sepRun isDecimalDigit true l1 = some true)
    (hd : 0 ≤ d) (hcount : numDigits l1 = d.toNat + 1) :
    fastLoop (l1 ++ rest2) d v false =
      .ok (l1.length, -1, (digitsOf l1).foldl (fun a c => 10 * a + (c - 48)) v, false) := by
  have h95 : isDecimalDigit 95 = false := by decide
  suffices H : ∀ n (l1 : List Nat) (d : Int) (v : Nat), l1.length ≤ n →
      sepRun isDecimalDigit true l1 = some true → 0 ≤ d → numDigits l1 = d.toNat + 1 →
      fastLoop (l1 ++ rest2) d v false =
        .ok (l1.length, -1, (digitsOf l1).foldl (fun a c => 10 * a + (c - 48)) v, false) from
    H l1.length l1 d v (Nat.le_refl _) h1 hd hcount
  intro n
  induction n with
  | zero =>
    intro l1 d v hl _ _ hcount'
    rw [List.length_eq_zero.mp (Nat.le_zero.mp hl)] at hcount'
    simp [numDigits] at hcount'
  | succ n ih =>
    intro l1 d v hl h1' hd' hcount'
    rcases l1 with _ | ⟨c, t⟩
    · simp [numDigits] at hcount'
    · by_cases hc : isDecimalDigit c
      · have hc95 : c ≠ 95 := fun he => by rw [he] at hc; exact absurd hc (by decide)
        have hnum : numDigits (c :: t) = numDigits t + 1 := by
          simp [numDigits, digitsOf_cons_digit c t hc95]
        rw [sepRun_digit _ _ c t hc] at h1'
        rw [List.cons_append, fastLoop, if_pos (by simp [hc]; omega),
          if_neg (by simpa using hc95)]
        by_cases hd0 : d = 0
        · subst hd0
          have ht : t = [] := sepRun_true_noDigits _ h95 t h1' (by omega)
          subst ht
          rw [List.nil_append, fastLoop_neg rest2 (0 - 1) _ false (by omega)]
          simp [digitsOf, hc95]
        · rw [ih t (d - 1) (10 * v + (c - 48)) (by simpa using hl) h1' (by omega) (by omega)]
          simp [digitsOf_cons_digit c t hc95]
      · have hc95 : c = 95 := by
          rcases sepRun_all_class _ h95 true _ _ h1' c (by simp) with h' | h'
          · exact absurd h' hc
          · exact h'
        subst hc95
        rw [sepRun_sep _ h95, if_pos rfl] at h1'
        rcases t with _ | ⟨c', t'⟩
        · simp [sepRun] at h1'
        · have hc' : isDecimalDigit c' = true := sepRun_false_head _ c' t' true h1'
          have hc95' : c' ≠ 95 := fun he => by rw [he] at hc'; exact absurd hc' (by decide)
          rw [sepRun_digit _ _ c' t' hc'] at h1'
          have hnum : numDigits (95 :: c' :: t') = numDigits t' + 1 := by
            simp [numDigits, digitsOf_cons_sep, digitsOf_cons_digit c' t' hc95']
          rw [List.cons_append, fastLoop, if_pos (by simp; omega), if_pos (by decide)]
          rw [show ((c' :: t') ++ rest2).headD 0 = c' from rfl,
            if_neg (by simpa using hc95')]
          rw [show (c' :: t') ++ rest2 = c' :: (t' ++ rest2) from rfl]
          rw [fastLoop, if_pos (by simp [hc']; omega), if_neg (by simpa using hc95')]
          by_cases hd0 : d = 0
          · subst hd0
            have ht : t' = [] := sepRun_true_noDigits _ h95 t' h1' (by omega)
            subst ht
            rw [List.nil_append, fastLoop_neg rest2 (0 - 1) _ false (by omega)]
            simp [digitsOf, hc95']
          · rw [ih t' (d - 1) (10 * v + (c' - 48)) (by simp at hl; omega) h1'
              (by omega) (by omega)]
            simp [digitsOf_cons_sep, digitsOf_cons_digit c' t' hc95']

/-- A doubled separator within the budget stops the fast loop with the
doubled-separator error. -/
theorem fastLoop_cont (l1 r : List Nat) (d : Int) (v : Nat)
    (h1 : sepRun isDecimalDigit true l1 = some true) (hd : 0 ≤ d)
    (hbudget : numDigits l1 ≤ d.toNat) :
    fastLoop (l1 ++ 95 :: 95 :: r) d v false = .error .ContinuousNumericSeparator := by
  have h95 : isDecimalDigit 95 = false := by decide
  suffices H : ∀ n (l1 : List Nat) (d : Int) (v : Nat), l1.length ≤ n →
      sepRun isDecimalDigit true l1 = some true → 0 ≤ d → numDigits l1 ≤ d.toNat →
      fastLoop (l1 ++ 95 :: 95 :: r) d v false = .error .ContinuousNumericSeparator from
    H l1.length l1 d v (Nat.le_refl _) h1 hd hbudget
  intro n
  induction n with
  | zero =>
    intro l1 d v hl _ hd' _
    rw [List.length_eq_zero.mp (Nat.le_zero.mp hl)]
    rw [List.nil_append, fastLoop, if_pos (by simp; omega), if_pos (by decide)]
    rw [show ((95 : Nat) :: r).headD 0 = 95 from rfl, if_pos (by decide)]
  | succ n ih =>
    intro l1 d v hl h1' hd' hbudget'
    rcases l1 with _ | ⟨c, t⟩
    · rw [List.nil_append, fastLoop, if_pos (by simp; omega), if_pos (by decide)]
      rw [show ((95 : Nat) :: r).headD 0 = 95 from rfl, if_pos (by decide)]
    · by_cases hc : isDecimalDigit c
      · have hc95 : c ≠ 95 := fun he => by rw [he] at hc; exact absurd hc (by decide)
        have hnum : numDigits (c :: t) = numDigits t + 1 := by
          simp [numDigits, digitsOf_cons_digit c t hc95]
        rw [sepRun_digit _ _ c t hc] at h1'
        rw [List.cons_append, fastLoop, if_pos (by simp [hc]; omega),
          if_neg (by simpa using hc95)]
        rw [ih t (d - 1) (10 * v + (c - 48)) (by simpa using hl) h1' (by omega) (by omega)]
      · have hc95 : c = 95 := by
          rcases sepRun_all_class _ h95 true _ _ h1' c (by simp) with h' | h'
          · exact absurd h' hc
          · exact h'
        subst hc95
        rw [sepRun_sep _ h95, if_pos rfl] at h1'
        rcases t with _ | ⟨c', t'⟩
        · simp [sepRun] at h1'
        · have hc' : isDecimalDigit c' = true := sepRun_false_head _ c' t' true h1'
          have hc95' : c' ≠ 95 := fun he => by rw [he] at hc'; exact absurd hc' (by decide)
          rw [sepRun_digit _ _ c' t' hc'] at h1'
          have hnum : numDigits (95 :: c' :: t') = numDigits t' + 1 := by
            simp [numDigits, digitsOf_cons_sep, digitsOf_cons_digit c' t' hc95']
          rw [List.cons_append, fastLoop, if_pos (by simp; omega), if_pos (by decide)]
          rw [show ((c' :: t') ++ 95 :: 95 :: r).headD 0 = c' from rfl,
            if_neg (by simpa using hc95')]
          rw [show (c' :: t') ++ 95 :: 95 :: r = c' :: (t' ++ 95 :: 95 :: r) from rfl]
          rw [fastLoop, if_pos (by simp [hc']; omega), if_neg (by simpa using hc95')]
          rw [ih t' (d - 1) (10 * v + (c' - 48)) (by simp at hl; omega) h1'
            (by omega) (by omega)]

/-- The implicit-octal loop consumes the leading octal digits and reports
whether it stopped at an `8`/`9` (kind switch) or at a non-digit. -/
theorem implicitOctalLoop_char (o m : List Nat) (v : Nat)
    (ho : ∀ c ∈ o, isOctalDigit c = true)
    (hm : ∀ c t, m = c :: t → isOctalDigit c = false) :
    implicitOctalLoop (o ++ m) v =
      (o.length, o.foldl (fun a c => a * 8 + (c - 48)) v,
       match m with | [] => true | c :: _ => !isImplicitOctalDigit c) := by
  induction o generalizing v with
  | nil =>
    rcases m with _ | ⟨c, t⟩
    · rfl
    · have hco : isOctalDigit c = false := hm c t rfl
      by_cases hcd : isDecimalDigit c
      · have him : isImplicitOctalDigit c = true := by
          simp [isDecimalDigit] at hcd
          simp [isOctalDigit] at hco
          simp [isImplicitOctalDigit]
          omega
        rw [List.nil_append, implicitOctalLoop, if_pos hcd, if_pos him]
        simp [him]
      · have him : isImplicitOctalDigit c = false := by
          simp [isDecimalDigit] at hcd
          simp [isImplicitOctalDigit]
          omega
        rw [List.nil_append, implicitOctalLoop, if_neg (by simp [hcd])]
        simp [him]
  | cons c o' ih =>
    have hco : isOctalDigit c = true := ho c (by simp)
    have hcd : isDecimalDigit c = true := by
      simp [isOctalDigit] at hco
      simp [isDecimalDigit]
      omega
    have him : isImplicitOctalDigit c = false := by
      simp [isOctalDigit] at hco
      simp [isImplicitOctalDigit]
      omega
    rw [List.cons_append, implicitOctalLoop, if_pos hcd, if_neg (by simp [him])]
    rw [ih (v * 8 + (c - 48)) (fun x hx => ho x (by simp [hx]))]
    simp

end Meriyah

namespace Meriyah

/-- A doubled separator stops `scanDecimalDigitsOrSeparator` with the
doubled-separator error even behind a valid prefix. -/
theorem scanDecDigits_cont (b r : List Nat)
    (hb : sepRun isDecimalDigit true b = some true) :
    scanDecDigits (b ++ 95 :: 95 :: r) false = .error .ContinuousNumericSeparator := by
  have h95 : isDecimalDigit 95 = false := by decide
  suffices H : ∀ n (b : List Nat), b.length ≤ n → sepRun isDecimalDigit true b = some true →
      scanDecDigits (b ++ 95 :: 95 :: r) false = .error .ContinuousNumericSeparator from
    H b.length b (Nat.le_refl _) hb
  intro n
  induction n with
  | zero =>
    intro b hl _
    rw [List.length_eq_zero.mp (Nat.le_zero.mp hl)]
    rw [List.nil_append, scanDecDigits, if_neg (by decide), if_pos (by decide)]
    rw [show ((95 : Nat) :: r).headD 0 = 95 from rfl, if_pos (by decide)]
  | succ n ih =>
    intro b hl hb'
    rcases b with _ | ⟨c, t⟩
    · rw [List.nil_append, scanDecDigits, if_neg (by decide), if_pos (by decide)]
      rw [show ((95 : Nat) :: r).headD 0 = 95 from rfl, if_pos (by decide)]
    · by_cases hc : isDecimalDigit c
      · rw [sepRun_digit _ _ c t hc] at hb'
        rw [List.cons_append, scanDecDigits, if_pos hc]
        rw [ih t (by simpa using hl) hb']
      · have hc95 : c = 95 := by
          rcases sepRun_all_class _ h95 true _ _ hb' c (by simp) with h' | h'
          · exact absurd h' hc
          · exact h'
        subst hc95
        rw [sepRun_sep _ h95, if_pos rfl] at hb'
        rcases t with _ | ⟨c', t'⟩
        · simp [sepRun] at hb'
        · have hc' : isDecimalDigit c' = true := sepRun_false_head _ c' t' true hb'
          have hc95' : c' ≠ 95 := fun he => by rw [he] at hc'; exact absurd hc' (by decide)
          rw [sepRun_digit _ _ c' t' hc'] at hb'
          rw [List.cons_append, scanDecDigits, if_neg (by decide), if_pos (by decide)]
          rw [show ((c' :: t') ++ 95 :: 95 :: r).headD 0 = c' from rfl,
            if_neg (by simpa using hc95')]
          rw [show (c' :: t') ++ 95 :: 95 :: r = c' :: (t' ++ 95 :: 95 :: r) from rfl]
          rw [scanDecDigits, if_pos hc']
          rw [ih t' (by simp at hl; omega) hb']

/-- The stage `scanZero` is the identity when the literal does not start with
`0`. -/
theorem scanZero_skip (p : ParserState) (ctx : Context) (kind0 : NumberKind)
    (h : curCP p ≠ 48) : scanZero p ctx kind0 = .ok (p, kind0, 0, false) := by
  rw [scanZero, if_neg (by simpa using h)]

/-- The tail stage at the end of the buffer: no BigInt suffix, no exponent,
no following identifier character; the token value is materialized by kind
(`numeric.ts` lines 196-205). -/
theorem scanNumberTail_eof (p : ParserState) (ctx : Context) (kind : NumberKind)
    (value : JSVal) (h : restCP p = []) :
    scanNumberTail p ctx kind value =
      .ok ({ p with
        tokenValue := if kind.isRadixKind then value.toQ
          else if kind == .DecimalWithLeadingZero then
            jsNumParse (sliceCP p.source p.tokenIndex p.index)
          else value.toQ,
        tokenRaw := if ctx.optionsRaw then sliceCP p.source p.tokenIndex p.index
          else p.tokenRaw }, .NumericLiteral) := by
  have hcur : curCP p = 0 := by rw [curCP_eq, h]; rfl
  have hidx : ¬ p.index < p.source.length := not_index_lt_of_restCP_nil p h
  rw [scanNumberTail]
  simp [hcur, hidx, show isIdentifierStartCp 0 = false from by decide]

/-- The tail stage when an identifier-start code point follows the numeral
(and no BigInt suffix or exponent applies): the hard error of
`numeric.ts` lines 184-188. -/
theorem scanNumberTail_idstart (p : ParserState) (ctx : Context) (kind : NumberKind)
    (value : JSVal) (c : Nat) (t : List Nat) (h : restCP p = c :: t)
    (hid : isIdentifierStartCp c = true)
    (hn : c ≠ 110 ∨ kind.isValidBigIntKind = false)
    (he : (c ||| 32) ≠ 101) :
    scanNumberTail p ctx kind value = .error .IDStartAfterNumber := by
  have hcur : curCP p = c := by rw [curCP_eq, h]; rfl
  have hbig : ((c == 110) && kind.isValidBigIntKind) = false := by
    rcases hn with hn | hn
    · simp [hn]
    · simp [hn]
  have hexp : ((c ||| 32) == 101) = false := by simp [he]
  rw [scanNumberTail]
  simp only [hcur, hbig, hexp, Bool.false_eq_true, if_false]
  simp [hid]

end Meriyah

namespace Meriyah

/-- The stage `scanNumberRest` over a further valid digit run `l2` followed by a
stopping stream `post`: consume `l2`, then branch on a fraction dot. -/
theorem scanNumberRest_val (p : ParserState) (ctx : Context) (kind : NumberKind)
    (value : JSVal) (l2 post : List Nat) (hrest : restCP p = l2 ++ post)
    (hall2 : ∀ c ∈ l2, isDecimalDigit c = true ∨ c = 95)
    (hr2 : sepRun isDecimalDigit true l2 = some true)
    (hstop : stops isDecimalDigit post = true) :
    scanNumberRest p ctx kind value =
      if post.headD 0 == 46 then
        if post.tail.headD 0 == 95 then .error .Unexpected
        else
          match scanDecDigits post.tail false with
          | .error e => .error e
          | .ok (k2, ds2) => scanNumberTail (adv p (l2.length + 1 + k2)) ctx .Float
              (jsAdd (jsAdd value (digitsOf l2)) (46 :: ds2))
      else scanNumberTail (adv p l2.length) ctx kind (jsAdd value (digitsOf l2)) := by
  have hsd : scanDecDigits (restCP p) false = .ok (l2.length, digitsOf l2) := by
    rw [hrest, scanDecDigits_char l2 post hall2 hstop, hr2]
  have hrest1 : restCP (adv p l2.length) = post := by
    rw [restCP_adv, hrest, List.drop_left]
  have hcur1 : curCP (adv p l2.length) = post.headD 0 := by
    rw [curCP_eq, hrest1]
  rw [scanNumberRest, hsd]
  by_cases h46 : post.headD 0 = 46
  · rw [if_pos (by simpa using h46)]
    have hrest2 : restCP (adv (adv p l2.length) 1) = post.tail := by
      rw [restCP_adv, hrest1]
      rcases post with _ | ⟨pc, pt⟩ <;> simp
    have hcur2 : curCP (adv (adv p l2.length) 1) = post.tail.headD 0 := by
      rw [curCP_eq, hrest2]
    simp only [hcur1, hcur2, hrest2]
    rw [if_pos (by simpa using h46)]
    by_cases h95 : post.tail.headD 0 = 95
    · rw [if_pos (by simpa using h95), if_pos (by simpa using h95)]
    · rw [if_neg (by simpa using h95), if_neg (by simpa using h95)]
      simp only [adv_adv]
  · rw [if_neg (by simpa using h46)]
    simp only [hcur1]
    rw [if_neg (by simpa using h46)]

/-- The stage `scanNumberRest` hitting a doubled separator behind a valid run. -/
theorem scanNumberRest_cont (p : ParserState) (ctx : Context) (kind : NumberKind)
    (value : JSVal) (b r : List Nat) (hrest : restCP p = b ++ 95 :: 95 :: r)
    (hb : sepRun isDecimalDigit true b = some true) :
    scanNumberRest p ctx kind value = .error .ContinuousNumericSeparator := by
  rw [scanNumberRest, hrest, scanDecDigits_cont b r hb]

/-- The stage `scanNumberRest` hitting a trailing separator behind a valid run. -/
theorem scanNumberRest_trail (p : ParserState) (ctx : Context) (kind : NumberKind)
    (value : JSVal) (g post : List Nat) (hrest : restCP p = (g ++ [95]) ++ post)
    (hg : sepRun isDecimalDigit true g = some true)
    (hstop : stops isDecimalDigit post = true) :
    scanNumberRest p ctx kind value = .error .TrailingNumericSeparator := by
  have h95 : isDecimalDigit 95 = false := by decide
  have hall : ∀ c ∈ g ++ [95], isDecimalDigit c = true ∨ c = 95 := by
    intro c hc
    rcases List.mem_append.mp hc with hc | hc
    · exact sepRun_all_class _ h95 true g true hg c hc
    · simp at hc
      exact Or.inr hc
  have hrun : sepRun isDecimalDigit true (g ++ [95]) = some false := by
    rw [sepRun_append isDecimalDigit h95 true g [95], hg]
    simp [sepRun, h95]
  rw [scanNumberRest, hrest, scanDecDigits_char (g ++ [95]) post hall hstop, hrun]

end Meriyah

namespace Meriyah

theorem digitsOf_all_digits (l : List Nat)
    (hall : ∀ c ∈ l, isDecimalDigit c = true ∨ c = 95) :
    ∀ c ∈ digitsOf l, isDecimalDigit c = true := by
  intro c hc
  rw [digitsOf] at hc
  obtain ⟨hmem, hne⟩ := List.mem_filter.mp hc
  rcases hall c hmem with h | h
  · exact h
  · simp at hne
    exact absurd h hne

theorem digitsOf_head (l : List Nat) (c0 : Nat) (hhead : l.head? = some c0)
    (hc0 : c0 ≠ 95) : (digitsOf l).head? = some c0 := by
  rcases l with _ | ⟨a, t⟩
  · simp at hhead
  · simp at hhead
    subst hhead
    rw [digitsOf_cons_digit a t hc0]
    rfl

/-- The round trip for the digit string of a valid decimal run without a
leading zero: printing the accumulated value reproduces the digit string. -/
theorem natDigits_fold_digitsOf (l : List Nat) (c0 : Nat)
    (hall : ∀ c ∈ l, isDecimalDigit c = true ∨ c = 95)
    (hhead : l.head? = some c0) (hc0lo : 49 ≤ c0) (hc0hi : c0 ≤ 57) :
    natDigits ((digitsOf l).foldl (fun a c => 10 * a + (c - 48)) 0) = digitsOf l := by
  have hc095 : c0 ≠ 95 := by omega
  have hdh := digitsOf_head l c0 hhead hc095
  have hne : digitsOf l ≠ [] := by
    intro h
    rw [h] at hdh
    simp at hdh
  have := natDigits_decDigitsVal (digitsOf l) hne (digitsOf_all_digits l hall)
    (fun c hc => by rw [hdh] at hc; injection hc with hc; omega)
  simpa [decDigitsVal] using this

/-- The decimal section on a valid digit run `l` followed by a stopping
stream `post`: the optimized integer return when at most nine digits were
consumed and nothing numeral-like follows, otherwise the slow path with the
accumulated digit string (and the fraction branch when a dot follows). -/
theorem scanDecimalPart_valid (p : ParserState) (ctx : Context) (kind : NumberKind)
    (l post : List Nat) (c0 : Nat)
    (hkind : kind = .Decimal ∨ kind = .DecimalWithLeadingZero)
    (hrest : restCP p = l ++ post)
    (hhead : l.head? = some c0) (hc0lo : 49 ≤ c0) (hc0hi : c0 ≤ 57)
    (hrun : sepRun isDecimalDigit true l = some true)
    (hstop : stops isDecimalDigit post = true) :
    scanDecimalPart p ctx kind 0 true =
      if decide (numDigits l ≤ 9) && !isIdentifierStartCp (post.headD 0)
          && post.headD 0 != 46 then
        .ok (⟨p.source, p.index + l.length, p.tokenIndex, p.flags,
              (decDigitsVal (digitsOf l) : ℚ),
              if ctx.optionsRaw then sliceCP p.source p.tokenIndex (p.index + l.length)
              else p.tokenRaw⟩, .NumericLiteral)
      else if post.headD 0 == 46 then
        if post.tail.headD 0 == 95 then .error .Unexpected
        else
          match scanDecDigits post.tail false with
          | .error e => .error e
          | .ok (k2, ds2) => scanNumberTail (adv p (l.length + 1 + k2)) ctx .Float
              (.str (digitsOf l ++ 46 :: ds2))
      else scanNumberTail (adv p l.length) ctx kind (.str (digitsOf l)) := by
  have h95 : isDecimalDigit 95 = false := by decide
  have hall : ∀ c ∈ l, isDecimalDigit c = true ∨ c = 95 :=
    sepRun_all_class _ h95 true l true hrun
  have hkindD : kind.isDecimalNumberKind = true := by rcases hkind with rfl | rfl <;> rfl
  rw [scanDecimalPart, if_pos hkindD, if_pos rfl]
  by_cases hnum : numDigits l ≤ 9
  · have hfl : fastLoop (l ++ post) 9 0 false =
        .ok (l.length, 9 - (numDigits l : Int),
          (digitsOf l).foldl (fun a c => 10 * a + (c - 48)) 0, false) := by
      rw [fastLoop_char l post 9 0 hall hstop (by norm_num) (by simpa using hnum), hrun]
      simp
    have hrest1 : restCP (adv p l.length) = post := by
      rw [restCP_adv, hrest, List.drop_left]
    have hcur1 : curCP (adv p l.length) = post.headD 0 := by
      rw [curCP_eq, hrest1]
    have hround : natDigits ((digitsOf l).foldl (fun a c => 10 * a + (c - 48)) 0)
        = digitsOf l := natDigits_fold_digitsOf l c0 hall hhead hc0lo hc0hi
    have hd9 : decide ((0 : Int) ≤ 9 - (numDigits l : Int)) = true := by
      simp
      omega
    rw [hrest]
    simp only [hfl, Bool.false_eq_true, if_false, hcur1]
    by_cases hfc : (!isIdentifierStartCp (post.headD 0) && post.headD 0 != 46) = true
    · simp only [Bool.and_assoc, Bool.true_and, hd9, hfc, Bool.and_true,
        decide_eq_true hnum, if_true]
      rfl
    · have hfcf : (!isIdentifierStartCp (post.headD 0) && post.headD 0 != 46) = false := by
        revert hfc
        cases (!isIdentifierStartCp (post.headD 0) && post.headD 0 != 46) <;> simp
      simp only [Bool.and_assoc, hfcf, Bool.and_false, Bool.true_and, hd9, if_false]
      rw [scanNumberRest_val (adv p l.length) ctx kind _ [] post hrest1 (by simp)
        (by simp [sepRun]) hstop]
      simp only [digitsOf_nil, jsAdd, JSVal.chars, List.append_nil, hround,
        List.length_nil, adv_zero, adv_adv, Nat.zero_add]
      simp [Nat.add_assoc]
  · obtain ⟨l1, l2, hsplit, hr1, hr2, hc10⟩ :=
      sepRun_split_digits _ h95 10 l hrun (by omega)
    have hl1ne : l1 ≠ [] := by
      intro h
      rw [h] at hc10
      simp [numDigits] at hc10
    have hhead1 : l1.head? = some c0 := by
      rcases l1 with _ | ⟨a, t⟩
      · exact absurd rfl hl1ne
      · rw [hsplit] at hhead
        simpa using hhead
    have hall1 : ∀ c ∈ l1, isDecimalDigit c = true ∨ c = 95 :=
      sepRun_all_class _ h95 true l1 true hr1
    have hall2 : ∀ c ∈ l2, isDecimalDigit c = true ∨ c = 95 :=
      sepRun_all_class _ h95 true l2 true hr2
    have hfl : fastLoop (l1 ++ (l2 ++ post)) 9 0 false =
        .ok (l1.length, -1, (digitsOf l1).foldl (fun a c => 10 * a + (c - 48)) 0, false) :=
      fastLoop_budget l1 (l2 ++ post) 9 0 hr1 (by norm_num) (by rw [hc10]; rfl)
    have hrest1 : restCP (adv p l1.length) = l2 ++ post := by
      rw [restCP_adv, hrest, hsplit, List.append_assoc, List.drop_left]
    have hround1 : natDigits ((digitsOf l1).foldl (fun a c => 10 * a + (c - 48)) 0)
        = digitsOf l1 := natDigits_fold_digitsOf l1 c0 hall1 hhead1 hc0lo hc0hi
    have hlen : l1.length + l2.length = l.length := by
      rw [hsplit, List.length_append]
    have hdl : digitsOf l1 ++ digitsOf l2 = digitsOf l := by
      rw [hsplit, digitsOf_append]
    have hrest2 : restCP p = l1 ++ (l2 ++ post) := by
      rw [hrest, hsplit, List.append_assoc]
    rw [hrest2]
    simp only [hfl, Bool.false_eq_true, if_false]
    rw [if_neg (by simp)]
    rw [scanNumberRest_val (adv p l1.length) ctx kind _ l2 post hrest1 hall2 hr2 hstop]
    have hnumb : decide (numDigits l ≤ 9) = false := by simp [hnum]
    simp only [hnumb, Bool.false_and, Bool.false_eq_true, if_false]
    simp only [jsAdd, JSVal.chars, hround1, hdl, adv_adv, hlen]
    simp [← hlen, Nat.add_assoc]

end Meriyah

namespace Meriyah

end Meriyah

namespace Meriyah

/-- The three radix-prefixed literal families of `scanNumber`. -/
inductive Radix where
  | hex
  | oct
  | bin
deriving DecidableEq, Repr

def Radix.base : Radix → Nat
  | .hex => 16
  | .oct => 8
  | .bin => 2

def Radix.digClass : Radix → (Nat → Bool)
  | .hex => isHexDigit
  | .oct => isOctalDigit
  | .bin => isBinaryDigit

def Radix.dval : Radix → (Nat → Nat)
  | .hex => toHexVal
  | .oct => fun c => c - 48
  | .bin => fun c => c - 48

def Radix.nkind : Radix → NumberKind
  | .hex => .Hex
  | .oct => .Octal
  | .bin => .Binary

/-- The code points accepted after `0` for each radix (`x`/`X`, `o`/`O`,
`b`/`B`). -/
def Radix.markers : Radix → List Nat
  | .hex => [120, 88]
  | .oct => [111, 79]
  | .bin => [98, 66]

theorem Radix.digClass95 (r : Radix) : r.digClass 95 = false := by
  cases r <;> decide

/-- The stage `scanZero` on a radix-prefixed literal: the prefix dispatch followed by
the radix-digit loop and the no-digits / trailing-separator check
(`numeric.ts` lines 34-94). -/
theorem scanZero_radix (r : Radix) (p : ParserState) (ctx : Context) (kind0 : NumberKind)
    (x : Nat) (l post : List Nat) (hx : x ∈ r.markers)
    (hrest : restCP p = 48 :: x :: (l ++ post))
    (hall : ∀ c ∈ l, r.digClass c = true ∨ c = 95)
    (hstop : stops r.digClass post = true) :
    scanZero p ctx kind0 =
      match sepRun r.digClass false l with
      | none => .error .ContinuousNumericSeparator
      | some b =>
        if decide (numDigits l < 1) || !b then
          .error (if numDigits l < 1 then .MissingHexDigits else .TrailingNumericSeparator)
        else .ok (adv p (2 + l.length), r.nkind,
          (digitsOf l).foldl (fun a c => a * r.base + r.dval c) 0, false) := by
  have hcur0 : curCP p = 48 := by rw [curCP_eq, hrest]; rfl
  have hrest1 : restCP (adv p 1) = x :: (l ++ post) := by
    rw [restCP_adv, hrest]
    rfl
  have hcur1 : curCP (adv p 1) = x := by rw [curCP_eq, hrest1]; rfl
  have hrest2 : restCP (adv (adv p 1) 1) = l ++ post := by
    rw [restCP_adv, hrest1]
    rfl
  have hloop := radixLoop_char r.digClass r.dval r.base (Radix.digClass95 r) l post 0 0
    false hall hstop
  rw [scanZero, if_pos (by rw [hcur0]; rfl)]
  rcases r with _ | _ | _ <;> simp only [Radix.markers, List.mem_cons,
    List.mem_singleton, List.not_mem_nil, or_false] at hx
  · rcases hx with rfl | rfl <;>
    · simp only [hcur1, hrest2, Radix.digClass, Radix.dval, Radix.base, Radix.nkind]
      rw [if_pos (by decide)]
      rw [show Radix.hex.digClass = isHexDigit from rfl,
        show Radix.hex.dval = toHexVal from rfl, show Radix.hex.base = 16 from rfl] at hloop
      rw [hloop]
      rcases hsep : sepRun isHexDigit false l with _ | b
      · rfl
      · simp only [adv_adv, Nat.zero_add]
  · rcases hx with rfl | rfl <;>
    · simp only [hcur1, hrest2, Radix.digClass, Radix.dval, Radix.base, Radix.nkind]
      rw [if_neg (by decide), if_pos (by decide)]
      rw [show Radix.oct.digClass = isOctalDigit from rfl,
        show Radix.oct.dval = (fun c => c - 48) from rfl,
        show Radix.oct.base = 8 from rfl] at hloop
      rw [hloop]
      rcases hsep : sepRun isOctalDigit false l with _ | b
      · rfl
      · simp only [adv_adv, Nat.zero_add]
  · rcases hx with rfl | rfl <;>
    · simp only [hcur1, hrest2, Radix.digClass, Radix.dval, Radix.base, Radix.nkind]
      rw [if_neg (by decide), if_neg (by decide), if_pos (by decide)]
      rw [show Radix.bin.digClass = isBinaryDigit from rfl,
        show Radix.bin.dval = (fun c => c - 48) from rfl,
        show Radix.bin.base = 2 from rfl] at hloop
      rw [hloop]
      rcases hsep : sepRun isBinaryDigit false l with _ | b
      · rfl
      · simp only [adv_adv, Nat.zero_add]

end Meriyah

namespace Meriyah

/-- A valid radix-prefixed literal reaches the tail stage with the exact
integer accumulator. -/
theorem scanNumber_radix_ok (r : Radix) (p : ParserState) (ctx : Context)
    (x : Nat) (l post : List Nat) (hx : x ∈ r.markers)
    (hrest : restCP p = 48 :: x :: (l ++ post))
    (hstop : stops r.digClass post = true)
    (hrun : sepRun r.digClass false l = some true) :
    scanNumber p ctx .Decimal = scanNumberTail (adv p (2 + l.length)) ctx r.nkind
      (.num ((digitsOf l).foldl (fun a c => a * r.base + r.dval c) 0)) := by
  have hall : ∀ c ∈ l, r.digClass c = true ∨ c = 95 :=
    sepRun_all_class _ (Radix.digClass95 r) false l true hrun
  have hlne : l ≠ [] := by
    intro h
    rw [h] at hrun
    simp [sepRun] at hrun
  have hnd : 1 ≤ numDigits l := by
    rcases l with _ | ⟨c, t⟩
    · exact absurd rfl hlne
    · have hc := sepRun_false_head r.digClass c t true hrun
      have hc95 : c ≠ 95 := fun he => by
        rw [he, Radix.digClass95 r] at hc
        exact absurd hc (by simp)
      simp [numDigits, digitsOf_cons_digit c t hc95]
  rw [scanNumber, if_neg (by decide)]
  rw [scanZero_radix r p ctx .Decimal x l post hx hrest hall hstop, hrun]
  have hcond : (decide (numDigits l < 1) || !true) = false := by
    simp
    omega
  simp only [hcond, Bool.false_eq_true, if_false]
  rw [scanDecimalPart, if_neg (by cases r <;> decide)]

/-- An invalid separator placement in a radix-prefixed literal is rejected
with the matching separator error. -/
theorem scanNumber_radix_err (r : Radix) (p : ParserState) (ctx : Context)
    (x : Nat) (l post : List Nat) (hx : x ∈ r.markers)
    (hrest : restCP p = 48 :: x :: (l ++ post))
    (hall : ∀ c ∈ l, r.digClass c = true ∨ c = 95)
    (hstop : stops r.digClass post = true) (hlne : l ≠ []) :
    (sepRun r.digClass false l = none →
      scanNumber p ctx .Decimal = .error .ContinuousNumericSeparator) ∧
    (sepRun r.digClass false l = some false →
      scanNumber p ctx .Decimal = .error .TrailingNumericSeparator) := by
  constructor
  · intro hnone
    rw [scanNumber, if_neg (by decide)]
    rw [scanZero_radix r p ctx .Decimal x l post hx hrest hall hstop, hnone]
  · intro hfalse
    have hnd : 1 ≤ numDigits l := by
      rcases l with _ | ⟨c, t⟩
      · exact absurd rfl hlne
      · have hc := sepRun_false_head r.digClass c t false hfalse
        have hc95 : c ≠ 95 := fun he => by
          rw [he, Radix.digClass95 r] at hc
          exact absurd hc (by simp)
        simp [numDigits, digitsOf_cons_digit c t hc95]
    rw [scanNumber, if_neg (by decide)]
    rw [scanZero_radix r p ctx .Decimal x l post hx hrest hall hstop, hfalse]
    have hcond : (decide (numDigits l < 1) || !false) = true := by simp
    simp only [hcond, if_true]
    rw [if_neg (by omega)]

/-- The decimal section with `atStart = false` (its only reachable value:
line 21 initializes `atStart` from the `Float` bit, absent on the integer
path) skips the fast loop of lines 119-141 entirely. -/
theorem scanDecimalPart_false (p : ParserState) (ctx : Context) (kind : NumberKind)
    (v : Nat) :
    scanDecimalPart p ctx kind v false =
      if kind.isDecimalNumberKind then scanNumberRest p ctx kind (.num v)
      else scanNumberTail p ctx kind (.num v) := by
  rw [scanDecimalPart]
  by_cases hk : kind.isDecimalNumberKind = true
  · rw [if_pos hk, if_pos hk, if_neg (by simp)]
  · rw [if_neg hk, if_neg hk]

/-- A decimal literal starting with a nonzero digit skips the zero branch
and (with `atStart = 0`) goes straight to the general digit scan of line
144. -/
theorem scanNumber_dec (p : ParserState) (ctx : Context) (c0 : Nat) (t : List Nat)
    (hrest : restCP p = c0 :: t) (hc0lo : 49 ≤ c0) (hc0hi : c0 ≤ 57) :
    scanNumber p ctx .Decimal = scanNumberRest p ctx .Decimal (.num 0) := by
  have hcur : curCP p = c0 := by rw [curCP_eq, hrest]; rfl
  rw [scanNumber, if_neg (by decide)]
  rw [scanZero_skip p ctx .Decimal (by rw [hcur]; omega)]
  show scanDecimalPart p ctx .Decimal 0 false = _
  rw [scanDecimalPart_false,
    if_pos (show NumberKind.Decimal.isDecimalNumberKind = true from rfl)]

/-- The stage `scanZero` on a legacy implicit-octal literal (`0` followed directly by
an octal digit): strict-mode error or the octal accumulator, switching to
`DecimalWithLeadingZero` at an `8`/`9` (`numeric.ts` lines 95-107). -/
theorem scanZero_implicit (p : ParserState) (ctx : Context) (kind0 : NumberKind)
    (o m : List Nat) (hrest : restCP p = 48 :: (o ++ m))
    (ho : ∀ c ∈ o, isOctalDigit c = true) (hone : o ≠ [])
    (hm : ∀ c t, m = c :: t → isOctalDigit c = false) :
    scanZero p ctx kind0 =
      if ctx.strict then .error .StrictOctalEscape
      else if (match m with | [] => true | c :: _ => !isImplicitOctalDigit c) then
        .ok (adv p (1 + o.length), .ImplicitOctal,
          o.foldl (fun a c => a * 8 + (c - 48)) 0, false)
      else .ok (adv p (1 + o.length), .DecimalWithLeadingZero,
        o.foldl (fun a c => a * 8 + (c - 48)) 0, false) := by
  have hcur0 : curCP p = 48 := by rw [curCP_eq, hrest]; rfl
  have hrest1 : restCP (adv p 1) = o ++ m := by
    rw [restCP_adv, hrest]
    rfl
  obtain ⟨c1, o', rfl⟩ : ∃ c1 o', o = c1 :: o' := by
    rcases o with _ | ⟨c1, o'⟩
    · exact absurd rfl hone
    · exact ⟨c1, o', rfl⟩
  have hc1 : isOctalDigit c1 = true := ho c1 (by simp)
  have hc1b : 48 ≤ c1 ∧ c1 ≤ 55 := by
    simp [isOctalDigit] at hc1
    omega
  have hcur1 : curCP (adv p 1) = c1 := by rw [curCP_eq, hrest1]; rfl
  rw [scanZero, if_pos (by rw [hcur0]; rfl)]
  simp only [hcur1, hrest1]
  rw [if_neg (by obtain ⟨h1, h2⟩ := hc1b; interval_cases c1 <;> decide)]
  rw [if_neg (by obtain ⟨h1, h2⟩ := hc1b; interval_cases c1 <;> decide)]
  rw [if_neg (by obtain ⟨h1, h2⟩ := hc1b; interval_cases c1 <;> decide)]
  rw [if_pos hc1]
  by_cases hs : ctx.strict
  · rw [if_pos hs, if_pos hs]
  · rw [if_neg hs, if_neg hs]
    rw [implicitOctalLoop_char (c1 :: o') m 0 ho hm]
    rcases m with _ | ⟨cm, tm⟩
    · simp [adv_adv, Nat.add_comm]
    · by_cases him : isImplicitOctalDigit cm
      · simp [him, adv_adv, Nat.add_comm]
      · simp [him, adv_adv, Nat.add_comm]

/-- The stage `scanZero` on `0` followed directly by `8` or `9` (`numeric.ts` lines
108-111): strict-mode error, or `DecimalWithLeadingZero` with the
legacy-octal flag set. -/
theorem scanZero_leadingZero89 (p : ParserState) (ctx : Context) (kind0 : NumberKind)
    (c1 : Nat) (t : List Nat) (hrest : restCP p = 48 :: c1 :: t)
    (hc1 : c1 = 56 ∨ c1 = 57) :
    scanZero p ctx kind0 =
      if ctx.strict then .error .StrictOctalEscape
      else .ok (⟨p.source, p.index + 1, p.tokenIndex, flagsOctals,
        p.tokenValue, p.tokenRaw⟩, .DecimalWithLeadingZero, 0, false) := by
  have hcur0 : curCP p = 48 := by rw [curCP_eq, hrest]; rfl
  have hrest1 : restCP (adv p 1) = c1 :: t := by
    rw [restCP_adv, hrest]
    rfl
  have hcur1 : curCP (adv p 1) = c1 := by rw [curCP_eq, hrest1]; rfl
  rw [scanZero, if_pos (by rw [hcur0]; rfl)]
  simp only [hcur1, hrest1]
  rcases hc1 with rfl | rfl
  · rw [if_neg (by decide), if_neg (by decide), if_neg (by decide), if_neg (by decide),
      if_pos (by decide)]
    by_cases hs : ctx.strict
    · rw [if_pos hs, if_pos hs]
    · rw [if_neg hs, if_neg hs]
      rfl
  · rw [if_neg (by decide), if_neg (by decide), if_neg (by decide), if_neg (by decide),
      if_pos (by decide)]
    by_cases hs : ctx.strict
    · rw [if_pos hs, if_pos hs]
    · rw [if_neg hs, if_neg hs]
      rfl

end Meriyah

namespace Meriyah

/-- A bare `0` followed by a code point that opens no radix prefix, is no
octal digit, no `8`/`9` and no separator: the zero branch consumes only the
`0` and the general digit scan follows. -/
theorem scanNumber_zeroOther (p : ParserState) (ctx : Context) (c : Nat) (t : List Nat)
    (hrest : restCP p = 48 :: c :: t)
    (hx : (c ||| 32) ≠ 120) (ho : (c ||| 32) ≠ 111) (hb : (c ||| 32) ≠ 98)
    (hoct : isOctalDigit c = false) (h89 : isImplicitOctalDigit c = false)
    (h95 : c ≠ 95) :
    scanNumber p ctx .Decimal = scanNumberRest (adv p 1) ctx .Decimal (.num 0) := by
  have hcur0 : curCP p = 48 := by rw [curCP_eq, hrest]; rfl
  have hrest1 : restCP (adv p 1) = c :: t := by
    rw [restCP_adv, hrest]
    rfl
  have hcur1 : curCP (adv p 1) = c := by rw [curCP_eq, hrest1]; rfl
  rw [scanNumber, if_neg (by decide), scanZero, if_pos (by rw [hcur0]; rfl)]
  simp only [hcur1]
  rw [if_neg (by simp [hx]), if_neg (by simp [ho]), if_neg (by simp [hb]),
    if_neg (by simp [hoct]), if_neg (by simp [h89]), if_neg (by simp [h95])]
  show scanDecimalPart (adv p 1) ctx .Decimal 0 false = _
  rw [scanDecimalPart_false,
    if_pos (show NumberKind.Decimal.isDecimalNumberKind = true from rfl)]

/-- A `0` followed directly by `8` or `9` outside strict mode: the flag is
set, the kind becomes `DecimalWithLeadingZero`, and the general digit scan
follows. -/
theorem scanNumber_zero89 (p : ParserState) (ctx : Context) (c1 : Nat) (t : List Nat)
    (hrest : restCP p = 48 :: c1 :: t)
    (hc1 : c1 = 56 ∨ c1 = 57) (hs : ctx.strict = false) :
    scanNumber p ctx .Decimal =
      scanNumberRest ⟨p.source, p.index + 1, p.tokenIndex, flagsOctals,
        p.tokenValue, p.tokenRaw⟩ ctx .DecimalWithLeadingZero (.num 0) := by
  rw [scanNumber, if_neg (by decide),
    scanZero_leadingZero89 p ctx .Decimal c1 t hrest hc1, if_neg (by simp [hs])]
  show scanDecimalPart _ ctx .DecimalWithLeadingZero 0 false = _
  rw [scanDecimalPart_false,
    if_pos (show NumberKind.DecimalWithLeadingZero.isDecimalNumberKind = true from rfl)]

/-- A digit run ending in a separator is rejected by the digit-and-separator
scan with the trailing-separator error. -/
theorem scanDecDigits_trail (g post : List Nat)
    (hg : sepRun isDecimalDigit true g = some true)
    (hstop : stops isDecimalDigit post = true) :
    scanDecDigits ((g ++ [95]) ++ post) false = .error .TrailingNumericSeparator := by
  have h95 : isDecimalDigit 95 = false := by decide
  have hall : ∀ c ∈ g ++ [95], isDecimalDigit c = true ∨ c = 95 := by
    intro c hc
    rcases List.mem_append.mp hc with hc | hc
    · exact sepRun_all_class _ h95 true g true hg c hc
    · simp at hc
      exact Or.inr hc
  have hrun : sepRun isDecimalDigit true (g ++ [95]) = some false := by
    rw [sepRun_append isDecimalDigit h95 true g [95], hg]
    simp [sepRun, h95]
  rw [scanDecDigits_char (g ++ [95]) post hall hstop, hrun]

theorem decDigitsVal_cons48 (l : List Nat) : decDigitsVal (48 :: l) = decDigitsVal l := rfl

theorem sliceCP_whole (l : List Nat) (n : Nat) (h : n = l.length) : sliceCP l 0 n = l := by
  subst h
  simp [sliceCP]

/-- A plain decimal integer (nonzero first digit, valid separator run) at
the end of the buffer: the general path accumulates the digit string onto
the numeric `0` and coerces it, giving its decimal value. -/
theorem scanNumber_dec_value (ctx : Context) (l : List Nat) (c0 : Nat)
    (hhead : l.head? = some c0) (hc0lo : 49 ≤ c0) (hc0hi : c0 ≤ 57)
    (hrun : sepRun isDecimalDigit true l = some true) :
    scanNumber (mkParser l) ctx .Decimal =
      .ok (⟨l, l.length, 0, 0, ((decDigitsVal (digitsOf l) : ℕ) : ℚ),
        if ctx.optionsRaw then l else []⟩, .NumericLiteral) := by
  have h95 : isDecimalDigit 95 = false := by decide
  have hall : ∀ c ∈ l, isDecimalDigit c = true ∨ c = 95 :=
    sepRun_all_class _ h95 true l true hrun
  obtain ⟨t, rfl⟩ : ∃ t, l = c0 :: t := by
    rcases l with _ | ⟨a, t⟩
    · simp at hhead
    · simp at hhead
      exact ⟨t, by rw [hhead]⟩
  have hrest : restCP (mkParser (c0 :: t)) = (c0 :: t) ++ [] := by
    simp [mkParser, restCP]
  rw [scanNumber_dec (mkParser (c0 :: t)) ctx c0 t (by simpa using hrest) hc0lo hc0hi]
  rw [scanNumberRest_val _ ctx .Decimal _ (c0 :: t) [] hrest hall hrun rfl]
  rw [if_neg (by decide)]
  have heof : restCP (adv (mkParser (c0 :: t)) (c0 :: t).length) = [] := by
    rw [restCP_adv, hrest, List.append_nil, List.drop_length]
  rw [scanNumberTail_eof _ ctx _ _ heof]
  have hdigs : ∀ c ∈ digitsOf (c0 :: t), isDecimalDigit c = true :=
    digitsOf_all_digits _ hall
  have hall48 : ∀ c ∈ 48 :: digitsOf (c0 :: t), isDecimalDigit c = true := by
    intro c hc
    rcases List.mem_cons.mp hc with rfl | hc
    · decide
    · exact hdigs c hc
  have hval : (jsAdd (JSVal.num 0) (digitsOf (c0 :: t))).toQ
      = ((decDigitsVal (digitsOf (c0 :: t)) : ℕ) : ℚ) := by
    show jsNumParse ((JSVal.num 0).chars ++ digitsOf (c0 :: t)) = _
    rw [show (JSVal.num 0).chars = [48] from rfl,
      show ([48] ++ digitsOf (c0 :: t)) = 48 :: digitsOf (c0 :: t) from rfl]
    rw [jsNumParse_digits _ hall48, decDigitsVal_cons48]
  simp [adv, mkParser, hval, NumberKind.isRadixKind]
  rw [sliceCP_whole (c0 :: t) (t.length + 1) (by simp)]

/-- The tail stage on an exponent marker whose digit run has an invalid
separator placement: the digit-and-separator scan's error propagates
(`numeric.ts` line 178 via `scanDecimalDigitsOrSeparator`). -/
theorem scanNumberTail_exponent_err (p : ParserState) (ctx : Context)
    (kind : NumberKind) (value : JSVal) (ech : Nat) (sl rest : List Nat) (e : Errors)
    (hech : ech = 101 ∨ ech = 69)
    (hsl : sl = [] ∨ sl = [43] ∨ sl = [45])
    (hrest : restCP p = ech :: (sl ++ rest))
    (hfirst : isDecimalDigit (rest.headD 0) = true)
    (herr : scanDecDigits rest false = .error e) :
    scanNumberTail p ctx kind value = .error e := by
  have hcur : curCP p = ech := by rw [curCP_eq, hrest]; rfl
  have hrest1 : restCP (adv p 1) = sl ++ rest := by
    rw [restCP_adv, hrest]
    rfl
  have hfb : 48 ≤ rest.headD 0 ∧ rest.headD 0 ≤ 57 := by
    simp only [isDecimalDigit, Bool.and_eq_true, decide_eq_true_eq] at hfirst
    exact hfirst
  rw [scanNumberTail]
  have hbig : ((curCP p == 110) && kind.isValidBigIntKind) = false := by
    rcases hech with rfl | rfl <;> simp [hcur]
  have hexp : ((curCP p ||| 32) == 101) = true := by
    rcases hech with rfl | rfl <;> rw [hcur] <;> decide
  simp only [hbig, Bool.false_eq_true, if_false, hexp, if_true]
  have hsign : (if isExponentSign (curCP (adv p 1)) = true then adv (adv p 1) 1 else adv p 1)
      = adv p (1 + sl.length) := by
    rcases hsl with rfl | rfl | rfl
    · rw [if_neg]
      · simp
      · intro hcon
        rw [curCP_eq, hrest1, List.nil_append] at hcon
        simp only [isExponentSign, Bool.or_eq_true, beq_iff_eq] at hcon
        omega
    · rw [if_pos]
      · rw [adv_adv]
        rfl
      · rw [curCP_eq, hrest1]
        rfl
    · rw [if_pos]
      · rw [adv_adv]
        rfl
      · rw [curCP_eq, hrest1]
        rfl
  rw [hsign]
  have hrest2 : restCP (adv p (1 + sl.length)) = rest := by
    rw [restCP_adv, hrest]
    rcases hsl with rfl | rfl | rfl <;> rfl
  have hcur2 : curCP (adv p (1 + sl.length)) = rest.headD 0 := by
    rw [curCP_eq, hrest2]
  rw [if_neg (by rw [hcur2, hfirst]; simp)]
  rw [hrest2, herr]

/-- The tail stage on a well-formed exponent whose digit run is followed by
an identifier-start code point: the hard error of lines 184-188. -/
theorem scanNumberTail_exponent_idstart (p : ParserState) (ctx : Context)
    (kind : NumberKind) (value : JSVal) (ech : Nat) (sl ds : List Nat)
    (c : Nat) (rest : List Nat)
    (hech : ech = 101 ∨ ech = 69)
    (hsl : sl = [] ∨ sl = [43] ∨ sl = [45])
    (hrest : restCP p = ech :: (sl ++ (ds ++ c :: rest)))
    (hdsne : ds ≠ []) (hdsall : ∀ d ∈ ds, isDecimalDigit d = true)
    (hid : isIdentifierStartCp c = true)
    (hcd : isDecimalDigit c = false) (hc95 : c ≠ 95) :
    scanNumberTail p ctx kind value = .error .IDStartAfterNumber := by
  have hcur : curCP p = ech := by rw [curCP_eq, hrest]; rfl
  have hrest1 : restCP (adv p 1) = sl ++ (ds ++ c :: rest) := by
    rw [restCP_adv, hrest]
    rfl
  have hdsof : digitsOf ds = ds := by
    rw [digitsOf]
    apply List.filter_eq_self.mpr
    intro d hd
    have h := hdsall d hd
    simp only [isDecimalDigit, Bool.and_eq_true, decide_eq_true_eq] at h
    simp only [ne_eq, decide_eq_true_eq]
    omega
  have hds : scanDecDigits (ds ++ c :: rest) false = .ok (ds.length, ds) := by
    have h1 := scanDecDigits_char ds (c :: rest) (fun d hd => Or.inl (hdsall d hd))
      (by simp [stops, hcd, hc95])
    rw [h1, sepRun_digits isDecimalDigit ds hdsall true, if_neg hdsne]
    simp [hdsof]
  obtain ⟨d0, dt, rfl⟩ : ∃ d0 dt, ds = d0 :: dt := by
    rcases ds with _ | ⟨d0, dt⟩
    · exact absurd rfl hdsne
    · exact ⟨d0, dt, rfl⟩
  have hd0 : isDecimalDigit d0 = true := hdsall d0 (by simp)
  rw [scanNumberTail]
  have hbig : ((curCP p == 110) && kind.isValidBigIntKind) = false := by
    rcases hech with rfl | rfl <;> simp [hcur]
  have hexp : ((curCP p ||| 32) == 101) = true := by
    rcases hech with rfl | rfl <;> rw [hcur] <;> decide
  simp only [hbig, Bool.false_eq_true, if_false, hexp, if_true]
  have hsign : (if isExponentSign (curCP (adv p 1)) = true then adv (adv p 1) 1 else adv p 1)
      = adv p (1 + sl.length) := by
    rcases hsl with rfl | rfl | rfl
    · rw [if_neg]
      · simp
      · rw [curCP_eq, hrest1, List.nil_append, List.cons_append, List.headD_cons]
        simp only [isDecimalDigit, Bool.and_eq_true, decide_eq_true_eq] at hd0
        simp [isExponentSign]
        omega
    · rw [if_pos]
      · rw [adv_adv]
        rfl
      · rw [curCP_eq, hrest1]
        rfl
    · rw [if_pos]
      · rw [adv_adv]
        rfl
      · rw [curCP_eq, hrest1]
        rfl
  rw [hsign]
  have hrest2 : restCP (adv p (1 + sl.length)) = (d0 :: dt) ++ c :: rest := by
    rw [restCP_adv, hrest]
    rcases hsl with rfl | rfl | rfl <;> rfl
  have hcur2 : curCP (adv p (1 + sl.length)) = d0 := by
    rw [curCP_eq, hrest2]
    rfl
  rw [if_neg (by rw [hcur2]; simp [hd0])]
  rw [hrest2, hds]
  have hrest3 : restCP (adv (adv p (1 + sl.length)) (d0 :: dt).length) = c :: rest := by
    rw [restCP_adv, hrest2, List.drop_left]
  have hcur3 : curCP (adv (adv p (1 + sl.length)) (d0 :: dt).length) = c := by
    rw [curCP_eq, hrest3]
    rfl
  simp only [hcur3]
  rw [if_pos (by simp [hid])]


/-- The accumulating radix fold equals the positional (mathematical) value of
the digit sequence. -/
theorem foldl_mul_add_ofDigits (b : Nat) (dv : Nat → Nat) (v : Nat) (ds : List Nat) :
    ds.foldl (fun a c => a * b + dv c) v =
      v * b ^ ds.length + Nat.ofDigits b ((ds.map dv).reverse) := by
  induction ds generalizing v with
  | nil => simp [Nat.ofDigits]
  | cons c t ih =>
    rw [List.foldl_cons, ih]
    rw [List.map_cons, List.reverse_cons, Nat.ofDigits_append]
    simp [Nat.ofDigits]
    ring

theorem sliceCP_all (l : List Nat) : sliceCP l 0 l.length = l := by
  simp [sliceCP]

/-- The tail stage on a well-formed exponent: `e`/`E`, an optional sign, then
a nonempty digit run ending the buffer; the scan succeeds. -/
theorem scanNumberTail_exponent (p : ParserState) (ctx : Context) (kind : NumberKind)
    (value : JSVal) (ech : Nat) (sl ds : List Nat)
    (hech : ech = 101 ∨ ech = 69)
    (hsl : sl = [] ∨ sl = [43] ∨ sl = [45])
    (hrest : restCP p = ech :: (sl ++ ds))
    (hdsne : ds ≠ []) (hdsall : ∀ c ∈ ds, isDecimalDigit c = true) :
    ∃ p', scanNumberTail p ctx kind value = .ok (p', .NumericLiteral) := by
  have hcur : curCP p = ech := by rw [curCP_eq, hrest]; rfl
  have hrest1 : restCP (adv p 1) = sl ++ ds := by
    rw [restCP_adv, hrest]
    rfl
  have hdsof : digitsOf ds = ds := by
    rw [digitsOf]
    apply List.filter_eq_self.mpr
    intro c hc
    have h := hdsall c hc
    simp only [isDecimalDigit, Bool.and_eq_true, decide_eq_true_eq] at h
    simp only [ne_eq, decide_eq_true_eq]
    omega
  have hds : scanDecDigits ds false = .ok (ds.length, ds) := by
    have h1 := scanDecDigits_char ds [] (fun c hc => Or.inl (hdsall c hc)) (by rfl)
    rw [List.append_nil] at h1
    rw [h1, sepRun_digits isDecimalDigit ds hdsall true, if_neg hdsne]
    simp [hdsof]
  obtain ⟨d0, dt, rfl⟩ : ∃ d0 dt, ds = d0 :: dt := by
    rcases ds with _ | ⟨d0, dt⟩
    · exact absurd rfl hdsne
    · exact ⟨d0, dt, rfl⟩
  have hd0 : isDecimalDigit d0 = true := hdsall d0 (by simp)
  rw [scanNumberTail]
  have hbig : ((curCP p == 110) && kind.isValidBigIntKind) = false := by
    rcases hech with rfl | rfl <;> simp [hcur]
  have hexp : ((curCP p ||| 32) == 101) = true := by
    rcases hech with rfl | rfl <;> rw [hcur] <;> decide
  simp only [hbig, Bool.false_eq_true, if_false, hexp, if_true]
  have hsign : (if isExponentSign (curCP (adv p 1)) = true then adv (adv p 1) 1 else adv p 1)
      = adv p (1 + sl.length) := by
    rcases hsl with rfl | rfl | rfl
    · rw [if_neg]
      · simp
      · rw [curCP_eq, hrest1, List.nil_append, List.headD_cons]
        simp only [isDecimalDigit, Bool.and_eq_true, decide_eq_true_eq] at hd0
        simp [isExponentSign]
        omega
    · rw [if_pos]
      · rw [adv_adv]
        rfl
      · rw [curCP_eq, hrest1]
        rfl
    · rw [if_pos]
      · rw [adv_adv]
        rfl
      · rw [curCP_eq, hrest1]
        rfl
  rw [hsign]
  have hrest2 : restCP (adv p (1 + sl.length)) = d0 :: dt := by
    rw [restCP_adv, hrest]
    rcases hsl with rfl | rfl | rfl <;> rfl
  have hcur2 : curCP (adv p (1 + sl.length)) = d0 := by rw [curCP_eq, hrest2]; rfl
  rw [if_neg (by rw [hcur2]; simp [hd0])]
  rw [hrest2, hds]
  have hrest3 : restCP (adv (adv p (1 + sl.length)) (d0 :: dt).length) = [] := by
    rw [restCP_adv, hrest2, List.drop_length]
  have hcur3 : curCP (adv (adv p (1 + sl.length)) (d0 :: dt).length) = 0 := by
    rw [curCP_eq, hrest3]
    rfl
  simp only [hcur3]
  rw [if_neg (by simp [isIdentifierStartCp, isDecimalDigit])]
  exact ⟨_, rfl⟩

/-- The tail stage on an exponent marker with no digits after the optional
sign: the missing-exponent hard error (`numeric.ts` lines 165-175). -/
theorem scanNumberTail_exponent_missing (p : ParserState) (ctx : Context)
    (kind : NumberKind) (value : JSVal) (ech : Nat) (sl post : List Nat)
    (hech : ech = 101 ∨ ech = 69)
    (hsl : sl = [] ∨ sl = [43] ∨ sl = [45])
    (hrest : restCP p = ech :: (sl ++ post))
    (hpost : ∀ c t, post = c :: t → isDecimalDigit c = false ∧ isExponentSign c = false) :
    scanNumberTail p ctx kind value = .error .MissingExponent := by
  have hcur : curCP p = ech := by rw [curCP_eq, hrest]; rfl
  have hrest1 : restCP (adv p 1) = sl ++ post := by
    rw [restCP_adv, hrest]
    rfl
  have hpd : isDecimalDigit (post.headD 0) = false := by
    rcases hp : post with _ | ⟨c, t⟩
    · rfl
    · exact (hpost c t hp).1
  have hps : isExponentSign (post.headD 0) = false := by
    rcases hp : post with _ | ⟨c, t⟩
    · rfl
    · exact (hpost c t hp).2
  rw [scanNumberTail]
  have hbig : ((curCP p == 110) && kind.isValidBigIntKind) = false := by
    rcases hech with rfl | rfl <;> simp [hcur]
  have hexp : ((curCP p ||| 32) == 101) = true := by
    rcases hech with rfl | rfl <;> rw [hcur] <;> decide
  simp only [hbig, Bool.false_eq_true, if_false, hexp, if_true]
  have hsign : (if isExponentSign (curCP (adv p 1)) = true then adv (adv p 1) 1 else adv p 1)
      = adv p (1 + sl.length) := by
    rcases hsl with rfl | rfl | rfl
    · rw [if_neg]
      · simp
      · rw [curCP_eq, hrest1, List.nil_append]
        rcases hp : post with _ | ⟨c, t⟩
        · simp [isExponentSign]
        · simp only [List.headD_cons]
          simp [(hpost c t hp).2]
    · rw [if_pos]
      · rw [adv_adv]
        rfl
      · rw [curCP_eq, hrest1]
        rfl
    · rw [if_pos]
      · rw [adv_adv]
        rfl
      · rw [curCP_eq, hrest1]
        rfl
  rw [hsign]
  have hrest2 : restCP (adv p (1 + sl.length)) = post := by
    rw [restCP_adv, hrest]
    rcases hsl with rfl | rfl | rfl <;> rfl
  have hcur2 : curCP (adv p (1 + sl.length)) = post.headD 0 := by
    rw [curCP_eq, hrest2]
  rw [if_pos (by rw [hcur2, hpd]; rfl)]

end Meriyah

namespace Meriyah

/-- The tail stage when a decimal digit follows the numeral while the cursor
is inside the buffer (`numeric.ts` lines 184-188, first disjunct). -/
theorem scanNumberTail_digit (p : ParserState) (ctx : Context) (kind : NumberKind)
    (value : JSVal) (c : Nat) (t : List Nat)
    (h : restCP p = c :: t) (hd : isDecimalDigit c = true) :
    scanNumberTail p ctx kind value = .error .IDStartAfterNumber := by
  have hcur : curCP p = c := by rw [curCP_eq, h]; rfl
  have hb : 48 ≤ c ∧ c ≤ 57 := by
    simp [isDecimalDigit] at hd
    omega
  have hbig : ((c == 110) && kind.isValidBigIntKind) = false := by
    have h110 : (c == 110) = false := by
      simp
      omega
    simp [h110]
  have hexp : ((c ||| 32) == 101) = false := by
    obtain ⟨h1, h2⟩ := hb
    interval_cases c <;> decide
  have hlt : p.index < p.source.length := index_lt_of_restCP_cons p c t h
  rw [scanNumberTail]
  simp only [hcur, hbig, hexp, Bool.false_eq_true, if_false]
  simp [hlt, hd]

/-- Effect of the tail stage on `tokenRaw`: a `NumericLiteral` leaves it
unchanged unless `OptionsRaw` is set; a `BigIntLiteral` always overwrites it
with the source slice of the token (`numeric.ts` lines 190-203). -/
theorem scanNumberTail_rawFrame (p : ParserState) (ctx : Context) (kind : NumberKind)
    (value : JSVal) (p' : ParserState) (tok : Token)
    (hok : scanNumberTail p ctx kind value = .ok (p', tok)) :
    p'.source = p.source ∧ p'.tokenIndex = p.tokenIndex ∧
    (tok = .NumericLiteral → ctx.optionsRaw = false → p'.tokenRaw = p.tokenRaw) ∧
    (tok = .BigIntLiteral → p'.tokenRaw = sliceCP p.source p.tokenIndex p'.index) := by
  simp only [scanNumberTail] at hok
  split at hok
  · exact absurd hok (by simp)
  · rename_i p3 v3 big heq
    have hframe : p3.source = p.source ∧ p3.tokenIndex = p.tokenIndex ∧
        p3.tokenRaw = p.tokenRaw := by
      repeat' split at heq
      any_goals exact Except.noConfusion heq
      all_goals
        (simp only [Except.ok.injEq, Prod.mk.injEq] at heq
         obtain ⟨e1, e2, e3⟩ := heq
         subst e1
         refine ⟨?_, ?_, ?_⟩ <;>
           simp [adv, apply_ite ParserState.source, apply_ite ParserState.tokenIndex,
             apply_ite ParserState.tokenRaw])
    obtain ⟨hs, ht, hr⟩ := hframe
    split at hok
    · exact absurd hok (by simp)
    · split at hok
      · simp only [Except.ok.injEq, Prod.mk.injEq] at hok
        obtain ⟨h1, h2⟩ := hok
        subst h1
        subst h2
        refine ⟨by simpa using hs, by simpa using ht, ?_, ?_⟩
        · intro hne _
          exact absurd hne (by simp)
        · intro _
          simp [hs, ht]
      · simp only [Except.ok.injEq, Prod.mk.injEq] at hok
        obtain ⟨h1, h2⟩ := hok
        subst h1
        subst h2
        refine ⟨by simpa using hs, by simpa using ht, ?_, ?_⟩
        · intro _ hraw
          simp [hraw, hr]
        · intro hne
          exact absurd hne (by simp)

/-- The stage `scanZero` never touches `source`, `tokenIndex` or `tokenRaw`. -/
theorem scanZero_rawFrame (p : ParserState) (ctx : Context) (kind0 : NumberKind)
    (p1 : ParserState) (kind : NumberKind) (v : Nat) (a : Bool)
    (hok : scanZero p ctx kind0 = .ok (p1, kind, v, a)) :
    p1.source = p.source ∧ p1.tokenIndex = p.tokenIndex ∧ p1.tokenRaw = p.tokenRaw := by
  simp only [scanZero] at hok
  repeat' split at hok
  any_goals exact Except.noConfusion hok
  all_goals
    (simp only [Except.ok.injEq, Prod.mk.injEq] at hok
     obtain ⟨h1, h2, h3, h4⟩ := hok
     subst h1
     exact ⟨by simp [adv], by simp [adv], by simp [adv]⟩)

end Meriyah

namespace Meriyah

/-- Effect of the rest stage on `tokenRaw`, by composition with the tail
stage. -/
theorem scanNumberRest_rawFrame (p : ParserState) (ctx : Context) (kind : NumberKind)
    (value : JSVal) (p' : ParserState) (tok : Token)
    (hok : scanNumberRest p ctx kind value = .ok (p', tok)) :
    p'.source = p.source ∧ p'.tokenIndex = p.tokenIndex ∧
    (tok = .NumericLiteral → ctx.optionsRaw = false → p'.tokenRaw = p.tokenRaw) ∧
    (tok = .BigIntLiteral → p'.tokenRaw = sliceCP p.source p.tokenIndex p'.index) := by
  simp only [scanNumberRest] at hok
  repeat' split at hok
  any_goals exact Except.noConfusion hok
  all_goals
    (obtain ⟨hs, ht, hn, hb⟩ := scanNumberTail_rawFrame _ _ _ _ _ _ hok
     try simp [adv] at hs
     try simp [adv] at ht
     try simp [adv] at hn
     try simp [adv] at hb
     exact ⟨hs, ht, hn, hb⟩)

/-- Effect of the decimal stage on `tokenRaw`, including the fast early
return of `numeric.ts` lines 135-141. -/
theorem scanDecimalPart_rawFrame (p : ParserState) (ctx : Context) (kind : NumberKind)
    (value : Nat) (atStart : Bool) (p' : ParserState) (tok : Token)
    (hok : scanDecimalPart p ctx kind value atStart = .ok (p', tok)) :
    p'.source = p.source ∧ p'.tokenIndex = p.tokenIndex ∧
    (tok = .NumericLiteral → ctx.optionsRaw = false → p'.tokenRaw = p.tokenRaw) ∧
    (tok = .BigIntLiteral → p'.tokenRaw = sliceCP p.source p.tokenIndex p'.index) := by
  rw [scanDecimalPart] at hok
  by_cases hk : kind.isDecimalNumberKind = true
  · rw [if_pos hk] at hok
    by_cases ha : atStart = true
    · rw [if_pos ha] at hok
      rcases hE : fastLoop (restCP p) 9 value false with e | ⟨k, digit, v, allowSep⟩
      · simp only [hE] at hok
        exact Except.noConfusion hok
      · simp only [hE] at hok
        repeat' split at hok
        any_goals exact Except.noConfusion hok
        all_goals
          first
          | (simp only [Except.ok.injEq, Prod.mk.injEq] at hok
             obtain ⟨h1, h2⟩ := hok
             subst h1
             subst h2
             refine ⟨by simp [adv], by simp [adv], ?_, ?_⟩
             · intro _ hraw
               simp_all [adv]
             · intro hne
               exact absurd hne (by simp))
          | (obtain ⟨hs, ht, hn, hb⟩ := scanNumberRest_rawFrame _ _ _ _ _ _ hok
             try simp [adv] at hs
             try simp [adv] at ht
             try simp [adv] at hn
             try simp [adv] at hb
             exact ⟨hs, ht, hn, hb⟩)
    · rw [if_neg ha] at hok
      exact scanNumberRest_rawFrame _ _ _ _ _ _ hok
  · rw [if_neg hk] at hok
    exact scanNumberTail_rawFrame _ _ _ _ _ _ hok

end Meriyah

namespace Meriyah

/-! ## The claims -/

/-- C9: the statement `if (true) function foo() {}` (sloppy mode) is a parse
error under the default configuration, and parses to a tree containing a
`FunctionDeclaration` when `OptionsWebCompat` is enabled. -/
theorem spec_C9 :
    parseIfWithFunctionConsequent ⟨false, false⟩ true fooName = .error .Unexpected ∧
    ∃ t, parseIfWithFunctionConsequent ⟨true, false⟩ true fooName = .ok t ∧
      containsFunctionDecl t = true :=
  ⟨rfl, _, rfl, rfl⟩

/-- C10 (amended): the fast path of lines 119-141 is dead code, because
`atStart` is initialized from the `Float` bit (line 21), which is absent on
the integer path, so every decimal integer is scanned by the general path;
nevertheless, on plain decimal integers within the fast budget (nonzero
first digit, valid separators, at most nine digits, end of buffer next) the
token kind and token value the fast-path code specifies coincide with what
the general path produces, and the produced value is the accumulated digit
string coerced to a number. -/
theorem spec_C10 (ctx : Context) (l : List Nat) (c0 : Nat)
    (hhead : l.head? = some c0) (hc0lo : 49 ≤ c0) (hc0hi : c0 ≤ 57)
    (hrun : sepRun isDecimalDigit true l = some true)
    (hnum : numDigits l ≤ 9) :
    (scanDecimalPart (mkParser l) ctx .Decimal 0 true).map
        (fun r => (r.1.tokenValue, r.2)) =
      (scanDecimalPart (mkParser l) ctx .Decimal 0 false).map
        (fun r => (r.1.tokenValue, r.2)) ∧
    ∃ p', scanNumber (mkParser l) ctx .Decimal = .ok (p', .NumericLiteral) ∧
      p'.tokenValue = generalPathValue l := by
  have h95 : isDecimalDigit 95 = false := by decide
  have hall : ∀ c ∈ l, isDecimalDigit c = true ∨ c = 95 :=
    sepRun_all_class _ h95 true l true hrun
  have hdigs : ∀ c ∈ digitsOf l, isDecimalDigit c = true := digitsOf_all_digits l hall
  obtain ⟨t, rfl⟩ : ∃ t, l = c0 :: t := by
    rcases l with _ | ⟨a, t⟩
    · simp at hhead
    · simp at hhead
      exact ⟨t, by rw [hhead]⟩
  have hrest : restCP (mkParser (c0 :: t)) = (c0 :: t) ++ [] := by
    simp [mkParser, restCP]
  have hfast := scanDecimalPart_valid (mkParser (c0 :: t)) ctx .Decimal (c0 :: t) [] c0
    (Or.inl rfl) hrest (by simp) hc0lo hc0hi hrun (by rfl)
  rw [if_pos (by simp [hnum, isIdentifierStartCp])] at hfast
  have hgen : scanDecimalPart (mkParser (c0 :: t)) ctx .Decimal 0 false =
      .ok (⟨c0 :: t, (c0 :: t).length, 0, 0,
        ((decDigitsVal (digitsOf (c0 :: t)) : ℕ) : ℚ),
        if ctx.optionsRaw then c0 :: t else []⟩, .NumericLiteral) := by
    rw [scanDecimalPart_false,
      if_pos (show NumberKind.Decimal.isDecimalNumberKind = true from rfl)]
    rw [← scanNumber_dec (mkParser (c0 :: t)) ctx c0 t (by simpa using hrest) hc0lo hc0hi]
    exact scanNumber_dec_value ctx (c0 :: t) c0 (by simp) hc0lo hc0hi hrun
  constructor
  · rw [hfast, hgen]
    simp [mkParser, Except.map]
  · refine ⟨_, scanNumber_dec_value ctx (c0 :: t) c0 (by simp) hc0lo hc0hi hrun, ?_⟩
    rw [generalPathValue, jsNumParse_digits _ hdigs]

/-- Counterexample to C10 as stated: on the qualifying input `08_9` in
sloppy mode the program returns the value 8 (the raw text re-parsed, since
the whole literal goes down the general path), while the fast-path code of
lines 119-141, run from the same state, would return the accumulator value
89. -/
theorem spec_C10_counterexample :
    scanNumber (mkParser [48, 56, 95, 57]) ctxSloppy .Decimal =
      .ok (⟨[48, 56, 95, 57], 4, 0, flagsOctals, (8 : ℚ), []⟩, .NumericLiteral) ∧
    (scanDecimalPart ⟨[48, 56, 95, 57], 1, 0, flagsOctals, 0, []⟩ ctxSloppy
        .DecimalWithLeadingZero 0 true).map (fun r => (r.1.tokenValue, r.2)) =
      .ok ((89 : ℚ), .NumericLiteral) ∧
    (8 : ℚ) ≠ 89 := by
  refine ⟨?_, by decide, by norm_num⟩
  rw [scanNumber_zero89 (mkParser [48, 56, 95, 57]) ctxSloppy 56 [95, 57] rfl
    (Or.inl rfl) rfl]
  rw [scanNumberRest_val _ ctxSloppy .DecimalWithLeadingZero _ [56, 95, 57] []
    (by simp [mkParser, restCP]) (by decide) (by decide) rfl]
  rw [if_neg (by decide)]
  rw [scanNumberTail_eof _ ctxSloppy _ _ (by simp [mkParser, restCP, adv])]
  have hv : jsNumParse [48, 56, 95, 57] = (8 : ℚ) := by
    show jsNumParse [48, 56, 95, 57] = 8
    simp [jsNumParse, isDecimalDigit, decDigitsVal, List.takeWhile]
  simp [mkParser, adv, hv, NumberKind.isRadixKind, sliceCP, flagsOctals, ctxSloppy]

/-- Witness for C10 (amended) at the three-digit input `100`. -/
theorem spec_C10_witness :
    ((scanDecimalPart (mkParser [49, 48, 48]) ctxSloppy .Decimal 0 true).map
        (fun r => (r.1.tokenValue, r.2)) =
      (scanDecimalPart (mkParser [49, 48, 48]) ctxSloppy .Decimal 0 false).map
        (fun r => (r.1.tokenValue, r.2)) ∧
    ∃ p', scanNumber (mkParser [49, 48, 48]) ctxSloppy .Decimal =
        .ok (p', .NumericLiteral) ∧
      p'.tokenValue = generalPathValue [49, 48, 48]) :=
  spec_C10 ctxSloppy [49, 48, 48] 49 (by decide) (by decide) (by decide) (by decide)
    (by decide)

end Meriyah

namespace Meriyah

/-- C1: a valid radix-prefixed literal (`0x…`, `0o…`, `0b…`, either marker
case, at least one digit, valid separator placement) scans to a
`NumericLiteral` whose `tokenValue` is the mathematical value of its digit
sequence in that radix, separators ignored. -/
theorem spec_C1 (r : Radix) (ctx : Context) (x : Nat) (l : List Nat)
    (hx : x ∈ r.markers)
    (hrun : sepRun r.digClass false l = some true) :
    ∃ p', scanNumber (mkParser (48 :: x :: l)) ctx .Decimal = .ok (p', .NumericLiteral) ∧
      p'.tokenValue = ((Nat.ofDigits r.base (((digitsOf l).map r.dval).reverse) : ℕ) : ℚ) := by
  have hrest : restCP (mkParser (48 :: x :: l)) = 48 :: x :: (l ++ []) := by
    simp [mkParser, restCP]
  have hok := scanNumber_radix_ok r (mkParser (48 :: x :: l)) ctx x l [] hx hrest
    (by rfl) hrun
  rw [hok]
  have heof : restCP (adv (mkParser (48 :: x :: l)) (2 + l.length)) = [] := by
    rw [restCP_adv, hrest, Nat.add_comm 2 l.length]
    simp
  rw [scanNumberTail_eof _ ctx _ _ heof]
  refine ⟨_, rfl, ?_⟩
  have hrad : r.nkind.isRadixKind = true := by cases r <;> rfl
  simp only [hrad, if_true, JSVal.toQ]
  rw [foldl_mul_add_ofDigits]
  simp

/-- Witness for C1: `0x1_0` scans to the value 16. -/
theorem spec_C1_witness :
    ∃ p', scanNumber (mkParser [48, 120, 49, 95, 48]) ctxSloppy .Decimal =
        .ok (p', .NumericLiteral) ∧
      p'.tokenValue = ((Nat.ofDigits 16 [0, 1] : ℕ) : ℚ) :=
  spec_C1 .hex ctxSloppy 120 [49, 95, 48] (by decide) (by decide)

/-- C2 (amended): a literal `0` followed by octal digits is a hard error in
strict mode; outside strict mode it scans to a `NumericLiteral` whose value
is the base-8 value of the digits, and the parser flags are left unchanged
(the legacy-octal flag is not set on this branch of the scanner). -/
theorem spec_C2 (ctx : Context) (o : List Nat) (hone : o ≠ [])
    (ho : ∀ c ∈ o, isOctalDigit c = true) :
    (ctx.strict = true →
      scanNumber (mkParser (48 :: o)) ctx .Decimal = .error .StrictOctalEscape) ∧
    (ctx.strict = false →
      ∃ p', scanNumber (mkParser (48 :: o)) ctx .Decimal = .ok (p', .NumericLiteral) ∧
        p'.tokenValue = ((Nat.ofDigits 8 ((o.map (fun c => c - 48)).reverse) : ℕ) : ℚ) ∧
        p'.flags = (mkParser (48 :: o)).flags) := by
  have hrest : restCP (mkParser (48 :: o)) = 48 :: (o ++ []) := by
    simp [mkParser, restCP]
  have hm : ∀ c t, ([] : List Nat) = c :: t → isOctalDigit c = false := by
    intro c t h
    cases h
  have hz := scanZero_implicit (mkParser (48 :: o)) ctx .Decimal o [] hrest ho hone hm
  constructor
  · intro hs
    rw [scanNumber, if_neg (by decide), hz, if_pos hs]
  · intro hs
    have hz2 : scanZero (mkParser (48 :: o)) ctx .Decimal =
        .ok (adv (mkParser (48 :: o)) (1 + o.length), .ImplicitOctal,
          o.foldl (fun a c => a * 8 + (c - 48)) 0, false) := by
      rw [hz, if_neg (by simp [hs]), if_pos rfl]
    rw [scanNumber, if_neg (by decide)]
    simp only [hz2]
    rw [scanDecimalPart, if_neg (by decide)]
    have heof : restCP (adv (mkParser (48 :: o)) (1 + o.length)) = [] := by
      rw [restCP_adv, show restCP (mkParser (48 :: o)) = 48 :: o from by
        simp [mkParser, restCP], Nat.add_comm 1 o.length]
      simp
    rw [scanNumberTail_eof _ ctx _ _ heof]
    refine ⟨_, rfl, ?_, rfl⟩
    simp only [NumberKind.isRadixKind, if_true, JSVal.toQ]
    rw [foldl_mul_add_ofDigits]
    simp

/-- Counterexample to C2 as stated: `0755` outside strict mode scans
successfully (value 493) but the parser flags stay `0`; the legacy-octal
flag (a nonzero bit) is not set. -/
theorem spec_C2_counterexample :
    (scanNumber (mkParser [48, 55, 53, 53]) ctxSloppy .Decimal).map
        (fun r => (r.1.flags, r.1.tokenValue, r.2)) =
      .ok (0, (493 : ℚ), .NumericLiteral) ∧ flagsOctals ≠ 0 := by
  constructor
  · decide
  · decide

/-- Witness for C2 (amended) at `0755` in sloppy mode. -/
theorem spec_C2_witness :
    ∃ p', scanNumber (mkParser [48, 55, 53, 53]) ctxSloppy .Decimal =
        .ok (p', .NumericLiteral) ∧
      p'.tokenValue = ((Nat.ofDigits 8 [5, 5, 7] : ℕ) : ℚ) ∧
      p'.flags = (mkParser [48, 55, 53, 53]).flags :=
  (spec_C2 ctxSloppy [55, 53, 53] (by decide) (by decide)).2 rfl

/-- C3 (amended): on a successful scan, a `NumericLiteral` leaves
`tokenRaw` unchanged whenever `OptionsRaw` is not set, but a
`BigIntLiteral` always overwrites `tokenRaw` with the raw source slice of
the token, whether or not `OptionsRaw` is set. -/
theorem spec_C3 (p : ParserState) (ctx : Context) (kind0 : NumberKind)
    (p' : ParserState) (tok : Token)
    (hok : scanNumber p ctx kind0 = .ok (p', tok)) :
    (tok = .NumericLiteral → ctx.optionsRaw = false → p'.tokenRaw = p.tokenRaw) ∧
    (tok = .BigIntLiteral → p'.tokenRaw = sliceCP p.source p.tokenIndex p'.index) := by
  rw [scanNumber] at hok
  by_cases hf : kind0.isFloat = true
  · rw [if_pos hf] at hok
    rcases hE : scanDecDigits (restCP p) false with e | ⟨k, ds⟩
    · simp only [hE] at hok
      exact Except.noConfusion hok
    · simp only [hE] at hok
      by_cases hn : (curCP (adv p k) == 110) = true
      · rw [if_pos hn] at hok
        exact Except.noConfusion hok
      · rw [if_neg hn] at hok
        obtain ⟨hs, ht, hnn, hb⟩ := scanNumberTail_rawFrame _ _ _ _ _ _ hok
        simp [adv] at hs ht hnn hb
        exact ⟨hnn, hb⟩
  · rw [if_neg hf] at hok
    rcases hE : scanZero p ctx kind0 with e | ⟨p1, kind, v, a⟩
    · simp only [hE] at hok
      exact Except.noConfusion hok
    · simp only [hE] at hok
      obtain ⟨z1, z2, z3⟩ := scanZero_rawFrame _ _ _ _ _ _ _ hE
      obtain ⟨hs, ht, hnn, hb⟩ := scanDecimalPart_rawFrame _ _ _ _ _ _ _ hok
      rw [z3] at hnn
      rw [z1, z2] at hb
      exact ⟨hnn, hb⟩

/-- Counterexample to C3 as stated: scanning `3n` without `OptionsRaw`
still stores the raw slice `3n` into `tokenRaw` (the BigInt branch writes
it unconditionally). -/
theorem spec_C3_counterexample :
    scanNumber (mkParser [51, 110]) ctxSloppy .Decimal =
      .ok (⟨[51, 110], 2, 0, 0, (3 : ℚ), [51, 110]⟩, .BigIntLiteral) ∧
    ctxSloppy.optionsRaw = false ∧
    ([51, 110] : List Nat) ≠ (mkParser [51, 110]).tokenRaw := by
  refine ⟨by decide, rfl, by decide⟩

/-- Witness for C3 (amended) on the literal `0x1F` in sloppy mode. -/
theorem spec_C3_witness :
    (Token.NumericLiteral = Token.NumericLiteral → ctxSloppy.optionsRaw = false →
      (⟨[48, 120, 49, 70], 4, 0, 0, (31 : ℚ), []⟩ : ParserState).tokenRaw
        = (mkParser [48, 120, 49, 70]).tokenRaw) ∧
    (Token.NumericLiteral = Token.BigIntLiteral →
      (⟨[48, 120, 49, 70], 4, 0, 0, (31 : ℚ), []⟩ : ParserState).tokenRaw =
        sliceCP (mkParser [48, 120, 49, 70]).source (mkParser [48, 120, 49, 70]).tokenIndex
          (⟨[48, 120, 49, 70], 4, 0, 0, (31 : ℚ), []⟩ : ParserState).index) :=
  spec_C3 (mkParser [48, 120, 49, 70]) ctxSloppy .Decimal
    ⟨[48, 120, 49, 70], 4, 0, 0, (31 : ℚ), []⟩ .NumericLiteral (by decide)

/-- C4: `3n`, `0x1Fn`, `0b11n`, `0o17n` scan to `BigIntLiteral` tokens with
values 3, 31, 3, 15; `1.5n` and `0008n` are errors. -/
theorem spec_C4 :
    (scanNumber (mkParser [51, 110]) ctxSloppy .Decimal).map
        (fun r => (r.1.tokenValue, r.2)) = .ok ((3 : ℚ), .BigIntLiteral) ∧
    (scanNumber (mkParser [48, 120, 49, 70, 110]) ctxSloppy .Decimal).map
        (fun r => (r.1.tokenValue, r.2)) = .ok ((31 : ℚ), .BigIntLiteral) ∧
    (scanNumber (mkParser [48, 98, 49, 49, 110]) ctxSloppy .Decimal).map
        (fun r => (r.1.tokenValue, r.2)) = .ok ((3 : ℚ), .BigIntLiteral) ∧
    (scanNumber (mkParser [48, 111, 49, 55, 110]) ctxSloppy .Decimal).map
        (fun r => (r.1.tokenValue, r.2)) = .ok ((15 : ℚ), .BigIntLiteral) ∧
    scanNumber (mkParser [49, 46, 53, 110]) ctxSloppy .Decimal =
      .error .IDStartAfterNumber ∧
    scanNumber (mkParser [48, 48, 48, 56, 110]) ctxSloppy .Decimal =
      .error .IDStartAfterNumber := by
  refine ⟨?_, ?_, ?_, ?_, ?_, ?_⟩ <;> decide

end Meriyah

namespace Meriyah

/-- C5: a leading, trailing or doubled `_` separator is rejected with the
matching error in every digit sequence: the radix digit runs, the decimal
integer run, the fractional run and the exponent run (`sepRun … = none`
covers leading and doubled placements, `some false` a trailing one; a `_`
directly after the decimal point is the `Unexpected` error of line 150, and
in all other cases the error of `scanDecimalDigitsOrSeparator` propagates);
conversely `1_000_000` scans to the value 1000000. -/
theorem spec_C5 :
    (∀ (r : Radix) (ctx : Context) (x : Nat) (l post : List Nat),
      x ∈ r.markers →
      (∀ c ∈ l, r.digClass c = true ∨ c = 95) →
      stops r.digClass post = true → l ≠ [] →
      (sepRun r.digClass false l = none →
        scanNumber (mkParser (48 :: x :: (l ++ post))) ctx .Decimal =
          .error .ContinuousNumericSeparator) ∧
      (sepRun r.digClass false l = some false →
        scanNumber (mkParser (48 :: x :: (l ++ post))) ctx .Decimal =
          .error .TrailingNumericSeparator)) ∧
    (∀ (ctx : Context) (c0 : Nat) (l post : List Nat),
      l.head? = some c0 → 49 ≤ c0 → c0 ≤ 57 →
      (∀ c ∈ l, isDecimalDigit c = true ∨ c = 95) →
      stops isDecimalDigit post = true →
      (sepRun isDecimalDigit true l = none →
        scanNumber (mkParser (l ++ post)) ctx .Decimal =
          .error .ContinuousNumericSeparator) ∧
      (sepRun isDecimalDigit true l = some false →
        scanNumber (mkParser (l ++ post)) ctx .Decimal =
          .error .TrailingNumericSeparator)) ∧
    (∀ (ctx : Context) (l : List Nat) (c0 : Nat),
      l.head? = some c0 → 49 ≤ c0 → c0 ≤ 57 →
      (∀ d ∈ l, isDecimalDigit d = true) →
      (∀ rest : List Nat,
        scanNumber (mkParser (l ++ 46 :: 95 :: rest)) ctx .Decimal =
          .error .Unexpected) ∧
      (∀ (b0 : Nat) (bt r : List Nat), isDecimalDigit b0 = true →
        sepRun isDecimalDigit true (b0 :: bt) = some true →
        scanNumber (mkParser (l ++ 46 :: ((b0 :: bt) ++ 95 :: 95 :: r))) ctx .Decimal =
          .error .ContinuousNumericSeparator) ∧
      (∀ (g0 : Nat) (gt post : List Nat), isDecimalDigit g0 = true →
        sepRun isDecimalDigit true (g0 :: gt) = some true →
        stops isDecimalDigit post = true →
        scanNumber (mkParser (l ++ 46 :: (((g0 :: gt) ++ [95]) ++ post))) ctx .Decimal =
          .error .TrailingNumericSeparator)) ∧
    (∀ (ctx : Context) (l : List Nat) (c0 ech : Nat) (sl : List Nat),
      l.head? = some c0 → 49 ≤ c0 → c0 ≤ 57 →
      (∀ d ∈ l, isDecimalDigit d = true) →
      (ech = 101 ∨ ech = 69) → (sl = [] ∨ sl = [43] ∨ sl = [45]) →
      (∀ (b0 : Nat) (bt r : List Nat), isDecimalDigit b0 = true →
        sepRun isDecimalDigit true (b0 :: bt) = some true →
        scanNumber (mkParser (l ++ ech :: (sl ++ ((b0 :: bt) ++ 95 :: 95 :: r))))
          ctx .Decimal = .error .ContinuousNumericSeparator) ∧
      (∀ (g0 : Nat) (gt post : List Nat), isDecimalDigit g0 = true →
        sepRun isDecimalDigit true (g0 :: gt) = some true →
        stops isDecimalDigit post = true →
        scanNumber (mkParser (l ++ ech :: (sl ++ (((g0 :: gt) ++ [95]) ++ post))))
          ctx .Decimal = .error .TrailingNumericSeparator)) ∧
    (scanNumber (mkParser [49, 95, 48, 48, 48, 95, 48, 48, 48]) ctxSloppy .Decimal).map
      (fun r => (r.1.tokenValue, r.2)) = .ok ((1000000 : ℚ), .NumericLiteral) := by
  have h95 : isDecimalDigit 95 = false := by decide
  refine ⟨?_, ?_, ?_, ?_, ?_⟩
  · intro r ctx x l post hx hall hstop hlne
    have hrest : restCP (mkParser (48 :: x :: (l ++ post))) = 48 :: x :: (l ++ post) := by
      simp [mkParser, restCP]
    exact scanNumber_radix_err r _ ctx x l post hx hrest hall hstop hlne
  · intro ctx c0 l post hhead hlo hhi hall hstop
    obtain ⟨t, rfl⟩ : ∃ t, l = c0 :: t := by
      rcases l with _ | ⟨a, t⟩
      · simp at hhead
      · simp at hhead
        exact ⟨t, by rw [hhead]⟩
    have hrest : restCP (mkParser ((c0 :: t) ++ post)) = (c0 :: t) ++ post := by
      simp [mkParser, restCP]
    constructor
    · intro hnone
      obtain ⟨l1, r, hsplit, hr1⟩ := sepRun_none_decomp _ h95 (c0 :: t) hnone hall
      rw [scanNumber_dec _ ctx c0 (t ++ post) (by simpa using hrest) hlo hhi]
      exact scanNumberRest_cont _ ctx _ _ l1 (r ++ post)
        (by rw [hrest, hsplit]; simp) hr1
    · intro hfalse
      obtain ⟨g, hsplit, hg⟩ := sepRun_false_decomp _ h95 (c0 :: t) hfalse
      rw [scanNumber_dec _ ctx c0 (t ++ post) (by simpa using hrest) hlo hhi]
      exact scanNumberRest_trail _ ctx _ _ g post (by rw [hrest, hsplit]) hg hstop
  · intro ctx l c0 hhead hlo hhi hall
    obtain ⟨t, rfl⟩ : ∃ t, l = c0 :: t := by
      rcases l with _ | ⟨a, t⟩
      · simp at hhead
      · simp at hhead
        exact ⟨t, by rw [hhead]⟩
    have hall2 : ∀ c ∈ c0 :: t, isDecimalDigit c = true ∨ c = 95 :=
      fun c hc => Or.inl (hall c hc)
    have hrun : sepRun isDecimalDigit true (c0 :: t) = some true := by
      rw [sepRun_digits _ _ hall]
      simp
    refine ⟨?_, ?_, ?_⟩
    · intro rest
      have hrest : restCP (mkParser ((c0 :: t) ++ 46 :: 95 :: rest))
          = (c0 :: t) ++ 46 :: 95 :: rest := by
        simp [mkParser, restCP]
      rw [scanNumber_dec _ ctx c0 (t ++ 46 :: 95 :: rest) (by simpa using hrest) hlo hhi]
      rw [scanNumberRest_val _ ctx .Decimal _ (c0 :: t) (46 :: 95 :: rest) hrest
        hall2 hrun (by rfl)]
      rw [if_pos (by rfl), List.tail_cons, if_pos (by rfl)]
    · intro b0 bt r hb0 hbrun
      have hb95 : b0 ≠ 95 := by
        simp only [isDecimalDigit, Bool.and_eq_true, decide_eq_true_eq] at hb0
        omega
      have hrest : restCP (mkParser ((c0 :: t) ++ 46 :: ((b0 :: bt) ++ 95 :: 95 :: r)))
          = (c0 :: t) ++ 46 :: ((b0 :: bt) ++ 95 :: 95 :: r) := by
        simp [mkParser, restCP]
      rw [scanNumber_dec _ ctx c0 (t ++ 46 :: ((b0 :: bt) ++ 95 :: 95 :: r))
        (by simpa using hrest) hlo hhi]
      rw [scanNumberRest_val _ ctx .Decimal _ (c0 :: t)
        (46 :: ((b0 :: bt) ++ 95 :: 95 :: r)) hrest hall2 hrun (by rfl)]
      rw [if_pos (by rfl), List.tail_cons,
        if_neg (by simp only [List.cons_append, List.headD_cons]; simp [hb95])]
      simp only [scanDecDigits_cont (b0 :: bt) r hbrun]
    · intro g0 gt post hg0 hgrun hstop
      have hg95 : g0 ≠ 95 := by
        simp only [isDecimalDigit, Bool.and_eq_true, decide_eq_true_eq] at hg0
        omega
      have hrest : restCP (mkParser ((c0 :: t) ++ 46 :: (((g0 :: gt) ++ [95]) ++ post)))
          = (c0 :: t) ++ 46 :: (((g0 :: gt) ++ [95]) ++ post) := by
        simp [mkParser, restCP]
      rw [scanNumber_dec _ ctx c0 (t ++ 46 :: (((g0 :: gt) ++ [95]) ++ post))
        (by simpa using hrest) hlo hhi]
      rw [scanNumberRest_val _ ctx .Decimal _ (c0 :: t)
        (46 :: (((g0 :: gt) ++ [95]) ++ post)) hrest hall2 hrun (by rfl)]
      rw [if_pos (by rfl), List.tail_cons,
        if_neg (by simp only [List.cons_append, List.append_assoc, List.headD_cons]
                   simp [hg95])]
      simp only [scanDecDigits_trail (g0 :: gt) post hgrun hstop]
  · intro ctx l c0 ech sl hhead hlo hhi hall hech hsl
    obtain ⟨t, rfl⟩ : ∃ t, l = c0 :: t := by
      rcases l with _ | ⟨a, t⟩
      · simp at hhead
      · simp at hhead
        exact ⟨t, by rw [hhead]⟩
    have hall2 : ∀ c ∈ c0 :: t, isDecimalDigit c = true ∨ c = 95 :=
      fun c hc => Or.inl (hall c hc)
    have hrun : sepRun isDecimalDigit true (c0 :: t) = some true := by
      rw [sepRun_digits _ _ hall]
      simp
    constructor
    · intro b0 bt r hb0 hbrun
      have hrest : restCP (mkParser ((c0 :: t) ++ ech :: (sl ++ ((b0 :: bt) ++ 95 :: 95 :: r))))
          = (c0 :: t) ++ ech :: (sl ++ ((b0 :: bt) ++ 95 :: 95 :: r)) := by
        simp [mkParser, restCP]
      rw [scanNumber_dec _ ctx c0 (t ++ ech :: (sl ++ ((b0 :: bt) ++ 95 :: 95 :: r)))
        (by simpa using hrest) hlo hhi]
      rw [scanNumberRest_val _ ctx .Decimal _ (c0 :: t)
        (ech :: (sl ++ ((b0 :: bt) ++ 95 :: 95 :: r))) hrest hall2 hrun
        (by rcases hech with rfl | rfl <;> rfl)]
      rw [if_neg (by rcases hech with rfl | rfl <;> simp)]
      have hrest3 : restCP (adv (mkParser ((c0 :: t) ++ ech ::
          (sl ++ ((b0 :: bt) ++ 95 :: 95 :: r)))) (c0 :: t).length)
          = ech :: (sl ++ ((b0 :: bt) ++ 95 :: 95 :: r)) := by
        rw [restCP_adv, hrest, List.drop_left]
      exact scanNumberTail_exponent_err _ ctx _ _ ech sl ((b0 :: bt) ++ 95 :: 95 :: r)
        .ContinuousNumericSeparator hech hsl hrest3
        (by simp only [List.cons_append, List.headD_cons]; exact hb0)
        (scanDecDigits_cont (b0 :: bt) r hbrun)
    · intro g0 gt post hg0 hgrun hstop
      have hrest : restCP (mkParser ((c0 :: t) ++ ech :: (sl ++ (((g0 :: gt) ++ [95]) ++ post))))
          = (c0 :: t) ++ ech :: (sl ++ (((g0 :: gt) ++ [95]) ++ post)) := by
        simp [mkParser, restCP]
      rw [scanNumber_dec _ ctx c0 (t ++ ech :: (sl ++ (((g0 :: gt) ++ [95]) ++ post)))
        (by simpa using hrest) hlo hhi]
      rw [scanNumberRest_val _ ctx .Decimal _ (c0 :: t)
        (ech :: (sl ++ (((g0 :: gt) ++ [95]) ++ post))) hrest hall2 hrun
        (by rcases hech with rfl | rfl <;> rfl)]
      rw [if_neg (by rcases hech with rfl | rfl <;> simp)]
      have hrest3 : restCP (adv (mkParser ((c0 :: t) ++ ech ::
          (sl ++ (((g0 :: gt) ++ [95]) ++ post)))) (c0 :: t).length)
          = ech :: (sl ++ (((g0 :: gt) ++ [95]) ++ post)) := by
        rw [restCP_adv, hrest, List.drop_left]
      exact scanNumberTail_exponent_err _ ctx _ _ ech sl (((g0 :: gt) ++ [95]) ++ post)
        .TrailingNumericSeparator hech hsl hrest3
        (by simp only [List.cons_append, List.append_assoc, List.headD_cons]; exact hg0)
        (scanDecDigits_trail (g0 :: gt) post hgrun hstop)
  · rw [scanNumber_dec_value ctxSloppy [49, 95, 48, 48, 48, 95, 48, 48, 48] 49
      (by decide) (by decide) (by decide) (by decide)]
    simp only [Except.map, ctxSloppy, Bool.false_eq_true, if_false]
    norm_num [show decDigitsVal (digitsOf [49, 95, 48, 48, 48, 95, 48, 48, 48]) = 1000000
      from by decide]

/-- Witness for C5: the leading separator `0x_1`, the trailing separators
`1_` and `1.2_`, and the doubled separator `1e2__3` are all rejected, and a
`_` directly after the decimal point (`1._5`) is rejected as unexpected. -/
theorem spec_C5_witness :
    scanNumber (mkParser [48, 120, 95, 49]) ctxSloppy .Decimal =
      .error .ContinuousNumericSeparator ∧
    scanNumber (mkParser [49, 95]) ctxSloppy .Decimal =
      .error .TrailingNumericSeparator ∧
    scanNumber (mkParser [49, 46, 50, 95]) ctxSloppy .Decimal =
      .error .TrailingNumericSeparator ∧
    scanNumber (mkParser [49, 101, 50, 95, 95, 51]) ctxSloppy .Decimal =
      .error .ContinuousNumericSeparator ∧
    scanNumber (mkParser [49, 46, 95, 53]) ctxSloppy .Decimal = .error .Unexpected := by
  refine ⟨?_, ?_, ?_, ?_, ?_⟩
  · exact (spec_C5.1 .hex ctxSloppy 120 [95, 49] [] (by decide) (by decide) (by decide)
      (by decide)).1 (by decide)
  · exact (spec_C5.2.1 ctxSloppy 49 [49, 95] [] (by decide) (by decide) (by decide)
      (by decide) (by decide)).2 (by decide)
  · exact (spec_C5.2.2.1 ctxSloppy [49] 49 (by decide) (by decide) (by decide)
      (by decide)).2.2 50 [] [] (by decide) (by decide) (by decide)
  · exact (spec_C5.2.2.2.1 ctxSloppy [49] 49 101 [] (by decide) (by decide) (by decide)
      (by decide) (by decide) (by decide)).1 50 [] [51] (by decide) (by decide)
  · exact (spec_C5.2.2.1 ctxSloppy [49] 49 (by decide) (by decide) (by decide)
      (by decide)).1 [53]

end Meriyah

namespace Meriyah

/-- C6: a literal `0` followed by decimal digits including an `8` or `9`
(written `0` then octal digits `o`, the first `8`/`9`, then more digits) is
a hard error in strict mode; outside strict mode it scans to a
`NumericLiteral` whose value is the decimal re-parse of the literal's raw
text. -/
theorem spec_C6 (ctx : Context) (o m : List Nat) (c89 : Nat)
    (ho : ∀ c ∈ o, isOctalDigit c = true)
    (hc : c89 = 56 ∨ c89 = 57)
    (hm : ∀ c ∈ m, isDecimalDigit c = true) :
    (ctx.strict = true →
      scanNumber (mkParser (48 :: (o ++ c89 :: m))) ctx .Decimal =
        .error .StrictOctalEscape) ∧
    (ctx.strict = false →
      ∃ p', scanNumber (mkParser (48 :: (o ++ c89 :: m))) ctx .Decimal =
          .ok (p', .NumericLiteral) ∧
        p'.tokenValue = jsNumParse (48 :: (o ++ c89 :: m))) := by
  have hdig : ∀ c ∈ c89 :: m, isDecimalDigit c = true := by
    intro c hcm
    rcases List.mem_cons.mp hcm with rfl | hcm
    · rcases hc with rfl | rfl <;> decide
    · exact hm c hcm
  have hrun : sepRun isDecimalDigit true (c89 :: m) = some true := by
    rw [sepRun_digits _ _ hdig]
    simp
  have hc89d : digitsOf (c89 :: m) = c89 :: m := by
    rw [digitsOf]
    apply List.filter_eq_self.mpr
    intro c hcm
    have h := hdig c hcm
    simp only [isDecimalDigit, Bool.and_eq_true, decide_eq_true_eq] at h
    simp only [ne_eq, decide_eq_true_eq]
    omega
  have hc89lo : 49 ≤ c89 := by rcases hc with rfl | rfl <;> decide
  have hc89hi : c89 ≤ 57 := by rcases hc with rfl | rfl <;> decide
  rcases o with _ | ⟨o0, o'⟩
  · have hrest : restCP (mkParser (48 :: ([] ++ c89 :: m))) = 48 :: c89 :: m := by
      simp [mkParser, restCP]
    have hz := scanZero_leadingZero89 (mkParser (48 :: ([] ++ c89 :: m))) ctx .Decimal
      c89 m hrest hc
    constructor
    · intro hs
      rw [scanNumber, if_neg (by decide), hz, if_pos hs]
    · intro hs
      have hz2 : scanZero (mkParser (48 :: ([] ++ c89 :: m))) ctx .Decimal =
          .ok (⟨(mkParser (48 :: ([] ++ c89 :: m))).source,
            (mkParser (48 :: ([] ++ c89 :: m))).index + 1,
            (mkParser (48 :: ([] ++ c89 :: m))).tokenIndex, flagsOctals,
            (mkParser (48 :: ([] ++ c89 :: m))).tokenValue,
            (mkParser (48 :: ([] ++ c89 :: m))).tokenRaw⟩,
            .DecimalWithLeadingZero, 0, false) := by
        rw [hz, if_neg (by simp [hs])]
      rw [scanNumber, if_neg (by decide)]
      simp only [hz2]
      rw [scanDecimalPart_false,
        if_pos (show NumberKind.DecimalWithLeadingZero.isDecimalNumberKind = true from rfl)]
      have hrest1 : restCP (⟨(mkParser (48 :: ([] ++ c89 :: m))).source,
          (mkParser (48 :: ([] ++ c89 :: m))).index + 1,
          (mkParser (48 :: ([] ++ c89 :: m))).tokenIndex, flagsOctals,
          (mkParser (48 :: ([] ++ c89 :: m))).tokenValue,
          (mkParser (48 :: ([] ++ c89 :: m))).tokenRaw⟩ : ParserState) =
          (c89 :: m) ++ [] := by
        simp [mkParser, restCP]
      rw [scanNumberRest_val _ ctx .DecimalWithLeadingZero _ (c89 :: m) [] hrest1
        (fun c hcm => Or.inl (hdig c hcm)) hrun rfl]
      rw [if_neg (by decide)]
      have heof : restCP (adv (⟨(mkParser (48 :: ([] ++ c89 :: m))).source,
          (mkParser (48 :: ([] ++ c89 :: m))).index + 1,
          (mkParser (48 :: ([] ++ c89 :: m))).tokenIndex, flagsOctals,
          (mkParser (48 :: ([] ++ c89 :: m))).tokenValue,
          (mkParser (48 :: ([] ++ c89 :: m))).tokenRaw⟩ : ParserState)
          (c89 :: m).length) = [] := by
        simp [mkParser, restCP, adv]
        omega
      rw [scanNumberTail_eof _ ctx _ _ heof]
      refine ⟨_, rfl, ?_⟩
      simp only [NumberKind.isRadixKind, Bool.false_eq_true, if_false,
        beq_self_eq_true, if_true, adv, mkParser]
      rw [sliceCP_whole _ _ (by simp [Nat.add_comm])]
  · have hrest : restCP (mkParser (48 :: ((o0 :: o') ++ c89 :: m))) =
        48 :: ((o0 :: o') ++ (c89 :: m)) := by
      simp [mkParser, restCP]
    have him : isImplicitOctalDigit c89 = true := by rcases hc with rfl | rfl <;> decide
    have hmz : ∀ c t', c89 :: m = c :: t' → isOctalDigit c = false := by
      intro c t' h
      cases h
      rcases hc with rfl | rfl <;> decide
    have hz := scanZero_implicit (mkParser (48 :: ((o0 :: o') ++ c89 :: m))) ctx .Decimal
      (o0 :: o') (c89 :: m) hrest ho (by simp) hmz
    constructor
    · intro hs
      rw [scanNumber, if_neg (by decide), hz, if_pos hs]
    · intro hs
      have hz2 : scanZero (mkParser (48 :: ((o0 :: o') ++ c89 :: m))) ctx .Decimal =
          .ok (adv (mkParser (48 :: ((o0 :: o') ++ c89 :: m))) (1 + (o0 :: o').length),
            .DecimalWithLeadingZero,
            (o0 :: o').foldl (fun a c => a * 8 + (c - 48)) 0, false) := by
        rw [hz, if_neg (by simp [hs]), if_neg (by simp [him])]
      rw [scanNumber, if_neg (by decide)]
      simp only [hz2]
      rw [scanDecimalPart, if_pos (by decide), if_neg (by decide)]
      have hrest2 : restCP (adv (mkParser (48 :: ((o0 :: o') ++ c89 :: m)))
          (1 + (o0 :: o').length)) = (c89 :: m) ++ [] := by
        rw [restCP_adv, hrest, Nat.add_comm 1 (o0 :: o').length]
        simp
      rw [scanNumberRest_val _ ctx .DecimalWithLeadingZero _ (c89 :: m) [] hrest2
        (fun c hcm => Or.inl (hdig c hcm)) hrun rfl]
      rw [if_neg (by decide)]
      have heof : restCP (adv (adv (mkParser (48 :: ((o0 :: o') ++ c89 :: m)))
          (1 + (o0 :: o').length)) (c89 :: m).length) = [] := by
        rw [restCP_adv, hrest2, List.append_nil, List.drop_length]
      rw [scanNumberTail_eof _ ctx _ _ heof]
      refine ⟨_, rfl, ?_⟩
      simp only [NumberKind.isRadixKind, Bool.false_eq_true, if_false,
        beq_self_eq_true, if_true, adv, mkParser]
      rw [sliceCP_whole _ _ (by simp [List.length_append]; omega)]

/-- Witness for C6 at `078`: strict error, sloppy value 78. -/
theorem spec_C6_witness :
    scanNumber (mkParser [48, 55, 56]) ctxStrict .Decimal = .error .StrictOctalEscape ∧
    ∃ p', scanNumber (mkParser [48, 55, 56]) ctxSloppy .Decimal = .ok (p', .NumericLiteral) ∧
      p'.tokenValue = jsNumParse [48, 55, 56] := by
  constructor
  · exact (spec_C6 ctxStrict [55] [] 56 (by decide) (Or.inl rfl) (by decide)).1 rfl
  · exact (spec_C6 ctxSloppy [55] [] 56 (by decide) (Or.inl rfl) (by decide)).2 rfl

end Meriyah

namespace Meriyah

/-- C7: a complete numeral immediately followed by an identifier-start code
point (other than the continuation characters `n`, `e`/`E`, `_` where they
continue the literal) or, after a radix literal, by a decimal digit, is
rejected with the identifier-start-after-number error.  Settled for decimal
integers (`3in`), floats (`1.5x`), radix literals followed by a digit
(`0b12`) or an identifier start (`0b1z`), legacy implicit octals (`077x`),
a bare zero (`0z`), and exponent numerals (`1e5x`). -/
theorem spec_C7 :
    (∀ (ctx : Context) (l rest : List Nat) (c0 c : Nat),
      l.head? = some c0 → 49 ≤ c0 → c0 ≤ 57 →
      (∀ d ∈ l, isDecimalDigit d = true) →
      isIdentifierStartCp c = true → c ≠ 110 → c ≠ 95 → (c ||| 32) ≠ 101 →
      scanNumber (mkParser (l ++ c :: rest)) ctx .Decimal =
        .error .IDStartAfterNumber) ∧
    (∀ (ctx : Context) (l f rest : List Nat) (c0 c : Nat),
      l.head? = some c0 → 49 ≤ c0 → c0 ≤ 57 →
      (∀ d ∈ l, isDecimalDigit d = true) →
      (∀ d ∈ f, isDecimalDigit d = true) →
      isIdentifierStartCp c = true → c ≠ 110 → c ≠ 95 → (c ||| 32) ≠ 101 →
      scanNumber (mkParser (l ++ 46 :: (f ++ c :: rest))) ctx .Decimal =
        .error .IDStartAfterNumber) ∧
    (∀ (r : Radix) (ctx : Context) (x : Nat) (l rest : List Nat) (c : Nat),
      x ∈ r.markers →
      sepRun r.digClass false l = some true →
      isDecimalDigit c = true → r.digClass c = false →
      scanNumber (mkParser (48 :: x :: (l ++ c :: rest))) ctx .Decimal =
        .error .IDStartAfterNumber) ∧
    (∀ (r : Radix) (ctx : Context) (x : Nat) (l rest : List Nat) (c : Nat),
      x ∈ r.markers →
      sepRun r.digClass false l = some true →
      isIdentifierStartCp c = true → c ≠ 110 → c ≠ 95 → (c ||| 32) ≠ 101 →
      r.digClass c = false →
      scanNumber (mkParser (48 :: x :: (l ++ c :: rest))) ctx .Decimal =
        .error .IDStartAfterNumber) ∧
    (∀ (ctx : Context) (o rest : List Nat) (c : Nat),
      ctx.strict = false → o ≠ [] →
      (∀ d ∈ o, isOctalDigit d = true) →
      isIdentifierStartCp c = true → (c ||| 32) ≠ 101 →
      scanNumber (mkParser (48 :: (o ++ c :: rest))) ctx .Decimal =
        .error .IDStartAfterNumber) ∧
    (∀ (ctx : Context) (rest : List Nat) (c : Nat),
      isIdentifierStartCp c = true → c ≠ 110 → c ≠ 95 → (c ||| 32) ≠ 101 →
      (c ||| 32) ≠ 120 → (c ||| 32) ≠ 111 → (c ||| 32) ≠ 98 →
      scanNumber (mkParser (48 :: c :: rest)) ctx .Decimal =
        .error .IDStartAfterNumber) ∧
    (∀ (ctx : Context) (l ds rest : List Nat) (c0 ech c : Nat) (sl : List Nat),
      l.head? = some c0 → 49 ≤ c0 → c0 ≤ 57 →
      (∀ d ∈ l, isDecimalDigit d = true) →
      (ech = 101 ∨ ech = 69) → (sl = [] ∨ sl = [43] ∨ sl = [45]) →
      ds ≠ [] → (∀ d ∈ ds, isDecimalDigit d = true) →
      isIdentifierStartCp c = true → c ≠ 95 →
      scanNumber (mkParser (l ++ ech :: (sl ++ (ds ++ c :: rest)))) ctx .Decimal =
        .error .IDStartAfterNumber) := by
  have hfacts : ∀ c : Nat, isIdentifierStartCp c = true → c ≠ 95 →
      isDecimalDigit c = false ∧ c ≠ 46 := by
    intro c hid hc95
    have hb : ((65 ≤ c ∧ c ≤ 90 ∨ 97 ≤ c ∧ c ≤ 122) ∨ c = 36) ∨ c = 95 := by
      simpa [isIdentifierStartCp] using hid
    rcases hb with (⟨h1, h2⟩ | ⟨h1, h2⟩ | rfl) | rfl
    · exact ⟨by simp [isDecimalDigit]; omega, by omega⟩
    · exact ⟨by simp [isDecimalDigit]; omega, by omega⟩
    · exact ⟨by decide, by decide⟩
    · exact absurd rfl hc95
  have hfacts2 : ∀ c : Nat, isIdentifierStartCp c = true →
      isOctalDigit c = false ∧ isImplicitOctalDigit c = false := by
    intro c hid
    have hb : ((65 ≤ c ∧ c ≤ 90 ∨ 97 ≤ c ∧ c ≤ 122) ∨ c = 36) ∨ c = 95 := by
      simpa [isIdentifierStartCp] using hid
    rcases hb with (⟨h1, h2⟩ | ⟨h1, h2⟩ | rfl) | rfl
    · exact ⟨by simp [isOctalDigit]; omega, by simp [isImplicitOctalDigit]; omega⟩
    · exact ⟨by simp [isOctalDigit]; omega, by simp [isImplicitOctalDigit]; omega⟩
    · exact ⟨by decide, by decide⟩
    · exact ⟨by decide, by decide⟩
  refine ⟨?_, ?_, ?_, ?_, ?_, ?_, ?_⟩
  · intro ctx l rest c0 c hhead hlo hhi hall hid hc110 hc95 hce
    obtain ⟨t, rfl⟩ : ∃ t, l = c0 :: t := by
      rcases l with _ | ⟨a, t⟩
      · simp at hhead
      · simp at hhead
        exact ⟨t, by rw [hhead]⟩
    obtain ⟨hcd, hc46⟩ := hfacts c hid hc95
    have hrest : restCP (mkParser ((c0 :: t) ++ c :: rest)) = (c0 :: t) ++ c :: rest := by
      simp [mkParser, restCP]
    rw [scanNumber_dec _ ctx c0 (t ++ c :: rest) (by simpa using hrest) hlo hhi]
    rw [scanNumberRest_val _ ctx .Decimal _ (c0 :: t) (c :: rest) hrest
      (fun d hd => Or.inl (hall d hd)) (by rw [sepRun_digits _ _ hall]; simp)
      (by simp [stops, hcd, hc95])]
    rw [if_neg (by simp [hc46])]
    have hrest3 : restCP (adv (mkParser ((c0 :: t) ++ c :: rest)) (c0 :: t).length)
        = c :: rest := by
      rw [restCP_adv, hrest, List.drop_left]
    exact scanNumberTail_idstart _ ctx _ _ c rest hrest3 hid (Or.inl hc110) hce
  · intro ctx l f rest c0 c hhead hlo hhi hall hf hid hc110 hc95 hce
    obtain ⟨t, rfl⟩ : ∃ t, l = c0 :: t := by
      rcases l with _ | ⟨a, t⟩
      · simp at hhead
      · simp at hhead
        exact ⟨t, by rw [hhead]⟩
    obtain ⟨hcd, hc46⟩ := hfacts c hid hc95
    have hrest : restCP (mkParser ((c0 :: t) ++ 46 :: (f ++ c :: rest)))
        = (c0 :: t) ++ 46 :: (f ++ c :: rest) := by
      simp [mkParser, restCP]
    rw [scanNumber_dec _ ctx c0 (t ++ 46 :: (f ++ c :: rest)) (by simpa using hrest)
      hlo hhi]
    rw [scanNumberRest_val _ ctx .Decimal _ (c0 :: t) (46 :: (f ++ c :: rest)) hrest
      (fun d hd => Or.inl (hall d hd)) (by rw [sepRun_digits _ _ hall]; simp) (by rfl)]
    have hfof : digitsOf f = f := by
      rw [digitsOf]
      apply List.filter_eq_self.mpr
      intro d hd
      have h := hf d hd
      simp only [isDecimalDigit, Bool.and_eq_true, decide_eq_true_eq] at h
      simp only [ne_eq, decide_eq_true_eq]
      omega
    have h95t : ((f ++ c :: rest).headD 0 == 95) = false := by
      rcases f with _ | ⟨f0, ft⟩
      · simp [hc95]
      · have h := hf f0 (by simp)
        simp only [isDecimalDigit, Bool.and_eq_true, decide_eq_true_eq] at h
        simp
        omega
    rw [if_pos (by rfl), List.tail_cons,
      if_neg (by rw [h95t]; exact Bool.false_ne_true)]
    have hsd : scanDecDigits (f ++ c :: rest) false = .ok (f.length, f) := by
      rw [scanDecDigits_char f (c :: rest) (fun d hd => Or.inl (hf d hd))
        (by simp [stops, hcd, hc95]), sepRun_digits _ _ hf]
      simp [hfof]
    simp only [hsd]
    have hsplit : (c0 :: t) ++ 46 :: (f ++ c :: rest)
        = (((c0 :: t) ++ [46]) ++ f) ++ c :: rest := by
      simp
    have hlen : (c0 :: t).length + 1 + f.length = (((c0 :: t) ++ [46]) ++ f).length := by
      simp
      omega
    have hrest3 : restCP (adv (mkParser ((c0 :: t) ++ 46 :: (f ++ c :: rest)))
        ((c0 :: t).length + 1 + f.length)) = c :: rest := by
      rw [restCP_adv, hrest, hsplit, hlen, List.drop_left]
    exact scanNumberTail_idstart _ ctx _ _ c rest hrest3 hid (Or.inl hc110) hce
  · intro r ctx x l rest c hx hrun hcdig hcls
    have hc95 : c ≠ 95 := by
      simp only [isDecimalDigit, Bool.and_eq_true, decide_eq_true_eq] at hcdig
      omega
    have hrest : restCP (mkParser (48 :: x :: (l ++ c :: rest)))
        = 48 :: x :: (l ++ c :: rest) := by
      simp [mkParser, restCP]
    rw [scanNumber_radix_ok r _ ctx x l (c :: rest) hx hrest
      (by simp [stops, hcls, hc95]) hrun]
    have hrest3 : restCP (adv (mkParser (48 :: x :: (l ++ c :: rest))) (2 + l.length))
        = c :: rest := by
      rw [restCP_adv, hrest, Nat.add_comm 2 l.length]
      simp [List.drop_left]
    exact scanNumberTail_digit _ ctx _ _ c rest hrest3 hcdig
  · intro r ctx x l rest c hx hrun hid hc110 hc95 hce hcls
    have hrest : restCP (mkParser (48 :: x :: (l ++ c :: rest)))
        = 48 :: x :: (l ++ c :: rest) := by
      simp [mkParser, restCP]
    rw [scanNumber_radix_ok r _ ctx x l (c :: rest) hx hrest
      (by simp [stops, hcls, hc95]) hrun]
    have hrest3 : restCP (adv (mkParser (48 :: x :: (l ++ c :: rest))) (2 + l.length))
        = c :: rest := by
      rw [restCP_adv, hrest, Nat.add_comm 2 l.length]
      simp [List.drop_left]
    exact scanNumberTail_idstart _ ctx _ _ c rest hrest3 hid (Or.inl hc110) hce
  · intro ctx o rest c hs hone ho hid hce
    obtain ⟨hoct, him⟩ := hfacts2 c hid
    have hrest : restCP (mkParser (48 :: (o ++ c :: rest)))
        = 48 :: (o ++ c :: rest) := by
      simp [mkParser, restCP]
    have hz := scanZero_implicit (mkParser (48 :: (o ++ c :: rest))) ctx .Decimal
      o (c :: rest) hrest ho hone
      (fun c' t' h => by
        injection h with h1 h2
        subst h1
        exact hoct)
    have hz2 : scanZero (mkParser (48 :: (o ++ c :: rest))) ctx .Decimal =
        .ok (adv (mkParser (48 :: (o ++ c :: rest))) (1 + o.length), .ImplicitOctal,
          o.foldl (fun a d => a * 8 + (d - 48)) 0, false) := by
      rw [hz, if_neg (by simp [hs]), if_pos (by simp [him])]
    rw [scanNumber, if_neg (by decide)]
    simp only [hz2]
    rw [scanDecimalPart_false, if_neg (by decide)]
    have hrest3 : restCP (adv (mkParser (48 :: (o ++ c :: rest))) (1 + o.length))
        = c :: rest := by
      rw [restCP_adv, hrest,
        show (48 : Nat) :: (o ++ c :: rest) = (48 :: o) ++ c :: rest from rfl,
        show 1 + o.length = (48 :: o).length by simp [Nat.add_comm],
        List.drop_left]
    exact scanNumberTail_idstart _ ctx _ _ c rest hrest3 hid (Or.inr rfl) hce
  · intro ctx rest c hid hc110 hc95 hce hcx hco hcb
    obtain ⟨hcd, hc46⟩ := hfacts c hid hc95
    obtain ⟨hoct, him⟩ := hfacts2 c hid
    have hrest : restCP (mkParser (48 :: c :: rest)) = 48 :: c :: rest := by
      simp [mkParser, restCP]
    rw [scanNumber_zeroOther _ ctx c rest hrest hcx hco hcb hoct him hc95]
    rw [scanNumberRest_val _ ctx .Decimal _ [] (c :: rest)
      (by rw [restCP_adv, hrest]; rfl) (by simp) rfl
      (by simp [stops, hcd, hc95])]
    rw [if_neg (by simp [hc46])]
    have hrest3 : restCP (adv (adv (mkParser (48 :: c :: rest)) 1)
        (List.length ([] : List Nat))) = c :: rest := by
      rw [restCP_adv, restCP_adv, hrest]
      rfl
    exact scanNumberTail_idstart _ ctx _ _ c rest hrest3 hid (Or.inl hc110) hce
  · intro ctx l ds rest c0 ech c sl hhead hlo hhi hall hech hsl hdsne hdsall hid hc95
    obtain ⟨t, rfl⟩ : ∃ t, l = c0 :: t := by
      rcases l with _ | ⟨a, t⟩
      · simp at hhead
      · simp at hhead
        exact ⟨t, by rw [hhead]⟩
    obtain ⟨hcd, hc46⟩ := hfacts c hid hc95
    have hrest : restCP (mkParser ((c0 :: t) ++ ech :: (sl ++ (ds ++ c :: rest))))
        = (c0 :: t) ++ ech :: (sl ++ (ds ++ c :: rest)) := by
      simp [mkParser, restCP]
    rw [scanNumber_dec _ ctx c0 (t ++ ech :: (sl ++ (ds ++ c :: rest)))
      (by simpa using hrest) hlo hhi]
    rw [scanNumberRest_val _ ctx .Decimal _ (c0 :: t) (ech :: (sl ++ (ds ++ c :: rest)))
      hrest (fun d hd => Or.inl (hall d hd)) (by rw [sepRun_digits _ _ hall]; simp)
      (by rcases hech with rfl | rfl <;> rfl)]
    rw [if_neg (by rcases hech with rfl | rfl <;> simp)]
    have hrest3 : restCP (adv (mkParser ((c0 :: t) ++ ech :: (sl ++ (ds ++ c :: rest))))
        (c0 :: t).length) = ech :: (sl ++ (ds ++ c :: rest)) := by
      rw [restCP_adv, hrest, List.drop_left]
    exact scanNumberTail_exponent_idstart _ ctx _ _ ech sl ds c rest hech hsl hrest3
      hdsne hdsall hid hcd hc95

/-- Witness for C7: `3in`, `1.5x`, `0b12`, `0b1z`, `077x`, `0z` and `1e5x`
are all rejected with the identifier-start-after-number error. -/
theorem spec_C7_witness :
    scanNumber (mkParser [51, 105, 110]) ctxSloppy .Decimal =
      .error .IDStartAfterNumber ∧
    scanNumber (mkParser [49, 46, 53, 120]) ctxSloppy .Decimal =
      .error .IDStartAfterNumber ∧
    scanNumber (mkParser [48, 98, 49, 50]) ctxSloppy .Decimal =
      .error .IDStartAfterNumber ∧
    scanNumber (mkParser [48, 98, 49, 122]) ctxSloppy .Decimal =
      .error .IDStartAfterNumber ∧
    scanNumber (mkParser [48, 55, 55, 120]) ctxSloppy .Decimal =
      .error .IDStartAfterNumber ∧
    scanNumber (mkParser [48, 122]) ctxSloppy .Decimal =
      .error .IDStartAfterNumber ∧
    scanNumber (mkParser [49, 101, 53, 120]) ctxSloppy .Decimal =
      .error .IDStartAfterNumber := by
  refine ⟨?_, ?_, ?_, ?_, ?_, ?_, ?_⟩
  · exact spec_C7.1 ctxSloppy [51] [110] 51 105 (by decide) (by decide) (by decide)
      (by decide) (by decide) (by decide) (by decide) (by decide)
  · exact spec_C7.2.1 ctxSloppy [49] [53] [] 49 120 (by decide) (by decide) (by decide)
      (by decide) (by decide) (by decide) (by decide) (by decide) (by decide)
  · exact spec_C7.2.2.1 .bin ctxSloppy 98 [49] [] 50 (by decide) (by decide) (by decide)
      (by decide)
  · exact spec_C7.2.2.2.1 .bin ctxSloppy 98 [49] [] 122 (by decide) (by decide)
      (by decide) (by decide) (by decide) (by decide) (by decide)
  · exact spec_C7.2.2.2.2.1 ctxSloppy [55, 55] [] 120 (by decide) (by decide)
      (by decide) (by decide) (by decide)
  · exact spec_C7.2.2.2.2.2.1 ctxSloppy [] 122 (by decide) (by decide) (by decide)
      (by decide) (by decide) (by decide) (by decide)
  · exact spec_C7.2.2.2.2.2.2 ctxSloppy [49] [53] [] 49 101 120 [] (by decide)
      (by decide) (by decide) (by decide) (by decide) (by decide) (by decide)
      (by decide) (by decide) (by decide)

end Meriyah

namespace Meriyah

/-- C8: an exponent marker `e`/`E` followed by an optional `+`/`-` sign and
no digit is rejected with the missing-exponent error, and with at least one
exponent digit the scan succeeds, whatever mantissa precedes the marker:
a decimal integer (`1e`, `1e+5`), a float (`1.5e`, `1.5e+3`), a bare zero
(`0e`) and a leading-zero decimal (`08e`, sloppy mode) are all settled. -/
theorem spec_C8 :
    (∀ (ctx : Context) (l : List Nat) (c0 ech : Nat) (sl : List Nat),
      l.head? = some c0 → 49 ≤ c0 → c0 ≤ 57 →
      (∀ d ∈ l, isDecimalDigit d = true) →
      (ech = 101 ∨ ech = 69) → (sl = [] ∨ sl = [43] ∨ sl = [45]) →
      scanNumber (mkParser (l ++ ech :: sl)) ctx .Decimal =
        .error .MissingExponent) ∧
    (∀ (ctx : Context) (l : List Nat) (c0 ech : Nat) (sl ds : List Nat),
      l.head? = some c0 → 49 ≤ c0 → c0 ≤ 57 →
      (∀ d ∈ l, isDecimalDigit d = true) →
      (ech = 101 ∨ ech = 69) → (sl = [] ∨ sl = [43] ∨ sl = [45]) →
      ds ≠ [] → (∀ d ∈ ds, isDecimalDigit d = true) →
      ∃ p', scanNumber (mkParser (l ++ ech :: (sl ++ ds))) ctx .Decimal =
        .ok (p', .NumericLiteral)) ∧
    (∀ (ctx : Context) (l f : List Nat) (c0 ech : Nat) (sl : List Nat),
      l.head? = some c0 → 49 ≤ c0 → c0 ≤ 57 →
      (∀ d ∈ l, isDecimalDigit d = true) →
      (∀ d ∈ f, isDecimalDigit d = true) →
      (ech = 101 ∨ ech = 69) → (sl = [] ∨ sl = [43] ∨ sl = [45]) →
      scanNumber (mkParser (l ++ 46 :: (f ++ ech :: sl))) ctx .Decimal =
        .error .MissingExponent) ∧
    (∀ (ctx : Context) (l f : List Nat) (c0 ech : Nat) (sl ds : List Nat),
      l.head? = some c0 → 49 ≤ c0 → c0 ≤ 57 →
      (∀ d ∈ l, isDecimalDigit d = true) →
      (∀ d ∈ f, isDecimalDigit d = true) →
      (ech = 101 ∨ ech = 69) → (sl = [] ∨ sl = [43] ∨ sl = [45]) →
      ds ≠ [] → (∀ d ∈ ds, isDecimalDigit d = true) →
      ∃ p', scanNumber (mkParser (l ++ 46 :: (f ++ ech :: (sl ++ ds)))) ctx .Decimal =
        .ok (p', .NumericLiteral)) ∧
    (∀ (ctx : Context) (ech : Nat) (sl : List Nat),
      (ech = 101 ∨ ech = 69) → (sl = [] ∨ sl = [43] ∨ sl = [45]) →
      scanNumber (mkParser (48 :: ech :: sl)) ctx .Decimal =
        .error .MissingExponent) ∧
    (∀ (ctx : Context) (ech : Nat) (sl ds : List Nat),
      (ech = 101 ∨ ech = 69) → (sl = [] ∨ sl = [43] ∨ sl = [45]) →
      ds ≠ [] → (∀ d ∈ ds, isDecimalDigit d = true) →
      ∃ p', scanNumber (mkParser (48 :: ech :: (sl ++ ds))) ctx .Decimal =
        .ok (p', .NumericLiteral)) ∧
    (∀ (ctx : Context) (c89 : Nat) (m : List Nat) (ech : Nat) (sl : List Nat),
      ctx.strict = false → (c89 = 56 ∨ c89 = 57) →
      (∀ d ∈ m, isDecimalDigit d = true) →
      (ech = 101 ∨ ech = 69) → (sl = [] ∨ sl = [43] ∨ sl = [45]) →
      scanNumber (mkParser (48 :: c89 :: (m ++ ech :: sl))) ctx .Decimal =
        .error .MissingExponent) ∧
    (∀ (ctx : Context) (c89 : Nat) (m : List Nat) (ech : Nat) (sl ds : List Nat),
      ctx.strict = false → (c89 = 56 ∨ c89 = 57) →
      (∀ d ∈ m, isDecimalDigit d = true) →
      (ech = 101 ∨ ech = 69) → (sl = [] ∨ sl = [43] ∨ sl = [45]) →
      ds ≠ [] → (∀ d ∈ ds, isDecimalDigit d = true) →
      ∃ p', scanNumber (mkParser (48 :: c89 :: (m ++ ech :: (sl ++ ds)))) ctx .Decimal =
        .ok (p', .NumericLiteral)) := by
  refine ⟨?_, ?_, ?_, ?_, ?_, ?_, ?_, ?_⟩
  · intro ctx l c0 ech sl hhead hlo hhi hall hech hsl
    obtain ⟨t, rfl⟩ : ∃ t, l = c0 :: t := by
      rcases l with _ | ⟨a, t⟩
      · simp at hhead
      · simp at hhead
        exact ⟨t, by rw [hhead]⟩
    have hrest : restCP (mkParser ((c0 :: t) ++ ech :: sl)) = (c0 :: t) ++ ech :: sl := by
      simp [mkParser, restCP]
    rw [scanNumber_dec _ ctx c0 (t ++ ech :: sl) (by simpa using hrest) hlo hhi]
    rw [scanNumberRest_val _ ctx .Decimal _ (c0 :: t) (ech :: sl) hrest
      (fun d hd => Or.inl (hall d hd)) (by rw [sepRun_digits _ _ hall]; simp)
      (by rcases hech with rfl | rfl <;> rfl)]
    rw [if_neg (by rcases hech with rfl | rfl <;> simp)]
    have hrest3 : restCP (adv (mkParser ((c0 :: t) ++ ech :: sl)) (c0 :: t).length)
        = ech :: (sl ++ []) := by
      rw [restCP_adv, hrest, List.drop_left]
      simp
    exact scanNumberTail_exponent_missing _ ctx _ _ ech sl [] hech hsl hrest3
      (by intro c t' h; cases h)
  · intro ctx l c0 ech sl ds hhead hlo hhi hall hech hsl hdsne hds
    obtain ⟨t, rfl⟩ : ∃ t, l = c0 :: t := by
      rcases l with _ | ⟨a, t⟩
      · simp at hhead
      · simp at hhead
        exact ⟨t, by rw [hhead]⟩
    have hrest : restCP (mkParser ((c0 :: t) ++ ech :: (sl ++ ds)))
        = (c0 :: t) ++ ech :: (sl ++ ds) := by
      simp [mkParser, restCP]
    rw [scanNumber_dec _ ctx c0 (t ++ ech :: (sl ++ ds)) (by simpa using hrest) hlo hhi]
    rw [scanNumberRest_val _ ctx .Decimal _ (c0 :: t) (ech :: (sl ++ ds)) hrest
      (fun d hd => Or.inl (hall d hd)) (by rw [sepRun_digits _ _ hall]; simp)
      (by rcases hech with rfl | rfl <;> rfl)]
    rw [if_neg (by rcases hech with rfl | rfl <;> simp)]
    have hrest3 : restCP (adv (mkParser ((c0 :: t) ++ ech :: (sl ++ ds)))
        (c0 :: t).length) = ech :: (sl ++ ds) := by
      rw [restCP_adv, hrest, List.drop_left]
    exact scanNumberTail_exponent _ ctx _ _ ech sl ds hech hsl hrest3 hdsne hds
  · intro ctx l f c0 ech sl hhead hlo hhi hall hf hech hsl
    obtain ⟨t, rfl⟩ : ∃ t, l = c0 :: t := by
      rcases l with _ | ⟨a, t⟩
      · simp at hhead
      · simp at hhead
        exact ⟨t, by rw [hhead]⟩
    have hrest : restCP (mkParser ((c0 :: t) ++ 46 :: (f ++ ech :: sl)))
        = (c0 :: t) ++ 46 :: (f ++ ech :: sl) := by
      simp [mkParser, restCP]
    rw [scanNumber_dec _ ctx c0 (t ++ 46 :: (f ++ ech :: sl)) (by simpa using hrest)
      hlo hhi]
    rw [scanNumberRest_val _ ctx .Decimal _ (c0 :: t) (46 :: (f ++ ech :: sl)) hrest
      (fun d hd => Or.inl (hall d hd)) (by rw [sepRun_digits _ _ hall]; simp) (by rfl)]
    have hfof : digitsOf f = f := by
      rw [digitsOf]
      apply List.filter_eq_self.mpr
      intro d hd
      have h := hf d hd
      simp only [isDecimalDigit, Bool.and_eq_true, decide_eq_true_eq] at h
      simp only [ne_eq, decide_eq_true_eq]
      omega
    have h95t : ((f ++ ech :: sl).headD 0 == 95) = false := by
      rcases f with _ | ⟨f0, ft⟩
      · rcases hech with rfl | rfl <;> rfl
      · have h := hf f0 (by simp)
        simp only [isDecimalDigit, Bool.and_eq_true, decide_eq_true_eq] at h
        simp
        omega
    rw [if_pos (by rfl), List.tail_cons,
      if_neg (by rw [h95t]; exact Bool.false_ne_true)]
    have hsd : scanDecDigits (f ++ ech :: sl) false = .ok (f.length, f) := by
      rw [scanDecDigits_char f (ech :: sl) (fun d hd => Or.inl (hf d hd))
        (by rcases hech with rfl | rfl <;> rfl), sepRun_digits _ _ hf]
      simp [hfof]
    simp only [hsd]
    have hsplit : (c0 :: t) ++ 46 :: (f ++ ech :: sl)
        = (((c0 :: t) ++ [46]) ++ f) ++ ech :: sl := by
      simp
    have hlen : (c0 :: t).length + 1 + f.length = (((c0 :: t) ++ [46]) ++ f).length := by
      simp
      omega
    have hrest3 : restCP (adv (mkParser ((c0 :: t) ++ 46 :: (f ++ ech :: sl)))
        ((c0 :: t).length + 1 + f.length)) = ech :: (sl ++ []) := by
      rw [restCP_adv, hrest, hsplit, hlen, List.drop_left]
      simp
    exact scanNumberTail_exponent_missing _ ctx _ _ ech sl [] hech hsl hrest3
      (by intro c t' h; cases h)
  · intro ctx l f c0 ech sl ds hhead hlo hhi hall hf hech hsl hdsne hds
    obtain ⟨t, rfl⟩ : ∃ t, l = c0 :: t := by
      rcases l with _ | ⟨a, t⟩
      · simp at hhead
      · simp at hhead
        exact ⟨t, by rw [hhead]⟩
    have hrest : restCP (mkParser ((c0 :: t) ++ 46 :: (f ++ ech :: (sl ++ ds))))
        = (c0 :: t) ++ 46 :: (f ++ ech :: (sl ++ ds)) := by
      simp [mkParser, restCP]
    rw [scanNumber_dec _ ctx c0 (t ++ 46 :: (f ++ ech :: (sl ++ ds)))
      (by simpa using hrest) hlo hhi]
    rw [scanNumberRest_val _ ctx .Decimal _ (c0 :: t) (46 :: (f ++ ech :: (sl ++ ds)))
      hrest (fun d hd => Or.inl (hall d hd)) (by rw [sepRun_digits _ _ hall]; simp)
      (by rfl)]
    have hfof : digitsOf f = f := by
      rw [digitsOf]
      apply List.filter_eq_self.mpr
      intro d hd
      have h := hf d hd
      simp only [isDecimalDigit, Bool.and_eq_true, decide_eq_true_eq] at h
      simp only [ne_eq, decide_eq_true_eq]
      omega
    have h95t : ((f ++ ech :: (sl ++ ds)).headD 0 == 95) = false := by
      rcases f with _ | ⟨f0, ft⟩
      · rcases hech with rfl | rfl <;> rfl
      · have h := hf f0 (by simp)
        simp only [isDecimalDigit, Bool.and_eq_true, decide_eq_true_eq] at h
        simp
        omega
    rw [if_pos (by rfl), List.tail_cons,
      if_neg (by rw [h95t]; exact Bool.false_ne_true)]
    have hsd : scanDecDigits (f ++ ech :: (sl ++ ds)) false = .ok (f.length, f) := by
      rw [scanDecDigits_char f (ech :: (sl ++ ds)) (fun d hd => Or.inl (hf d hd))
        (by rcases hech with rfl | rfl <;> rfl), sepRun_digits _ _ hf]
      simp [hfof]
    simp only [hsd]
    have hsplit : (c0 :: t) ++ 46 :: (f ++ ech :: (sl ++ ds))
        = (((c0 :: t) ++ [46]) ++ f) ++ ech :: (sl ++ ds) := by
      simp
    have hlen : (c0 :: t).length + 1 + f.length = (((c0 :: t) ++ [46]) ++ f).length := by
      simp
      omega
    have hrest3 : restCP (adv (mkParser ((c0 :: t) ++ 46 :: (f ++ ech :: (sl ++ ds))))
        ((c0 :: t).length + 1 + f.length)) = ech :: (sl ++ ds) := by
      rw [restCP_adv, hrest, hsplit, hlen, List.drop_left]
    exact scanNumberTail_exponent _ ctx _ _ ech sl ds hech hsl hrest3 hdsne hds
  · intro ctx ech sl hech hsl
    have hrest : restCP (mkParser (48 :: ech :: sl)) = 48 :: ech :: sl := by
      simp [mkParser, restCP]
    rw [scanNumber_zeroOther _ ctx ech sl hrest
      (by rcases hech with rfl | rfl <;> decide) (by rcases hech with rfl | rfl <;> decide)
      (by rcases hech with rfl | rfl <;> decide) (by rcases hech with rfl | rfl <;> decide)
      (by rcases hech with rfl | rfl <;> decide) (by rcases hech with rfl | rfl <;> decide)]
    rw [scanNumberRest_val _ ctx .Decimal _ [] (ech :: sl)
      (by rw [restCP_adv, hrest]; rfl) (by simp) rfl
      (by rcases hech with rfl | rfl <;> rfl)]
    rw [if_neg (by rcases hech with rfl | rfl <;> simp)]
    have hrest3 : restCP (adv (adv (mkParser (48 :: ech :: sl)) 1)
        (List.length ([] : List Nat))) = ech :: (sl ++ []) := by
      rw [restCP_adv, restCP_adv, hrest]
      simp
    exact scanNumberTail_exponent_missing _ ctx _ _ ech sl [] hech hsl hrest3
      (by intro c t' h; cases h)
  · intro ctx ech sl ds hech hsl hdsne hds
    have hrest : restCP (mkParser (48 :: ech :: (sl ++ ds))) = 48 :: ech :: (sl ++ ds) := by
      simp [mkParser, restCP]
    rw [scanNumber_zeroOther _ ctx ech (sl ++ ds) hrest
      (by rcases hech with rfl | rfl <;> decide) (by rcases hech with rfl | rfl <;> decide)
      (by rcases hech with rfl | rfl <;> decide) (by rcases hech with rfl | rfl <;> decide)
      (by rcases hech with rfl | rfl <;> decide) (by rcases hech with rfl | rfl <;> decide)]
    rw [scanNumberRest_val _ ctx .Decimal _ [] (ech :: (sl ++ ds))
      (by rw [restCP_adv, hrest]; rfl) (by simp) rfl
      (by rcases hech with rfl | rfl <;> rfl)]
    rw [if_neg (by rcases hech with rfl | rfl <;> simp)]
    have hrest3 : restCP (adv (adv (mkParser (48 :: ech :: (sl ++ ds))) 1)
        (List.length ([] : List Nat))) = ech :: (sl ++ ds) := by
      rw [restCP_adv, restCP_adv, hrest]
      rfl
    exact scanNumberTail_exponent _ ctx _ _ ech sl ds hech hsl hrest3 hdsne hds
  · intro ctx c89 m ech sl hs hc89 hm hech hsl
    have hrest : restCP (mkParser (48 :: c89 :: (m ++ ech :: sl)))
        = 48 :: c89 :: (m ++ ech :: sl) := by
      simp [mkParser, restCP]
    rw [scanNumber_zero89 _ ctx c89 (m ++ ech :: sl) hrest hc89 hs]
    show scanNumberRest ⟨48 :: c89 :: (m ++ ech :: sl), 1, 0, flagsOctals, 0, []⟩
      ctx .DecimalWithLeadingZero (.num 0) = .error .MissingExponent
    have hallm : ∀ d ∈ c89 :: m, isDecimalDigit d = true := by
      intro d hd
      rcases List.mem_cons.mp hd with rfl | hdm
      · rcases hc89 with rfl | rfl <;> decide
      · exact hm d hdm
    have hrestq : restCP (⟨48 :: c89 :: (m ++ ech :: sl), 1, 0, flagsOctals, 0, []⟩ :
        ParserState) = (c89 :: m) ++ ech :: sl := by
      simp [restCP]
    rw [scanNumberRest_val _ ctx .DecimalWithLeadingZero _ (c89 :: m) (ech :: sl)
      hrestq (fun d hd => Or.inl (hallm d hd)) (by rw [sepRun_digits _ _ hallm]; simp)
      (by rcases hech with rfl | rfl <;> rfl)]
    rw [if_neg (by rcases hech with rfl | rfl <;> simp)]
    have hrest3 : restCP (adv (⟨48 :: c89 :: (m ++ ech :: sl), 1, 0, flagsOctals, 0, []⟩ :
        ParserState) (c89 :: m).length) = ech :: (sl ++ []) := by
      rw [restCP_adv, hrestq, List.drop_left]
      simp
    exact scanNumberTail_exponent_missing _ ctx _ _ ech sl [] hech hsl hrest3
      (by intro c t' h; cases h)
  · intro ctx c89 m ech sl ds hs hc89 hm hech hsl hdsne hds
    have hrest : restCP (mkParser (48 :: c89 :: (m ++ ech :: (sl ++ ds))))
        = 48 :: c89 :: (m ++ ech :: (sl ++ ds)) := by
      simp [mkParser, restCP]
    rw [scanNumber_zero89 _ ctx c89 (m ++ ech :: (sl ++ ds)) hrest hc89 hs]
    show ∃ p', scanNumberRest
      ⟨48 :: c89 :: (m ++ ech :: (sl ++ ds)), 1, 0, flagsOctals, 0, []⟩
      ctx .DecimalWithLeadingZero (.num 0) = .ok (p', .NumericLiteral)
    have hallm : ∀ d ∈ c89 :: m, isDecimalDigit d = true := by
      intro d hd
      rcases List.mem_cons.mp hd with rfl | hdm
      · rcases hc89 with rfl | rfl <;> decide
      · exact hm d hdm
    have hrestq : restCP (⟨48 :: c89 :: (m ++ ech :: (sl ++ ds)), 1, 0, flagsOctals,
        0, []⟩ : ParserState) = (c89 :: m) ++ ech :: (sl ++ ds) := by
      simp [restCP]
    rw [scanNumberRest_val _ ctx .DecimalWithLeadingZero _ (c89 :: m) (ech :: (sl ++ ds))
      hrestq (fun d hd => Or.inl (hallm d hd)) (by rw [sepRun_digits _ _ hallm]; simp)
      (by rcases hech with rfl | rfl <;> rfl)]
    rw [if_neg (by rcases hech with rfl | rfl <;> simp)]
    have hrest3 : restCP (adv
        (⟨48 :: c89 :: (m ++ ech :: (sl ++ ds)), 1, 0, flagsOctals, 0, []⟩ :
        ParserState) (c89 :: m).length) = ech :: (sl ++ ds) := by
      rw [restCP_adv, hrestq, List.drop_left]
    exact scanNumberTail_exponent _ ctx _ _ ech sl ds hech hsl hrest3 hdsne hds

/-- Witness for C8: `1e`, `1E-`, `1.5e`, `0e` and `08e` are missing an
exponent; `1e+5`, `1.5e+3`, `0e5` and `08e1` succeed. -/
theorem spec_C8_witness :
    scanNumber (mkParser [49, 101]) ctxSloppy .Decimal = .error .MissingExponent ∧
    scanNumber (mkParser [49, 69, 45]) ctxSloppy .Decimal = .error .MissingExponent ∧
    (∃ p', scanNumber (mkParser [49, 101, 43, 53]) ctxSloppy .Decimal =
      .ok (p', .NumericLiteral)) ∧
    scanNumber (mkParser [49, 46, 53, 101]) ctxSloppy .Decimal =
      .error .MissingExponent ∧
    (∃ p', scanNumber (mkParser [49, 46, 53, 101, 43, 51]) ctxSloppy .Decimal =
      .ok (p', .NumericLiteral)) ∧
    scanNumber (mkParser [48, 101]) ctxSloppy .Decimal = .error .MissingExponent ∧
    (∃ p', scanNumber (mkParser [48, 101, 53]) ctxSloppy .Decimal =
      .ok (p', .NumericLiteral)) ∧
    scanNumber (mkParser [48, 56, 101]) ctxSloppy .Decimal = .error .MissingExponent ∧
    ∃ p', scanNumber (mkParser [48, 56, 101, 49]) ctxSloppy .Decimal =
      .ok (p', .NumericLiteral) := by
  refine ⟨?_, ?_, ?_, ?_, ?_, ?_, ?_, ?_, ?_⟩
  · exact spec_C8.1 ctxSloppy [49] 49 101 [] (by decide) (by decide) (by decide)
      (by decide) (by decide) (by decide)
  · exact spec_C8.1 ctxSloppy [49] 49 69 [45] (by decide) (by decide) (by decide)
      (by decide) (by decide) (by decide)
  · exact spec_C8.2.1 ctxSloppy [49] 49 101 [43] [53] (by decide) (by decide)
      (by decide) (by decide) (by decide) (by decide) (by decide) (by decide)
  · exact spec_C8.2.2.1 ctxSloppy [49] [53] 49 101 [] (by decide) (by decide)
      (by decide) (by decide) (by decide) (by decide) (by decide)
  · exact spec_C8.2.2.2.1 ctxSloppy [49] [53] 49 101 [43] [51] (by decide) (by decide)
      (by decide) (by decide) (by decide) (by decide) (by decide) (by decide)
      (by decide)
  · exact spec_C8.2.2.2.2.1 ctxSloppy 101 [] (by decide) (by decide)
  · exact spec_C8.2.2.2.2.2.1 ctxSloppy 101 [] [53] (by decide) (by decide)
      (by decide) (by decide)
  · exact spec_C8.2.2.2.2.2.2.1 ctxSloppy 56 [] 101 [] (by decide) (by decide)
      (by decide) (by decide) (by decide)
  · exact spec_C8.2.2.2.2.2.2.2 ctxSloppy 56 [] 101 [] [49] (by decide) (by decide)
      (by decide) (by decide) (by decide) (by decide) (by decide)

end Meriyah
